import Mathlib

/-!
The rule registry and the lint run of hclvet.

A shallow embedding of `internal/cli/appcfg/appcfg.go` (the in-memory registry of rulesets
and rules and its mutating operations), of the lint run of `internal/cli/lint.go` with
`internal/utils/utils.go`, and of the rule ids and the ruleset update of
`internal/cli/ruleset`, together with the data model of `sdk/models.go`; further the
validation of ruleset and rule names, the collection of the target files, the calls of
`internal/plugin/client.go` to a rule process, and the decoding of an output line into
the wrapper of `sdk/models.go`.

Modelling conventions.

* A Go slice is a `List`; the registry is passed explicitly and every mutating method
  returns the error it reports together with the registry as it stands in memory when the
  method returns.  The `Rules` slices of distinct rulesets are taken not to share a
  backing array (they are decoded separately from the config file).
* `strings.ToLower` and the outcome of `os.WriteFile` are not code of the repository;
  they are parameters (`toLower`, `writeFile`) of the operations that use them.
  `writeFile c` is `none` when the file write of the registry `c` succeeds and
  `some text` when the file system reports the error `text`.
* A Go `error` is an `Error`; a method returning only `error` returns `Except Error Unit`.
* A Go `string` is a `String`, that is, text that is valid UTF-8; where the code or a
  library counts bytes, the bytes are those of `utf8Bytes`.
* The libraries the code calls (`bufio`, `ozzo-validation`, `encoding/json`, gRPC, the
  file system) are modelled by their documented behaviour, or taken as parameters of a
  world structure.
* A function of the lint run or of the build of rules ends in one of four ways, those of
  `Outcome`: it returns a value, it returns an error, the program panics on a nil pointer,
  or it does not return because a call to a rule process, made without a deadline, never
  comes back.  A deferred call runs in the first three cases and not in the fourth.
-/

namespace Hclvet

/-! ## Data model (`sdk/models.go`) -/

/-- Rule of `sdk/models.go`.  `Check` is the embedded interface value, kept as an optional
handle of the implementation (`none` is the nil interface). -/
structure Rule where
  ID : String
  Name : String
  Short : String
  Long : String
  Link : String
  Enabled : Bool
  Check : Option Nat
deriving DecidableEq, Repr

/-- Ruleset of `sdk/models.go`. -/
structure Ruleset where
  Name : String
  Version : String
  Repository : String
  Enabled : Bool
  Rules : List Rule
deriving DecidableEq, Repr

/-- Appcfg of `appcfg.go`: the parsed config, a slice of rulesets. -/
structure Appcfg where
  Rulesets : List Ruleset
deriving DecidableEq, Repr

/-- A Go `error` value: one made in the program with its text (`errors.New`,
`fmt.Errorf`), or one handed back by a library or the operating system. -/
inductive Error where
  | msg (text : String)
  | io (text : String)
deriving DecidableEq, Repr

deriving instance DecidableEq for Except

/-- The loop shape shared by the registry methods,
`for i, x := range xs { if !p x { continue }; ...; return }`:
the index and the value at which the body first gets past its `continue` guard. -/
def rangeFirst {α : Type} (p : α → Bool) : List α → Option (Nat × α)
  | [] => none
  | x :: xs => if p x then some (0, x) else (rangeFirst p xs).map (fun q => (q.1 + 1, q.2))

/-- ASCII lower-casing of a string; it agrees with `strings.ToLower` on ASCII input and is
used to evaluate the operations on concrete registries. -/
def asciiLower (s : String) : String := String.mk (s.data.map Char.toLower)

/-- A file system on which every write succeeds. -/
def writeOk : Appcfg → Option String := fun _ => none

/-- A file system on which every write fails with the error `text`. -/
def writeFail (text : String) : Appcfg → Option String := fun _ => some text

namespace Appcfg

/-! ## Registry operations (`internal/cli/appcfg/appcfg.go`) -/

/-- writeConfig takes the current representation of config and writes it to the file; the
error of `os.WriteFile`, if any, is returned. -/
def writeConfig (writeFile : Appcfg → Option String) (appcfg : Appcfg) : Except Error Unit :=
  match writeFile appcfg with
  | some err => .error (.io err)
  | none => .ok ()

/-- RulesetExists determines if a ruleset has already been added (exact name comparison). -/
def RulesetExists (appcfg : Appcfg) (name : String) : Bool :=
  appcfg.Rulesets.any (fun ruleset => ruleset.Name == name)

/-- AddRuleset adds a new ruleset.  The existence check is made on `rs.Name` as given; the
name is lower-cased afterwards, the ruleset is appended and the config is written. -/
def AddRuleset (toLower : String → String) (writeFile : Appcfg → Option String)
    (appcfg : Appcfg) (rs : Ruleset) : Except Error Unit × Appcfg :=
  if appcfg.RulesetExists rs.Name then
    (.error (.msg "ruleset already exists"), appcfg)
  else
    let rs := { rs with Name := toLower rs.Name }
    let appcfg := { appcfg with Rulesets := appcfg.Rulesets ++ [rs] }
    (appcfg.writeConfig writeFile, appcfg)

/-- UpdateRuleset updates an existing ruleset: the first stored ruleset whose name is
`rs.Name` is overwritten by `rs` with its name lower-cased, then the config is written. -/
def UpdateRuleset (toLower : String → String) (writeFile : Appcfg → Option String)
    (appcfg : Appcfg) (rs : Ruleset) : Except Error Unit × Appcfg :=
  match rangeFirst (fun ruleset => ruleset.Name == rs.Name) appcfg.Rulesets with
  | some (index, _) =>
    let rs := { rs with Name := toLower rs.Name }
    let appcfg := { appcfg with Rulesets := appcfg.Rulesets.set index rs }
    (appcfg.writeConfig writeFile, appcfg)
  | none => (.error (.msg "could not find ruleset"), appcfg)

/-- UpsertRule adds a new rule to an established ruleset, or overwrites the rule of the
same id, keeping the stored `Enabled` flag. -/
def UpsertRule (writeFile : Appcfg → Option String)
    (appcfg : Appcfg) (rulesetName : String) (newRule : Rule) : Except Error Unit × Appcfg :=
  match rangeFirst (fun ruleset => ruleset.Name == rulesetName) appcfg.Rulesets with
  | some (index, ruleset) =>
    match rangeFirst (fun rule => rule.ID == newRule.ID) ruleset.Rules with
    | some (ruleIndex, rule) =>
      -- Keep user settings for updated rule
      let newRule := { newRule with Enabled := rule.Enabled }
      let ruleset := { ruleset with Rules := ruleset.Rules.set ruleIndex newRule }
      let appcfg := { appcfg with Rulesets := appcfg.Rulesets.set index ruleset }
      (appcfg.writeConfig writeFile, appcfg)
    | none =>
      let ruleset := { ruleset with Rules := ruleset.Rules ++ [newRule] }
      let appcfg := { appcfg with Rulesets := appcfg.Rulesets.set index ruleset }
      (appcfg.writeConfig writeFile, appcfg)
  | none => (.error (.msg "ruleset not found"), appcfg)

/-- SetRulesetEnabled changes the enabled attribute on the first ruleset named `name`. -/
def SetRulesetEnabled (writeFile : Appcfg → Option String)
    (appcfg : Appcfg) (name : String) (enabled : Bool) : Except Error Unit × Appcfg :=
  match rangeFirst (fun ruleset => ruleset.Name == name) appcfg.Rulesets with
  | some (index, ruleset) =>
    let ruleset := { ruleset with Enabled := enabled }
    let appcfg := { appcfg with Rulesets := appcfg.Rulesets.set index ruleset }
    (appcfg.writeConfig writeFile, appcfg)
  | none => (.error (.msg "ruleset not found"), appcfg)

/-- SetRuleEnabled changes the enabled attribute on a rule.  The loop variable `rs` is a
copy of the stored ruleset whose `Rules` slice shares the stored backing array, so the
assignment `rs.Rules[index].Enabled = enabled` lands in the registry. -/
def SetRuleEnabled (writeFile : Appcfg → Option String)
    (appcfg : Appcfg) (ruleset rule : String) (enabled : Bool) : Except Error Unit × Appcfg :=
  match rangeFirst (fun rs => rs.Name == ruleset) appcfg.Rulesets with
  | some (rsIndex, rs) =>
    match rangeFirst (fun r => r.ID == rule) rs.Rules with
    | some (index, r) =>
      let rs := { rs with Rules := rs.Rules.set index { r with Enabled := enabled } }
      let appcfg := { appcfg with Rulesets := appcfg.Rulesets.set rsIndex rs }
      (appcfg.writeConfig writeFile, appcfg)
    | none => (.error (.msg "rule not found"), appcfg)
  | none => (.error (.msg "ruleset not found"), appcfg)

/-- GetRuleset returns the first ruleset of the given name. -/
def GetRuleset (appcfg : Appcfg) (name : String) : Except Error Ruleset :=
  match rangeFirst (fun ruleset => ruleset.Name == name) appcfg.Rulesets with
  | some (_, ruleset) => .ok ruleset
  | none => .error (.msg "ruleset not found")

/-- GetRule returns the first rule of the given id inside the first ruleset of the given
name. -/
def GetRule (appcfg : Appcfg) (rulesetName ruleID : String) : Except Error Rule :=
  match rangeFirst (fun ruleset => ruleset.Name == rulesetName) appcfg.Rulesets with
  | some (_, ruleset) =>
    match rangeFirst (fun rule => rule.ID == ruleID) ruleset.Rules with
    | some (_, rule) => .ok rule
    | none => .error (.msg "rule not found")
  | none => .error (.msg "ruleset not found")

end Appcfg

/-! ## Registry invariants of the data model -/

/-- The ruleset-name invariant: every stored ruleset name is lower-case (a fixed point of
`toLower`) and no two stored rulesets have the same name. -/
def RegistryInv (toLower : String → String) (appcfg : Appcfg) : Prop :=
  (∀ rs ∈ appcfg.Rulesets, toLower rs.Name = rs.Name) ∧
    (appcfg.Rulesets.map (fun rs => rs.Name)).Nodup

instance (toLower : String → String) (appcfg : Appcfg) : Decidable (RegistryInv toLower appcfg) := by
  unfold RegistryInv; infer_instance

/-- The rule-id invariant: inside every ruleset the rule ids are pairwise distinct. -/
def RuleIdsUnique (appcfg : Appcfg) : Prop :=
  ∀ rs ∈ appcfg.Rulesets, (rs.Rules.map (fun r => r.ID)).Nodup

instance (appcfg : Appcfg) : Decidable (RuleIdsUnique appcfg) := by
  unfold RuleIdsUnique; infer_instance

/-! ## Concrete registries used to evaluate the operations -/

/-- A rule with the given id, name and enabled flag. -/
def mkRule (id name : String) (enabled : Bool) : Rule :=
  { ID := id, Name := name, Short := "short", Long := "long", Link := "link",
    Enabled := enabled, Check := none }

/-- An enabled ruleset with the given name, version and rules. -/
def mkRuleset (name version : String) (rules : List Rule) : Ruleset :=
  { Name := name, Version := version, Repository := "repo/" ++ name, Enabled := true,
    Rules := rules }

/-- The empty registry. -/
def emptyCfg : Appcfg := { Rulesets := [] }

/-- A registry holding the single ruleset `aws`, version 1.0.0, without rules. -/
def awsOnlyCfg : Appcfg := { Rulesets := [mkRuleset "aws" "1.0.0" []] }

/-- The registry left by adding the ruleset named "AWS" to the empty registry: the name
is stored lower-cased, the repository is the one given with the upper-case name. -/
def awsOnlyCfg_upper : Appcfg :=
  { Rulesets := [{ mkRuleset "AWS" "1.0.0" [] with Name := "aws" }] }

/-- A registry with two rulesets, `aws` with two rules and `gcp` with one. -/
def twoCfg : Appcfg :=
  { Rulesets :=
      [mkRuleset "aws" "1.0.0" [mkRule "abc12" "bucket" true, mkRule "0f3d1" "tags" false],
       mkRuleset "gcp" "0.2.0" [mkRule "abc12" "zones" true]] }

/-! ## Reading a line of the document (`internal/utils/utils.go`)

`ReadLine` drives a `bufio.Scanner` with its default split function `bufio.ScanLines` and
its default token limit over the whole document held in a `bytes.Buffer`.  The scanner
is a library; the model below follows its documented behaviour: a token is the input up
to the next newline, one trailing carriage return dropped; an empty remainder ends the
scan; a line that does not fit the scanner buffer of `MaxScanTokenSize` bytes together
with what ends it stops the scan for good (`ErrTooLong`). -/

/-- A byte string, the content of a Go `[]byte` or `string`: a list of byte values. -/
abbrev Bytes := List Nat

/-- The error value `io.EOF`. -/
def EOF : Error := .msg "EOF"

/-- The constant `bufio.MaxScanTokenSize`, the size limit of the scanner buffer. -/
def MaxScanTokenSize : Nat := 64 * 1024

/-- The helper `dropCR` of `bufio`: drops one trailing carriage return. -/
def dropCR (data : Bytes) : Bytes :=
  if data.getLast? = some 13 then data.dropLast else data

/-- One call of `Scanner.Scan` with `bufio.ScanLines` on the input `data` not consumed so
far: `none` when `Scan` returns false (no input left, or the line is too long for the
buffer), otherwise the token and the input left after it. -/
def scanLine (data : Bytes) : Option (Bytes × Bytes) :=
  if data = [] then none
  else
    let line := data.takeWhile (fun b => b != 10)
    if MaxScanTokenSize ≤ line.length then none
    else some (dropCR line, (data.dropWhile (fun b => b != 10)).drop 1)

/-- The loop `for sc.Scan() { lastLine++; if lastLine == lineNum { return ... } }` of
ReadLine; `fuel` bounds the number of calls of `Scan` and is never used up when it
exceeds the length of the input. -/
def ReadLine.loop (lineNum : Int) : Nat → Bytes → Nat → Bytes × Nat × Option Error
  | 0, _, lastLine => ([], lastLine, some EOF)
  | fuel + 1, data, lastLine =>
    match scanLine data with
    | none => ([], lastLine, some EOF)
    | some (text, rest) =>
      if ((lastLine + 1 : Nat) : Int) = lineNum then (text, lastLine + 1, none)
      else ReadLine.loop lineNum fuel rest (lastLine + 1)

/-- ReadLine grabs a specific line from the provided corpus: the line, the number of the
last line scanned and the error. -/
def ReadLine (r : Bytes) (lineNum : Int) : Bytes × Nat × Option Error :=
  ReadLine.loop lineNum (r.length + 1) r 0

/-- The lines of a document as the spec words them: the pieces of the raw bytes between
newlines, a final empty piece (after a closing newline, or of the empty document) not
counted.  The pieces still carry a trailing carriage return. -/
def rawLines : Bytes → List Bytes
  | [] => []
  | b :: rest =>
    if b = 10 then [] :: rawLines rest
    else
      match rawLines rest with
      | [] => [[b]]
      | l :: ls => (b :: l) :: ls

/-- The lines of a document without their line terminator (a newline, with the carriage
return before it if there is one). -/
def docLines (content : Bytes) : List Bytes := (rawLines content).map dropCR

/-- A document of one line of 65536 letters `a`, without a newline. -/
def longLineDoc : Bytes := List.replicate 65536 97

/-- A document of two lines, `ab` and `c`, the first ended by CR LF. -/
def twoLineDoc : Bytes := [97, 98, 13, 10, 99, 10]

/-! ## Diagnostics (`sdk/models.go`, `sdk/sdk.go`, `internal/plugin/proto`) -/

/-- Position of `sdk/models.go`; `Line` and `Column` are `uint32` values. -/
structure Position where
  Line : Nat
  Column : Nat
deriving DecidableEq, Repr

/-- Range of `sdk/models.go`. -/
structure Range where
  Start : Position
  End : Position
deriving DecidableEq, Repr

/-- RuleError of `sdk/models.go`; the `Metadata` map is kept as a list of key/value
pairs. -/
structure RuleError where
  Suggestion : String
  Remediation : String
  Location : Range
  Metadata : List (String × String)
deriving DecidableEq, Repr

/-- LintError of `sdk/models.go`; `Line` is the text of the source line, as bytes. -/
structure LintError where
  Filepath : String
  Line : Bytes
  RuleErr : RuleError
  Rule : Rule
  Ruleset : String
deriving DecidableEq, Repr

namespace proto

/-- Modelled from the spec: the generated wire type `proto.Position` is not among the
sources; the wire protocol gives a position a line and a column (`uint32` in
`sdk/models.go`). -/
structure Position where
  Line : Nat
  Column : Nat
deriving DecidableEq, Repr

/-- Modelled from the spec: the generated wire type `proto.Location`, a start and an end
position; `sdk/sdk.go` fills both fields with pointers, `none` is the nil pointer. -/
structure Location where
  Start : Option Position
  End : Option Position
deriving DecidableEq, Repr

/-- Modelled from the spec: the generated wire type `proto.RuleError`, with location,
suggestion, remediation and metadata; `Location` is a pointer, `none` is nil. -/
structure RuleError where
  Location : Option Location
  Suggestion : String
  Remediation : String
  Metadata : List (String × String)
deriving DecidableEq, Repr

/-- Modelled from the spec: the generated wire type `proto.RuleInfo`, what a rule reports
about itself: name, short and long description, link and enabled default. -/
structure RuleInfo where
  Name : String
  Short : String
  Long : String
  Link : String
  Enabled : Bool
deriving DecidableEq, Repr

/-- Modelled from the spec: the generated wire type `proto.GetRuleInfoResponse`, the
answer to `GetRuleInfo`.  Its field `RuleInfo` is a pointer to a message: `none` when the
process sent no rule info. -/
structure GetRuleInfoResponse where
  RuleInfo : Option RuleInfo
deriving DecidableEq, Repr

end proto

/-- ruleErrorsToProto of `sdk/sdk.go`: every rule error becomes a wire message with its
location, start and end set. -/
def ruleErrorsToProto (ruleErrors : List RuleError) : List proto.RuleError :=
  ruleErrors.map fun ruleError =>
    { Location := some
        { Start := some
            { Line := ruleError.Location.Start.Line, Column := ruleError.Location.Start.Column },
          End := some
            { Line := ruleError.Location.End.Line, Column := ruleError.Location.End.Column } },
      Suggestion := ruleError.Suggestion,
      Remediation := ruleError.Remediation,
      Metadata := ruleError.Metadata }

/-- ProtoToRuleError of `sdk/models.go`; `none` stands for the nil pointer dereference of
a message without location, start or end. -/
def ProtoToRuleError (p : proto.RuleError) : Option RuleError :=
  match p.Location with
  | none => none
  | some location =>
    match location.Start, location.End with
    | some start, some stop =>
      some
        { Suggestion := p.Suggestion,
          Remediation := p.Remediation,
          Metadata := p.Metadata,
          Location :=
            { Start := { Line := start.Line, Column := start.Column },
              End := { Line := stop.Line, Column := stop.Column } } }
    | _, _ => none

/-! ## Calls to the rule process (`internal/plugin/client.go`)

The host reaches a rule process through the gRPC client stub.  A call carries a
`context.Context`; the gRPC library ends a call whose context has a deadline with an
error when the deadline passes, and waits for the process otherwise. -/

/-- A `context.Context` as far as it bounds a call: the time until its deadline, `none`
when it has none. -/
structure Context where
  deadline : Option Nat
deriving DecidableEq, Repr

namespace context

/-- The context returned by `context.Background()`: it is never cancelled and has no
deadline. -/
def Background : Context := { deadline := none }

end context

/-- What a rule process does with a request: it answers after some time, its call fails
after some time (the handler returns an error, or the connection breaks), or it never
responds. -/
inductive Process (α : Type) where
  | answers (after : Nat) (response : α)
  | fails (after : Nat) (err : String)
  | hangs
deriving DecidableEq, Repr

/-- How a call ends for the caller: it returns a response, it returns an error, or it
does not return. -/
inductive Call (α : Type) where
  | returned (response : α)
  | failed (err : String)
  | blocked
deriving DecidableEq, Repr

/-- A unary call of the gRPC library under a context: what the process does comes back to
the caller if it happens by the deadline of the context; at the deadline the call fails;
with no deadline the caller waits for the process. -/
def unaryCall {α : Type} (ctx : Context) (process : Process α) : Call α :=
  match process, ctx.deadline with
  | .answers _ response, none => .returned response
  | .answers after response, some deadline =>
    if after ≤ deadline then .returned response
    else .failed "rpc error: code = DeadlineExceeded desc = context deadline exceeded"
  | .fails _ err, none => .failed err
  | .fails after err, some deadline =>
    if after ≤ deadline then .failed err
    else .failed "rpc error: code = DeadlineExceeded desc = context deadline exceeded"
  | .hangs, none => .blocked
  | .hangs, some _ =>
    .failed "rpc error: code = DeadlineExceeded desc = context deadline exceeded"

namespace proto

/-- Modelled from the spec: the generated client stub `proto.HCLvetRulePluginClient` is
not among the sources; the wire protocol has two request types, `ExecuteRule` with the
bytes of the document, answered with rule errors, and `GetRuleInfo`, answered with the
rule info.  `client.go` passes each method a context before the request. -/
structure HCLvetRulePluginClient where
  ExecuteRule : Context → Bytes → Call (List RuleError)
  GetRuleInfo : Context → Call GetRuleInfoResponse

/-- Modelled from the spec: the stub made by `proto.NewHCLvetRulePluginClient` for the
connection to a rule process; each method is one unary call to the process. -/
def NewHCLvetRulePluginClient (executeRule : Bytes → Process (List RuleError))
    (getRuleInfo : Process GetRuleInfoResponse) : HCLvetRulePluginClient :=
  { ExecuteRule := fun ctx request => unaryCall ctx (executeRule request),
    GetRuleInfo := fun ctx => unaryCall ctx getRuleInfo }

end proto

/-- GRPCClient of `client.go`: the client that talks to a plugin, holding the stub. -/
structure GRPCClient where
  client : proto.HCLvetRulePluginClient

/-- ExecuteRule of `client.go` calls the corresponding ExecuteRule on the plugin through
the stub, with `context.Background()`; on an error it returns an empty response and the
error. -/
def GRPCClient.ExecuteRule (m : GRPCClient) (request : Bytes) : Call (List proto.RuleError) :=
  match m.client.ExecuteRule context.Background request with
  | .failed err => .failed err
  | .returned response => .returned response
  | .blocked => .blocked

/-- GetRuleInfo of `client.go` calls the corresponding GetRuleInfo on the plugin through
the stub, with `context.Background()`; on an error it returns an empty response and the
error. -/
def GRPCClient.GetRuleInfo (m : GRPCClient) : Call proto.GetRuleInfoResponse :=
  match m.client.GetRuleInfo context.Background with
  | .failed err => .failed err
  | .returned response => .returned response
  | .blocked => .blocked

/-- The client of a rule process that never responds to either request. -/
def hungClient : GRPCClient :=
  { client := proto.NewHCLvetRulePluginClient (fun _ => .hangs) .hangs }

/-! ## The lint run (`internal/cli/lint.go`)

What a function of the lint run does besides returning is kept as a list of events, in
the order they happen.  The progress lines of the formatter are not kept; the two
`PrintErr` calls that show one lint error, one for each output mode, are one event. -/

/-- The text of an error, what `%v` and `%w` print. -/
def Error.text : Error → String
  | .msg text => text
  | .io text => text

/-- How a call of a function of the program ends: it returns a value and a nil error, it
returns an error, the program panics (nil pointer dereference), or the call does not
return (it waits for a rule process that never responds). -/
inductive Outcome (α : Type) where
  | ok (value : α)
  | error (err : Error)
  | panic
  | blocked
deriving DecidableEq, Repr

/-- What running a rule executable through `go-plugin` comes to, for one call: the
client cannot be created, the plugin cannot be dispensed, the dispensed value is not a
`RuleDefinition`, the call returns an error, the call returns the response `α` of the
process, or the call never returns (`client.go` makes it without a deadline). -/
inductive PluginRun (α : Type) where
  | clientError (err : String)
  | dispenseError (err : String)
  | notRuleDefinition
  | callError (err : String)
  | response (value : α)
  | hangs
deriving DecidableEq, Repr

/-- The run of a rule executable whose client is created and whose plugin is dispensed:
it comes to what the call of `client.go` comes to. -/
def PluginRun.ofCall {α : Type} : Call α → PluginRun α
  | .returned value => .response value
  | .failed err => .callError err
  | .blocked => .hangs

/-- The events of a run. -/
inductive Event where
  /-- `lintFile` calls `runRule` with this ruleset name, rule and file name. -/
  | runRule (ruleset : String) (rule : Rule) (filepath : String)
  /-- `plugin.NewClient` for the executable at `cmd`. -/
  | newClient (cmd : String)
  /-- `Kill` on the client of the executable at `cmd`. -/
  | kill (cmd : String)
  /-- A lint error is printed. -/
  | lintError (e : LintError)
  /-- The line `Rule failed ...` is printed for the rule of this name. -/
  | ruleFailed (rule : String) (err : Error)
  /-- The line `Skipped file ...` is printed for the file of this name. -/
  | skippedFile (file : String) (err : Error)
  /-- `buildRule` is called with this source and destination path. -/
  | buildRule (srcPath dstPath : String)
deriving DecidableEq, Repr

/-- An opened file (`*os.File`): its name, the size `Stat` reports, and what
`ioutil.ReadAll` returns for it. -/
structure File where
  Name : String
  Size : Nat
  ReadAll : Except String Bytes
deriving DecidableEq, Repr

/-- The surroundings of a lint run, as functions of what is asked of them:
`os.Open` of a path, the available memory `mem.VirtualMemory` reports when a file is
checked, the error text of the HCL parser for a content and file name (`none`: no
errors), the run of the rule executable at a path on a document (the response is the
field `Errors` of the message the process sent, as the host receives it), and the config
directory `ConfigPath()`. -/
structure LintWorld where
  configPath : String
  openFile : String → Except String File
  virtualMemory : File → Except String Nat
  parseHCL : Bytes → String → Option String
  plugin : String → Bytes → PluginRun (List proto.RuleError)

/-- RulesetsPath of `appcfg/paths.go`. -/
def RulesetsPath (configPath : String) : String := configPath ++ "/" ++ "rulesets.d"

/-- RulesetPath of `appcfg/paths.go`. -/
def RulesetPath (configPath ruleset : String) : String :=
  RulesetsPath configPath ++ "/" ++ ruleset

/-- RepoPath of `appcfg/paths.go`. -/
def RepoPath (configPath ruleset : String) : String :=
  RulesetPath configPath ruleset ++ "/" ++ "repo"

/-- RepoRulesPath of `appcfg/paths.go`. -/
def RepoRulesPath (configPath ruleset : String) : String :=
  RepoPath configPath ruleset ++ "/" ++ "rules"

/-- RulePath of `appcfg/paths.go`. -/
def RulePath (configPath ruleset ruleID : String) : String :=
  RulesetPath configPath ruleset ++ "/" ++ ruleID

/-- checkAvailMemory compares the size of the file with the available memory; `vmem` is
what `mem.VirtualMemory()` returns (its `Available` field), and `uint64(fileInfo.Size())`
is the size modulo `2 ^ 64`. -/
def checkAvailMemory (vmem : Except String Nat) (file : File) : Except Error Unit :=
  match vmem with
  | .error err => .error (.io err)
  | .ok available =>
    if available < file.Size % 2 ^ 64 then
      .error (.msg ("not enough available memory. avail: " ++ toString available
        ++ "; file: " ++ toString file.Size))
    else .ok ()

/-- The loop of runRule over the rule errors of the response: the line of each is read
from the raw document and the lint error is printed; the first line that cannot be read
ends the loop with an error, and a rule error without location, start or end makes the
host dereference a nil pointer. -/
def runRule.report (ruleset : String) (rule : Rule) (filepath : String) (rawHCLFile : Bytes) :
    List proto.RuleError → List Event → Outcome Unit × List Event
  | [], trace => (.ok (), trace)
  | ruleError :: rest, trace =>
    match ruleError.Location.bind (fun location => location.Start) with
    | none => (.panic, trace)
    | some start =>
      match ReadLine rawHCLFile (start.Line : Nat) with
      | (_, _, some err) =>
        (.error (.msg ("could not get line from file: " ++ err.text)), trace)
      | (line, _, none) =>
        match ProtoToRuleError ruleError with
        | none => (.panic, trace)
        | some ruleErr =>
          runRule.report ruleset rule filepath rawHCLFile rest
            (trace ++ [.lintError
              { Filepath := filepath, Line := line, Ruleset := ruleset, Rule := rule,
                RuleErr := ruleErr }])

/-- runRule runs the rule plugin and returns the number of errors found.  The deferred
`client.Kill()` is the last event on every path on which runRule returns or panics; when
the call to the process never returns, neither does runRule. -/
def runRule (w : LintWorld) (ruleset : String) (rule : Rule) (filepath : String)
    (rawHCLFile : Bytes) : Outcome Nat × List Event :=
  let cmd := RulePath w.configPath ruleset rule.ID
  match w.plugin cmd rawHCLFile with
  | .clientError err =>
    (.error (.msg ("could not create rpc client: " ++ err)), [.newClient cmd, .kill cmd])
  | .dispenseError err =>
    (.error (.msg ("could not connect to rule plugin: " ++ err)), [.newClient cmd, .kill cmd])
  | .notRuleDefinition =>
    (.error (.msg "could not convert rule interface: %!w(<nil>)"), [.newClient cmd, .kill cmd])
  | .callError err =>
    (.error (.msg ("could not execute linting rule: " ++ err)), [.newClient cmd, .kill cmd])
  | .hangs => (.blocked, [.newClient cmd])
  | .response ruleErrs =>
    match runRule.report ruleset rule filepath rawHCLFile ruleErrs [.newClient cmd] with
    | (.ok (), trace) => (.ok ruleErrs.length, trace ++ [.kill cmd])
    | (.error err, trace) => (.error err, trace ++ [.kill cmd])
    | (.panic, trace) => (.panic, trace ++ [.kill cmd])
    | (.blocked, trace) => (.blocked, trace)

/-- The inner loop of lintFile, over the rules of one ruleset; it ends with the count so
far, or it does not end: the program panics, or a call of runRule does not return. -/
def lintFile.rules (w : LintWorld) (ruleset : String) (filepath : String) (contents : Bytes) :
    List Rule → Nat → List Event → Outcome Nat × List Event
  | [], errorsFound, trace => (.ok errorsFound, trace)
  | rule :: rest, errorsFound, trace =>
    if !rule.Enabled then lintFile.rules w ruleset filepath contents rest errorsFound trace
    else
      match runRule w ruleset rule filepath contents with
      | (.panic, events) => (.panic, trace ++ [.runRule ruleset rule filepath] ++ events)
      | (.blocked, events) => (.blocked, trace ++ [.runRule ruleset rule filepath] ++ events)
      | (.error err, events) =>
        lintFile.rules w ruleset filepath contents rest errorsFound
          (trace ++ [.runRule ruleset rule filepath] ++ events ++ [.ruleFailed rule.Name err])
      | (.ok numErrors, events) =>
        lintFile.rules w ruleset filepath contents rest (errorsFound + numErrors)
          (trace ++ [.runRule ruleset rule filepath] ++ events)

/-- The outer loop of lintFile, over the rulesets. -/
def lintFile.rulesets (w : LintWorld) (filepath : String) (contents : Bytes) :
    List Ruleset → Nat → List Event → Outcome Nat × List Event
  | [], errorsFound, trace => (.ok errorsFound, trace)
  | ruleset :: rest, errorsFound, trace =>
    if !ruleset.Enabled then lintFile.rulesets w filepath contents rest errorsFound trace
    else
      match lintFile.rules w ruleset.Name filepath contents ruleset.Rules errorsFound trace with
      | (.ok errorsFound, trace) => lintFile.rulesets w filepath contents rest errorsFound trace
      | (.error err, trace) => (.error err, trace)
      | (.panic, trace) => (.panic, trace)
      | (.blocked, trace) => (.blocked, trace)

/-- lintFile orchestrates the process of linting the given file. -/
def lintFile (w : LintWorld) (cfg : Appcfg) (file : File) : Outcome Nat × List Event :=
  match checkAvailMemory (w.virtualMemory file) file with
  | .error err => (.error err, [])
  | .ok () =>
    match file.ReadAll with
    | .error err => (.error (.io err), [])
    | .ok contents =>
      match w.parseHCL contents file.Name with
      | some diags => (.error (.io diags), [])
      | none => lintFile.rulesets w file.Name contents cfg.Rulesets 0 []

/-- The totals of a lint run: files linted, errors found, files skipped. -/
structure Tally where
  numFiles : Nat
  numErrors : Nat
  numSkipped : Nat
deriving DecidableEq, Repr

/-- The file loop of runLint.  A file that cannot be opened leaves the variable `file`
nil, and the call `file.Name()` made to print the skip message dereferences it: the run
panics.  The loop does not end either when lintFile does not return. -/
def runLint.files (w : LintWorld) (cfg : Appcfg) :
    List String → Tally → List Event → Outcome Tally × List Event
  | [], tally, trace => (.ok tally, trace)
  | path :: rest, tally, trace =>
    match w.openFile path with
    | .error _ => (.panic, trace)
    | .ok file =>
      match lintFile w cfg file with
      | (.panic, events) => (.panic, trace ++ events)
      | (.blocked, events) => (.blocked, trace ++ events)
      | (.error err, events) =>
        runLint.files w cfg rest { tally with numSkipped := tally.numSkipped + 1 }
          (trace ++ events ++ [.skippedFile file.Name err])
      | (.ok errorsFound, events) =>
        runLint.files w cfg rest
          { tally with numErrors := tally.numErrors + errorsFound,
                       numFiles := tally.numFiles + 1 }
          (trace ++ events)

/-- runLint from the point where the target files are known (the result of
`getHCLFiles`): with no file it returns the error `no hcl files found`; otherwise it
lints the files in turn and prints the totals, which are its value here. -/
def runLint (w : LintWorld) (cfg : Appcfg) (files : List String) : Outcome Tally × List Event :=
  if files.length = 0 then (.error (.msg "no hcl files found"), [])
  else runLint.files w cfg files { numFiles := 0, numErrors := 0, numSkipped := 0 } []

/-- The calls of `runRule` recorded in a list of events. -/
def calls (trace : List Event) : List (String × Rule × String) :=
  trace.filterMap fun
    | .runRule ruleset rule filepath => some (ruleset, rule, filepath)
    | _ => none

/-- The lint errors printed in a list of events. -/
def reported (trace : List Event) : List LintError :=
  trace.filterMap fun
    | .lintError e => some e
    | _ => none

/-- The enabled rules of the enabled rulesets, each with the name of its ruleset, in
ruleset registration order and then rule registration order. -/
def enabledRules (cfg : Appcfg) : List (String × Rule) :=
  (cfg.Rulesets.filter fun ruleset => ruleset.Enabled).flatMap fun ruleset =>
    (ruleset.Rules.filter fun rule => rule.Enabled).map fun rule => (ruleset.Name, rule)

/-! ## Rule ids and ruleset update (`internal/cli/ruleset`) -/

/-- The bytes of a Go string: its UTF-8 encoding. -/
def utf8Bytes (s : String) : Bytes :=
  s.data.flatMap fun c => (String.utf8EncodeChar c).map fun b => b.toNat

/-- The 32-bit FNV-1 hash of `hash/fnv` (`fnv.New32` and `Write`): from the offset basis,
for every byte the hash is multiplied by the prime in 32-bit arithmetic and then xor-ed
with the byte. -/
def fnv32 (data : Bytes) : Nat :=
  data.foldl (fun hash c => (hash * 16777619 % 2 ^ 32) ^^^ (c % 256)) 2166136261

/-- The method `Sum(nil)` of the 32-bit digest: the four bytes of the hash, most
significant first. -/
def sum32 (v : Nat) : Bytes :=
  [v / 2 ^ 24 % 256, v / 2 ^ 16 % 256, v / 2 ^ 8 % 256, v % 256]

/-- The table `0123456789abcdef` of `encoding/hex`. -/
def hextable : List Char :=
  ['0', '1', '2', '3', '4', '5', '6', '7', '8', '9', 'a', 'b', 'c', 'd', 'e', 'f']

/-- The hexadecimal digit of a value below 16. -/
def hexDigit (v : Nat) : Char := hextable.getD v '0'

/-- The function `hex.EncodeToString`: two digits for every byte, high half first. -/
def hexEncode (src : Bytes) : List Char :=
  src.flatMap fun v => [hexDigit (v / 16), hexDigit (v % 16)]

/-- generateHash takes a string and returns its hashed result: the first five
characters of the hexadecimal form of its 32-bit FNV-1 digest. -/
def generateHash (s : String) : String :=
  String.mk ((hexEncode (sum32 (fnv32 (utf8Bytes s)))).take 5)

/-- The struct rulesetInfo of `ruleset.go`, the content of the file `ruleset.hcl`. -/
structure rulesetInfo where
  Name : String
  Version : String
deriving DecidableEq, Repr

/-- An entry of the rules directory, as `Readdir` lists it. -/
structure DirEntry where
  Name : String
  IsDir : Bool
deriving DecidableEq, Repr

/-- What opening and listing the rules directory comes to. -/
inductive RulesDir where
  | openError (err : String)
  | readError (err : String)
  | entries (fileList : List DirEntry)
deriving DecidableEq, Repr

/-- The surroundings of building the rules of a ruleset: the config directory, the rules
directory of a path, `filepath.Base`, the outcome of `buildRule` (the Go compiler) for a
source and a destination path (`none`: built), the run of the built executable at a path
for `GetRuleInfo`, and the file write of the config. -/
structure BuildWorld where
  configPath : String
  rulesDir : String → RulesDir
  base : String → String
  buildRule : String → String → Option String
  ruleInfo : String → PluginRun proto.GetRuleInfoResponse
  writeFile : Appcfg → Option String

/-- getRulePluginClient returns the plugin client and the rule plugin, or kills the
client and returns an error.  The rule plugin is kept as what its `GetRuleInfo` call will
come to. -/
def getRulePluginClient (w : BuildWorld) (ruleset ruleID : String) :
    Except Error (Call proto.GetRuleInfoResponse) × List Event :=
  let cmd := RulePath w.configPath ruleset ruleID
  match w.ruleInfo cmd with
  | .clientError err =>
    (.error (.msg ("could not connect to rule plugin " ++ ruleID ++ ": " ++ err)),
      [.newClient cmd, .kill cmd])
  | .dispenseError err =>
    (.error (.msg ("could not connect to rule plugin " ++ ruleID ++ ": " ++ err)),
      [.newClient cmd, .kill cmd])
  | .notRuleDefinition =>
    (.error (.msg ("could not convert rule plugin " ++ ruleID ++ ": <nil>")),
      [.newClient cmd, .kill cmd])
  | .callError err => (.ok (.failed err), [.newClient cmd])
  | .response response => (.ok (.returned response), [.newClient cmd])
  | .hangs => (.ok .blocked, [.newClient cmd])

/-- getRuleInfo retrieves information by calling the GetRuleInfo method on the rule
plugin; the client it got is killed when it returns, and it does not return when the call
does not.  A response without rule info makes it dereference a nil pointer. -/
def getRuleInfo (w : BuildWorld) (ruleset ruleID : String) : Outcome Rule × List Event :=
  match getRulePluginClient w ruleset ruleID with
  | (.error err, trace) =>
    (.error (.msg ("could not get rule info for " ++ ruleID ++ ": " ++ err.text)), trace)
  | (.ok plugin, trace) =>
    match plugin with
    | .blocked => (.blocked, trace)
    | .failed err =>
      (.error (.msg ("could not get rule info for " ++ ruleID ++ ": " ++ err)),
        trace ++ [.kill (RulePath w.configPath ruleset ruleID)])
    | .returned response =>
      match response.RuleInfo with
      | none => (.panic, trace ++ [.kill (RulePath w.configPath ruleset ruleID)])
      | some info =>
        (.ok { ID := ruleID, Name := info.Name, Short := info.Short, Long := info.Long,
               Link := info.Link, Enabled := info.Enabled, Check := none },
          trace ++ [.kill (RulePath w.configPath ruleset ruleID)])

/-- The loop of buildAllRules over the entries of the rules directory. -/
def buildAllRules.loop (w : BuildWorld) (ruleset : String) :
    List DirEntry → Appcfg → List Event → Outcome Unit × Appcfg × List Event
  | [], cfg, trace => (.ok (), cfg, trace)
  | file :: rest, cfg, trace =>
    if !file.IsDir then buildAllRules.loop w ruleset rest cfg trace
    else
      let dirName := w.base file.Name
      let rawRulePath := RepoRulesPath w.configPath ruleset ++ "/" ++ dirName
      let ruleID := generateHash dirName
      let dstPath := RulePath w.configPath ruleset ruleID
      match w.buildRule rawRulePath dstPath with
      | some err =>
        (.error (.msg ("could not build rule " ++ dirName ++ ": " ++ err)), cfg,
          trace ++ [.buildRule rawRulePath dstPath])
      | none =>
        match getRuleInfo w ruleset ruleID with
        | (.error err, events) =>
          (.error (.msg ("could not build rule " ++ dirName ++ ": " ++ err.text)), cfg,
            trace ++ [.buildRule rawRulePath dstPath] ++ events)
        | (.panic, events) => (.panic, cfg, trace ++ [.buildRule rawRulePath dstPath] ++ events)
        | (.blocked, events) =>
          (.blocked, cfg, trace ++ [.buildRule rawRulePath dstPath] ++ events)
        | (.ok newRule, events) =>
          match cfg.UpsertRule w.writeFile ruleset newRule with
          | (.error err, cfg) =>
            (.error (.msg ("could not upsert rule " ++ dirName ++ " to config file: "
              ++ err.text)), cfg, trace ++ [.buildRule rawRulePath dstPath] ++ events)
          | (.ok (), cfg) =>
            buildAllRules.loop w ruleset rest cfg
              (trace ++ [.buildRule rawRulePath dstPath] ++ events)

/-- buildAllRules builds the plugins and places the binary underneath the correct
ruleset directory; every rule built is upserted into the registry. -/
def buildAllRules (w : BuildWorld) (cfg : Appcfg) (ruleset : String) :
    Outcome Unit × Appcfg × List Event :=
  match w.rulesDir (RepoRulesPath w.configPath ruleset) with
  | .openError err => (.error (.msg ("could not open rules folder: " ++ err)), cfg, [])
  | .readError err => (.error (.msg ("could not read rules folder: " ++ err)), cfg, [])
  | .entries fileList => buildAllRules.loop w ruleset fileList cfg []

/-- The surroundings of a ruleset update: those of a build, `strings.ToLower`, the
outcome of fetching a repository into a path (`none`: fetched), the content of
`ruleset.hcl` under a path, the outcome of `verifyRuleset` for a path and that content
(`none`: verified), and the library `semver`: `NewVersion` into versions `V` and
`GreaterThan` on them. -/
structure UpdateWorld (V : Type) extends BuildWorld where
  toLower : String → String
  getRemoteRuleset : String → String → Option String
  getRemoteRulesetInfo : String → Except String rulesetInfo
  verifyRuleset : String → rulesetInfo → Option String
  newVersion : String → Except String V
  greaterThan : V → V → Bool

/-- The function updateRuleset of `rulesetUpdate.go`: fetch the repository of the
ruleset, read and verify its info, and, when the remote version is greater than the
installed one, update the registry entry and build all rules. -/
def updateRuleset {V : Type} (w : UpdateWorld V) (cfg : Appcfg) (ruleset : Ruleset) :
    Outcome Unit × Appcfg × List Event :=
  match w.getRemoteRuleset ruleset.Repository (RepoPath w.configPath ruleset.Name) with
  | some err => (.error (.io err), cfg, [])
  | none =>
    match w.getRemoteRulesetInfo (RepoPath w.configPath ruleset.Name) with
    | .error err => (.error (.io err), cfg, [])
    | .ok info =>
      match w.verifyRuleset (RepoPath w.configPath ruleset.Name) info with
      | some err => (.error (.msg err), cfg, [])
      | none =>
        match w.newVersion info.Version with
        | .error err => (.error (.io err), cfg, [])
        | .ok newSemver =>
          match w.newVersion ruleset.Version with
          | .error err => (.error (.io err), cfg, [])
          | .ok oldSemver =>
            if !w.greaterThan newSemver oldSemver then (.ok (), cfg, [])
            else
              match cfg.UpdateRuleset w.toLower w.writeFile
                  { Name := info.Name, Version := info.Version,
                    Repository := ruleset.Repository, Enabled := ruleset.Enabled,
                    Rules := ruleset.Rules } with
              | (.error err, cfg) => (.error err, cfg, [])
              | (.ok (), cfg) => buildAllRules w.toBuildWorld cfg info.Name

/-! ## Notions used to state the properties of the lint run -/

/-- Line `n` of a document is within reach of ReadLine: `n` is at least 1 and at most the
number of lines, and each of the first `n` lines, measured up to its newline, is shorter
than the scanner buffer. -/
def ReadableLine (content : Bytes) (n : Nat) : Prop :=
  1 ≤ n ∧ n ≤ (rawLines content).length ∧
    ∀ line ∈ (rawLines content).take n, line.length < MaxScanTokenSize

instance (content : Bytes) (n : Nat) : Decidable (ReadableLine content n) := by
  unfold ReadableLine; infer_instance

/-- The number of errors one call of runRule adds to the count of lintFile: what it
returns on success, nothing when it fails. -/
def ruleCount (w : LintWorld) (filepath : String) (contents : Bytes) (r : String × Rule) : Nat :=
  match (runRule w r.1 r.2 filepath contents).1 with
  | .ok numErrors => numErrors
  | _ => 0

/-- The events of lintFile for one enabled rule: the call of runRule, the events of
runRule, and the `Rule failed` line when it returns an error. -/
def ruleEvents (w : LintWorld) (filepath : String) (contents : Bytes) (r : String × Rule) :
    List Event :=
  [Event.runRule r.1 r.2 filepath] ++ (runRule w r.1 r.2 filepath contents).2 ++
    match (runRule w r.1 r.2 filepath contents).1 with
    | .error err => [Event.ruleFailed r.2.Name err]
    | _ => []

/-- A rule error of a response carries its location, with a start and an end. -/
def hasLocation (ruleError : proto.RuleError) : Bool :=
  match ruleError.Location with
  | none => false
  | some location => location.Start.isSome && location.End.isSome

/-- The call of a rule on a document comes back to the host with what it can walk: the
call returns, and every rule error of a response carries its location. -/
def answers (w : LintWorld) (contents : Bytes) (r : String × Rule) : Bool :=
  match w.plugin (RulePath w.configPath r.1 r.2.ID) contents with
  | .hangs => false
  | .response ruleErrs => ruleErrs.all hasLocation
  | _ => true

/-- The call of runRule for a rule does not come back to lintFile: it does not return, or
the program panics in it. -/
def stops (w : LintWorld) (filepath : String) (contents : Bytes) (r : String × Rule) : Bool :=
  match (runRule w r.1 r.2 filepath contents).1 with
  | .panic => true
  | .blocked => true
  | _ => false

/-- The items of a list a loop gets to when it cannot go past an item that stops it: the
items up to the first one that stops it, that one included. -/
def reached {α : Type} (stop : α → Bool) : List α → List α
  | [] => []
  | x :: rest => if stop x then [x] else x :: reached stop rest

/-- How the loops of lintFile end over the rules they are to run, from the count so far:
a rule that fails adds nothing, a rule that succeeds adds its count, and the loops do not
get past a call of runRule that does not come back. -/
def rulesOutcome (w : LintWorld) (filepath : String) (contents : Bytes) :
    List (String × Rule) → Nat → Outcome Nat
  | [], errorsFound => .ok errorsFound
  | r :: rest, errorsFound =>
    match (runRule w r.1 r.2 filepath contents).1 with
    | .ok numErrors => rulesOutcome w filepath contents rest (errorsFound + numErrors)
    | .error _ => rulesOutcome w filepath contents rest errorsFound
    | .panic => .panic
    | .blocked => .blocked

/-- The lint error runRule prints for a rule error of an executor: file, ruleset and rule
as given, the rule error itself, and as text the line ReadLine returns for its start
line. -/
def lintErrorOf (filepath : String) (contents : Bytes) (r : String × Rule) (d : RuleError) :
    LintError :=
  { Filepath := filepath, Line := (ReadLine contents (d.Location.Start.Line : Nat)).1,
    RuleErr := d, Rule := r.2, Ruleset := r.1 }

/-! ## Concrete documents, executors and worlds used to evaluate the lint run -/

/-- A rule error with the given suggestion, on the given line, columns 1 to 10. -/
def mkDiag (suggestion : String) (line : Nat) : RuleError :=
  { Suggestion := suggestion, Remediation := "",
    Location := { Start := { Line := line, Column := 1 }, End := { Line := line, Column := 10 } },
    Metadata := [] }

/-- A registry with the single enabled ruleset `aws` holding the single enabled rule
`abc12`. -/
def oneRuleCfg : Appcfg :=
  { Rulesets := [mkRuleset "aws" "1.0.0" [mkRule "abc12" "bucket" true]] }

/-- A registry with the single enabled ruleset `aws` holding the single enabled rule
`7c1e0`. -/
def farRuleCfg : Appcfg :=
  { Rulesets := [mkRuleset "aws" "1.0.0" [mkRule "7c1e0" "regions" true]] }

/-- A registry with the single enabled ruleset `aws` holding the single enabled rule
`77aa0`. -/
def mixedRuleCfg : Appcfg :=
  { Rulesets := [mkRuleset "aws" "1.0.0" [mkRule "77aa0" "ports" true]] }

/-- A registry with two enabled rulesets both named `aws`, each with one enabled rule. -/
def dupCfg : Appcfg :=
  { Rulesets :=
      [mkRuleset "aws" "1.0.0" [mkRule "abc12" "bucket" true],
       mkRuleset "aws" "2.0.0" [mkRule "0f3d1" "tags" true]] }

/-- The file `name` holding the two-line document `twoLineDoc`, which is not HCL: the
parser rejects its first line, `ab`. -/
def docFile (name : String) : File :=
  { Name := name, Size := 6, ReadAll := .ok twoLineDoc }

/-- A document of two lines that the HCL parser accepts: `a = 1` and `b = 2`, each ended
by a newline. -/
def hclDoc : Bytes := [97, 32, 61, 32, 49, 10, 98, 32, 61, 32, 50, 10]

/-- The file `name` holding the HCL document. -/
def hclFile (name : String) : File :=
  { Name := name, Size := 12, ReadAll := .ok hclDoc }

/-- A rule error as a process that is not built with the SDK may send it: without
location. -/
def bareRuleError : proto.RuleError :=
  { Location := none, Suggestion := "rename resource", Remediation := "", Metadata := [] }

/-- A world with config directory `/cfg` and 1000 bytes of available memory.  The path
`missing.tf` does not open, `broken.tf` holds the two-line document, which the parser
rejects, `huge.tf` is reported with a size of 5000 bytes, and every other path holds the
HCL document, which the parser accepts.  The executable of `aws/abc12` returns one rule
error on line 1, that of `aws/0f3d1` the same rule error on line 2 twice, that of
`gcp/5e9aa` the rule error of `aws/abc12`, that of `aws/7c1e0` one rule error on line 7,
that of `aws/77aa0` one on line 1 followed by one on line 7, each as the SDK sends it; the
call of `gcp/abc12` fails because the connection to the process is lost, the process of
`ops/c0ffe` never responds, that of `ops/dead1` answers with a rule error without
location, and no other executable starts. -/
def hclWorld : LintWorld :=
  { configPath := "/cfg",
    openFile := fun path =>
      if path = "missing.tf" then .error "no such file"
      else if path = "broken.tf" then .ok (docFile path)
      else if path = "huge.tf" then .ok { hclFile path with Size := 5000 }
      else .ok (hclFile path),
    virtualMemory := fun _ => .ok 1000,
    parseHCL := fun contents _ =>
      if contents = hclDoc then none else some "Argument or block definition required",
    plugin := fun cmd contents =>
      if cmd = "/cfg/rulesets.d/aws/abc12" then
        .response (ruleErrorsToProto [mkDiag "rename resource" 1])
      else if cmd = "/cfg/rulesets.d/aws/0f3d1" then
        .response (ruleErrorsToProto [mkDiag "add tags" 2, mkDiag "add tags" 2])
      else if cmd = "/cfg/rulesets.d/gcp/5e9aa" then
        .response (ruleErrorsToProto [mkDiag "rename resource" 1])
      else if cmd = "/cfg/rulesets.d/aws/7c1e0" then
        .response (ruleErrorsToProto [mkDiag "set region" 7])
      else if cmd = "/cfg/rulesets.d/aws/77aa0" then
        .response (ruleErrorsToProto [mkDiag "close port" 1, mkDiag "close port" 7])
      else if cmd = "/cfg/rulesets.d/gcp/abc12" then
        .callError "rpc error: code = Unavailable desc = transport is closing"
      else if cmd = "/cfg/rulesets.d/ops/c0ffe" then
        PluginRun.ofCall (hungClient.ExecuteRule contents)
      else if cmd = "/cfg/rulesets.d/ops/dead1" then .response [bareRuleError]
      else .clientError "no such executable" }

/-- The HCL world, except that the query of the available memory fails. -/
def noMemoryInfoWorld : LintWorld :=
  { hclWorld with virtualMemory := fun _ => .error "open /proc/meminfo: permission denied" }

/-- A registry with three rulesets: `aws`, enabled, with the rules `abc12`, `77aa0`
(disabled) and `0f3d1`; `old`, disabled, with the rule `abc12`; `gcp`, enabled, with the
rules `abc12` and `5e9aa`. -/
def multiCfg : Appcfg :=
  { Rulesets :=
      [mkRuleset "aws" "1.0.0"
        [mkRule "abc12" "bucket" true, mkRule "77aa0" "ports" false, mkRule "0f3d1" "tags" true],
       { mkRuleset "old" "0.1.0" [mkRule "abc12" "bucket" true] with Enabled := false },
       mkRuleset "gcp" "0.2.0" [mkRule "abc12" "zones" true, mkRule "5e9aa" "labels" true]] }

/-- The registry `multiCfg` without the rule `abc12` of `gcp`. -/
def reportCfg : Appcfg :=
  { Rulesets :=
      [mkRuleset "aws" "1.0.0"
        [mkRule "abc12" "bucket" true, mkRule "77aa0" "ports" false, mkRule "0f3d1" "tags" true],
       { mkRuleset "old" "0.1.0" [mkRule "abc12" "bucket" true] with Enabled := false },
       mkRuleset "gcp" "0.2.0" [mkRule "5e9aa" "labels" true]] }

/-- A registry with the single enabled ruleset `gcp` holding the single enabled rule
`abc12`. -/
def failingCfg : Appcfg :=
  { Rulesets := [mkRuleset "gcp" "0.2.0" [mkRule "abc12" "zones" true]] }

/-- A registry whose first enabled rule is `ops/c0ffe`, followed by `aws/abc12`. -/
def stallCfg : Appcfg :=
  { Rulesets :=
      [mkRuleset "ops" "1.0.0" [mkRule "c0ffe" "uptime" true],
       mkRuleset "aws" "1.0.0" [mkRule "abc12" "bucket" true]] }

/-- A registry whose first enabled rule is `ops/dead1`, followed by `aws/abc12`. -/
def bareCfg : Appcfg :=
  { Rulesets :=
      [mkRuleset "ops" "1.0.0" [mkRule "dead1" "owner" true],
       mkRuleset "aws" "1.0.0" [mkRule "abc12" "bucket" true]] }

/-- Versions `major.minor.patch` as triples, compared as `semver` compares them. -/
def tripleGreaterThan (a b : Nat × Nat × Nat) : Bool :=
  decide (a.1 > b.1) || (a.1 == b.1 && (decide (a.2.1 > b.2.1) ||
    (a.2.1 == b.2.1 && decide (a.2.2 > b.2.2))))

/-- A world for ruleset updates: every fetch succeeds, the remote `ruleset.hcl` of every
ruleset names it `aws` at the version `remote` and is verified, the version strings
1.0.0 and 2.0.0 parse, every rules directory is empty and every write succeeds. -/
def demoUpdateWorld (remote : String) : UpdateWorld (Nat × Nat × Nat) :=
  { configPath := "/cfg",
    rulesDir := fun _ => .entries [],
    base := fun name => name,
    buildRule := fun _ _ => none,
    ruleInfo := fun _ => .clientError "no such executable",
    writeFile := writeOk,
    toLower := asciiLower,
    getRemoteRuleset := fun _ _ => none,
    getRemoteRulesetInfo := fun _ => .ok { Name := "aws", Version := remote },
    verifyRuleset := fun _ _ => none,
    newVersion := fun v =>
      if v = "1.0.0" then .ok (1, 0, 0)
      else if v = "2.0.0" then .ok (2, 0, 0)
      else .error "Invalid Semantic Version",
    greaterThan := tripleGreaterThan }

/-- The registry holding the single ruleset `aws` at version 2.0.0, without rules. -/
def aws2Cfg : Appcfg := { Rulesets := [mkRuleset "aws" "2.0.0" []] }

/-! ## Notions used to state the properties of the run totals -/

/-- The path can be opened. -/
def opens (w : LintWorld) (path : String) : Bool :=
  match w.openFile path with
  | .ok _ => true
  | .error _ => false

/-- The path opens and lintFile returns no error for its file. -/
def isLinted (w : LintWorld) (cfg : Appcfg) (path : String) : Bool :=
  match w.openFile path with
  | .ok file =>
    match (lintFile w cfg file).1 with
    | .ok _ => true
    | _ => false
  | .error _ => false

/-- The path opens and lintFile returns an error for its file. -/
def isSkipped (w : LintWorld) (cfg : Appcfg) (path : String) : Bool :=
  match w.openFile path with
  | .ok file =>
    match (lintFile w cfg file).1 with
    | .error _ => true
    | _ => false
  | .error _ => false

/-- The path opens and lintFile returns for its file, with a count or with an error. -/
def finishes (w : LintWorld) (cfg : Appcfg) (path : String) : Bool :=
  isLinted w cfg path || isSkipped w cfg path

/-- On the content of the file at the path, the call of every enabled rule of the enabled
rulesets comes back to the host with what it can walk. -/
def rulesAnswer (w : LintWorld) (cfg : Appcfg) (path : String) : Bool :=
  match w.openFile path with
  | .ok file =>
    match file.ReadAll with
    | .ok contents => (enabledRules cfg).all (answers w contents)
    | .error _ => true
  | .error _ => true

/-- The count lintFile returns for the file at the path, 0 when it returns none. -/
def fileCount (w : LintWorld) (cfg : Appcfg) (path : String) : Nat :=
  match w.openFile path with
  | .ok file =>
    match (lintFile w cfg file).1 with
    | .ok errorsFound => errorsFound
    | _ => 0
  | .error _ => 0

/-! ## Concrete worlds used to evaluate the build of rules -/

/-- A world for builds: the rules directory of every ruleset holds the two rule
directories `rule0` and `rule1`, every build succeeds, every built executable reports
the rule info named `checked`, enabled, and every write succeeds. -/
def collideWorld : BuildWorld :=
  { configPath := "/cfg",
    rulesDir := fun _ => .entries [{ Name := "rule0", IsDir := true },
                                   { Name := "rule1", IsDir := true }],
    base := fun name => name,
    buildRule := fun _ _ => none,
    ruleInfo := fun _ =>
      .response
        { RuleInfo := some { Name := "checked", Short := "short", Long := "long",
                             Link := "link", Enabled := true } },
    writeFile := writeOk }

/-- The world for builds in which the process of every built executable answers
`GetRuleInfo` without rule info. -/
def bareInfoWorld : BuildWorld :=
  { collideWorld with ruleInfo := fun _ => .response { RuleInfo := none } }

/-- The world for builds in which the process of every built executable never responds to
`GetRuleInfo`. -/
def stalledInfoWorld : BuildWorld :=
  { collideWorld with ruleInfo := fun _ => PluginRun.ofCall hungClient.GetRuleInfo }

/-! ## Validation of names (`internal/cli/ruleset/ruleset.go`, `internal/cli/rule/ruleCreate.go`)

The names are checked with the library `ozzo-validation`; the model follows its
documented behaviour: `Validate` applies the rules in order and returns the first
error; `Required` rejects the empty string; `Length` and the string rules skip the
empty string; `Length` measures the length of a string in bytes. -/

namespace validation

/-- The rule `validation.Required` on a string: the error text, `none` when the value
passes. -/
def Required (value : String) : Option String :=
  if value = "" then some "cannot be blank" else none

/-- The error text of `validation.Length(min, max)`, chosen by the two bounds. -/
def lengthError (min max : Nat) : String :=
  if min = 0 ∧ 0 < max then "the length must be no more than " ++ toString max
  else if 0 < min ∧ max = 0 then "the length must be no less than " ++ toString min
  else if 0 < min ∧ 0 < max then
    if min = max then "the length must be exactly " ++ toString min
    else "the length must be between " ++ toString min ++ " and " ++ toString max
  else "the value must be empty"

/-- The rule `validation.Length(min, max)` on a string: an empty value passes, otherwise
the number of bytes must be within the bounds (a bound of 0 is no bound). -/
def Length (min max : Nat) (value : String) : Option String :=
  if value = "" then none
  else if (0 < min ∧ (utf8Bytes value).length < min) ∨ (0 < max ∧ max < (utf8Bytes value).length)
      ∨ (min = 0 ∧ max = 0 ∧ 0 < (utf8Bytes value).length) then
    some (lengthError min max)
  else none

/-- A string rule made by `validation.NewStringRuleWithError`: an empty value passes,
otherwise the validator decides. -/
def NewStringRuleWithError (validator : String → Bool) (err : String) (value : String) :
    Option String :=
  if value = "" then none
  else if validator value then none
  else some err

/-- The function `validation.Validate` on a string value: the first error of the rules, in
order. -/
def Validate (value : String) : List (String → Option String) → Option String
  | [] => none
  | rule :: rules =>
    match rule value with
    | some err => some err
    | none => Validate value rules

end validation

/-- The function isValidName of `ruleset.go`: the value matches the regular expression
`^[a-zA-Z0-9_-]+$`, that is, it is not empty and each of its characters is an ASCII
letter, an ASCII digit, `_` or `-` (in Go `$` matches at the end of the text only). -/
def isValidName (value : String) : Bool :=
  !value.data.isEmpty && value.data.all fun c =>
    (97 ≤ c.toNat && c.toNat ≤ 122) || (65 ≤ c.toNat && c.toNat ≤ 90) ||
      (48 ≤ c.toNat && c.toNat ≤ 57) || c.toNat == 95 || c.toNat == 45

/-- The validator `govalidator.IsASCII` behind the rule `is.ASCII`: the empty string
passes, otherwise the value matches `^[\x00-\x7F]+$`. -/
def IsASCII (str : String) : Bool :=
  str.data.isEmpty || str.data.all fun c => c.toNat ≤ 127

/-- What verifyRuleset asks of its environment: the error of `semver.NewVersion` for a
version text (`none`: it parses) and whether `os.Stat` of a path fails with an error
for which `os.IsNotExist` holds. -/
structure VerifyWorld where
  newVersion : String → Option String
  notExist : String → Bool

/-- The function verifyRuleset of `ruleset.go`: the name is validated, then the version,
then the rules directory is looked for. -/
def verifyRuleset (w : VerifyWorld) (path : String) (info : rulesetInfo) : Option Error :=
  match validation.Validate info.Name
      [validation.Required, validation.Length 3 20,
        validation.NewStringRuleWithError isValidName
          "must be a valid name; alphanumeric characters and _ or - only"] with
  | some err => some (.msg ("ruleset name malformed: " ++ err))
  | none =>
    match w.newVersion info.Version with
    | some err =>
      some (.msg ("ruleset version text malformed; should be in semvar notation: " ++ err))
    | none =>
      if w.notExist (path ++ "/" ++ "rules") then
        some (.msg "no rules directory found; all rulesets must have a rules directory")
      else none

/-- The function validateName of `ruleCreate.go`. -/
def validateName (name : String) : Option Error :=
  match validation.Validate name
      [validation.Required, validation.Length 3 70,
        validation.NewStringRuleWithError IsASCII "must contain ASCII characters only"] with
  | some err => some (.msg ("rule name malformed: " ++ err))
  | none => none

/-- A world in which every version text parses and every rules directory exists. -/
def okVerifyWorld : VerifyWorld :=
  { newVersion := fun _ => none, notExist := fun _ => false }

/-! ## Collecting the target files (`internal/cli/lint.go`) -/

namespace strings

/-- The function `strings.HasSuffix`. -/
def HasSuffix (s suffix : String) : Bool := suffix.data.isSuffixOf s.data

end strings

/-- What getHCLFiles asks of its environment: `homedir.Expand` and `filepath.Abs` (`none`:
the call returns an error, and with it the empty path), `filepath.Dir`, the error of
`os.Stat` (`none`: the path exists) and `filepath.Glob` (`none`: the pattern is
malformed). -/
structure PathWorld where
  expand : String → Option String
  abs : String → Option String
  dir : String → String
  stat : String → Option String
  glob : String → Option (List String)

/-- The loop of getHCLFiles over the paths given; `tfFiles` holds the files collected so
far.  The variable `path` is shadowed by the result of the failing call, the empty
string, when the error text of the first two checks is made. -/
def getHCLFiles.loop (w : PathWorld) : List String → List String → Except Error (List String)
  | [], tfFiles => .ok tfFiles
  | path :: rest, tfFiles =>
    match w.expand path with
    | none => .error (.msg ("could not parse path " ++ ""))
    | some expanded =>
      match w.abs expanded with
      | none => .error (.msg ("could not parse path " ++ ""))
      | some full =>
        match w.stat (w.dir full) with
        | some err => .error (.msg ("could not open path: " ++ err))
        | none =>
          match w.glob full with
          | none => .error (.msg ("could match on glob pattern " ++ full))
          | some globFiles =>
            getHCLFiles.loop w rest
              (tfFiles ++ globFiles.filter fun file => strings.HasSuffix file ".tf")

/-- getHCLFiles returns the paths of all hcl files within the paths given. -/
def getHCLFiles (w : PathWorld) (paths : List String) : Except Error (List String) :=
  getHCLFiles.loop w paths []

/-- The glob matches of a path given to the program: the path is home-expanded and made
absolute, its directory must exist, and the result is matched as a glob pattern; `none`
when one of these steps fails. -/
def globMatches (w : PathWorld) (path : String) : Option (List String) :=
  (w.expand path).bind fun expanded =>
    (w.abs expanded).bind fun full =>
      if (w.stat (w.dir full)).isSome then none else w.glob full

/-- A file system with the working directory `/work`, which holds `README.md`, `main.tf`
and `vars.tf`; the home directory of another user cannot be expanded, the directory
`/gone` does not exist and `[` is not a glob pattern. -/
def demoPathWorld : PathWorld :=
  { expand := fun path => if path = "~other/main.tf" then none else some path,
    abs := fun path => some (if path = "/gone/main.tf" then path else "/work/" ++ path),
    dir := fun path => if path = "/gone/main.tf" then "/gone" else "/work",
    stat := fun path =>
      if path = "/gone" then some "stat /gone: no such file or directory" else none,
    glob := fun path =>
      if path = "/work/*" then some ["/work/README.md", "/work/main.tf", "/work/vars.tf"]
      else if path = "/work/main.tf" then some ["/work/main.tf"]
      else if path = "/work/[" then none
      else some [] }

/-! ## Notions and worlds used to state the properties of calls -/

/-- The lines `Rule failed ...` printed in a list of events: the name of the rule and the
error. -/
def failures (trace : List Event) : List (String × Error) :=
  trace.filterMap fun
    | .ruleFailed rule err => some (rule, err)
    | _ => none

/-! ## Reading the output back (`sdk/models.go`, `sdk/sdk_test.go`)

A consumer of the JSON output decodes each line into a `LintErrorWrapper` with
`json.Unmarshal`.  The decoder is the library `encoding/json`, directed by the types and
the `json` tags of `sdk/models.go`; the model follows its documented behaviour on a
parsed JSON value: a member of an object goes to the field whose name equals its key,
case folded; members without a field are skipped; `null` leaves a string, a number, a
boolean and a struct as they are and sets a pointer and a map to nil; a value that does
not fit the type of its field is skipped and the first such error is returned when the
decoding is done; a nil pointer is allocated as soon as a value other than `null` is
decoded into it. -/

/-- LintErrorWrapper of `sdk/models.go`, the type of its field `Data`: an anonymous struct
with the single field `LintError`, a pointer (`none` is nil). -/
structure LintErrorData where
  LintError : Option LintError
deriving DecidableEq, Repr

/-- LintErrorWrapper of `sdk/models.go`. -/
structure LintErrorWrapper where
  Label : String
  Data : LintErrorData
deriving DecidableEq, Repr

namespace json

/-- A number literal of a JSON text: its sign, its integer part, and whether it is plain,
that is, has neither a fraction nor an exponent. -/
structure Number where
  negative : Bool
  integer : Nat
  plain : Bool
deriving DecidableEq, Repr

/-- A parsed JSON value; the members of an object are kept in the order of the text. -/
inductive Value where
  | null
  | bool (b : Bool)
  | number (literal : Number)
  | string (s : String)
  | array (items : List Value)
  | object (members : List (String × Value))

/-- The error `json.UnmarshalTypeError`: the kind of the JSON value and a short name of
the Go type it does not fit (the offset, the field path and the text of a number are left
out). -/
structure UnmarshalTypeError where
  Value : String
  Target : String
deriving DecidableEq, Repr

/-- The description of a JSON value in an `UnmarshalTypeError`. -/
def Value.kind : Value → String
  | .null => "null"
  | .bool _ => "bool"
  | .number _ => "number"
  | .string _ => "string"
  | .array _ => "array"
  | .object _ => "object"

/-- The method `saveError` of the decoder: the first error is kept. -/
def saveError (saved err : Option UnmarshalTypeError) : Option UnmarshalTypeError :=
  match saved with
  | some first => some first
  | none => err

/-- Simple case folding of a character as far as ASCII names are concerned: an ASCII
capital folds to its small letter, the Kelvin sign to `k` and the long s to `s`. -/
def foldRune (c : Char) : Char :=
  if c.toNat = 8490 then Char.ofNat 107
  else if c.toNat = 383 then Char.ofNat 115
  else c.toLower

/-- The key of a member matches the ASCII name of a field: they are equal under simple
case folding (an exact match is one of these, and no two fields of a struct of
`sdk/models.go` have names that fold to the same). -/
def equalFold (key name : String) : Bool :=
  key.data.map foldRune == name.data.map foldRune

/-- A JSON value decoded into a Go `string`. -/
def decodeString (v : Value) (old : String) : String × Option UnmarshalTypeError :=
  match v with
  | .null => (old, none)
  | .string s => (s, none)
  | other => (old, some { Value := other.kind, Target := "string" })

/-- A JSON value decoded into a Go `bool`. -/
def decodeBool (v : Value) (old : Bool) : Bool × Option UnmarshalTypeError :=
  match v with
  | .null => (old, none)
  | .bool b => (b, none)
  | other => (old, some { Value := other.kind, Target := "bool" })

/-- A JSON value decoded into a Go `uint32`: the literal must be an unsigned integer
below 2^32. -/
def decodeUint32 (v : Value) (old : Nat) : Nat × Option UnmarshalTypeError :=
  match v with
  | .null => (old, none)
  | .number literal =>
    if !literal.negative && literal.plain && decide (literal.integer < 2 ^ 32) then
      (literal.integer, none)
    else (old, some { Value := "number", Target := "uint32" })
  | other => (old, some { Value := other.kind, Target := "uint32" })

/-- A JSON value decoded into a Go struct: the members of an object are decoded in order,
each by `field`, which finds the field for a key and decodes the value into it. -/
def decodeStruct {α : Type} (target : String)
    (field : String → Value → α → α × Option UnmarshalTypeError) (v : Value) (old : α) :
    α × Option UnmarshalTypeError :=
  match v with
  | .null => (old, none)
  | .object members =>
    members.foldl
      (fun acc member =>
        ((field member.1 member.2 acc.1).1, saveError acc.2 (field member.1 member.2 acc.1).2))
      (old, none)
  | other => (old, some { Value := other.kind, Target := target })

/-- The assignment `m[key] = value` on a map kept as a list of pairs. -/
def setKey (m : List (String × String)) (key value : String) : List (String × String) :=
  if m.any (fun kv => kv.1 == key) then
    m.map fun kv => if kv.1 = key then (key, value) else kv
  else m ++ [(key, value)]

/-- A JSON value decoded into a Go `map[string]string`: every member is decoded into a
fresh string that is then stored under its key. -/
def decodeMap (v : Value) (old : List (String × String)) :
    List (String × String) × Option UnmarshalTypeError :=
  match v with
  | .null => ([], none)
  | .object members =>
    members.foldl
      (fun acc member =>
        (setKey acc.1 member.1 (decodeString member.2 "").1,
          saveError acc.2 (decodeString member.2 "").2))
      (old, none)
  | other => (old, some { Value := other.kind, Target := "map[string]string" })

/-- Position of `sdk/models.go`: the fields tagged `line` and `column`. -/
def decodePosition : Value → Position → Position × Option UnmarshalTypeError :=
  decodeStruct "sdk.Position" fun key v p =>
    if equalFold key "line" then ({ p with Line := (decodeUint32 v p.Line).1 }, (decodeUint32 v p.Line).2)
    else if equalFold key "column" then
      ({ p with Column := (decodeUint32 v p.Column).1 }, (decodeUint32 v p.Column).2)
    else (p, none)

/-- Range of `sdk/models.go`: the fields tagged `start` and `end`. -/
def decodeRange : Value → Range → Range × Option UnmarshalTypeError :=
  decodeStruct "sdk.Range" fun key v r =>
    if equalFold key "start" then
      ({ r with Start := (decodePosition v r.Start).1 }, (decodePosition v r.Start).2)
    else if equalFold key "end" then
      ({ r with End := (decodePosition v r.End).1 }, (decodePosition v r.End).2)
    else (r, none)

/-- RuleError of `sdk/models.go`: the fields tagged `suggestion`, `remediation`,
`location` and `metadata`. -/
def decodeRuleError : Value → RuleError → RuleError × Option UnmarshalTypeError :=
  decodeStruct "sdk.RuleError" fun key v e =>
    if equalFold key "suggestion" then
      ({ e with Suggestion := (decodeString v e.Suggestion).1 }, (decodeString v e.Suggestion).2)
    else if equalFold key "remediation" then
      ({ e with Remediation := (decodeString v e.Remediation).1 },
        (decodeString v e.Remediation).2)
    else if equalFold key "location" then
      ({ e with Location := (decodeRange v e.Location).1 }, (decodeRange v e.Location).2)
    else if equalFold key "metadata" then
      ({ e with Metadata := (decodeMap v e.Metadata).1 }, (decodeMap v e.Metadata).2)
    else (e, none)

/-- Rule of `sdk/models.go`: the fields tagged `id`, `name`, `short`, `long`, `link` and
`enabled`; the embedded `Check` is tagged `-` and never decoded. -/
def decodeRule : Value → Rule → Rule × Option UnmarshalTypeError :=
  decodeStruct "sdk.Rule" fun key v r =>
    if equalFold key "id" then ({ r with ID := (decodeString v r.ID).1 }, (decodeString v r.ID).2)
    else if equalFold key "name" then
      ({ r with Name := (decodeString v r.Name).1 }, (decodeString v r.Name).2)
    else if equalFold key "short" then
      ({ r with Short := (decodeString v r.Short).1 }, (decodeString v r.Short).2)
    else if equalFold key "long" then
      ({ r with Long := (decodeString v r.Long).1 }, (decodeString v r.Long).2)
    else if equalFold key "link" then
      ({ r with Link := (decodeString v r.Link).1 }, (decodeString v r.Link).2)
    else if equalFold key "enabled" then
      ({ r with Enabled := (decodeBool v r.Enabled).1 }, (decodeBool v r.Enabled).2)
    else (r, none)

/-- The text of the Go string `Line` of a lint error, kept as bytes. -/
def decodeLine (v : Value) (old : Bytes) : Bytes × Option UnmarshalTypeError :=
  match v with
  | .null => (old, none)
  | .string s => (utf8Bytes s, none)
  | other => (old, some { Value := other.kind, Target := "string" })

/-- LintError of `sdk/models.go`: the fields tagged `filepath`, `line`, `rule_error`,
`rule` and `ruleset`. -/
def decodeLintError : Value → LintError → LintError × Option UnmarshalTypeError :=
  decodeStruct "sdk.LintError" fun key v e =>
    if equalFold key "filepath" then
      ({ e with Filepath := (decodeString v e.Filepath).1 }, (decodeString v e.Filepath).2)
    else if equalFold key "line" then
      ({ e with Line := (decodeLine v e.Line).1 }, (decodeLine v e.Line).2)
    else if equalFold key "rule_error" then
      ({ e with RuleErr := (decodeRuleError v e.RuleErr).1 }, (decodeRuleError v e.RuleErr).2)
    else if equalFold key "rule" then
      ({ e with Rule := (decodeRule v e.Rule).1 }, (decodeRule v e.Rule).2)
    else if equalFold key "ruleset" then
      ({ e with Ruleset := (decodeString v e.Ruleset).1 }, (decodeString v e.Ruleset).2)
    else (e, none)

/-- The zero value of `LintError`, what a freshly allocated pointer points to. -/
def zeroLintError : LintError :=
  { Filepath := "", Line := [],
    RuleErr :=
      { Suggestion := "", Remediation := "",
        Location := { Start := { Line := 0, Column := 0 }, End := { Line := 0, Column := 0 } },
        Metadata := [] },
    Rule := { ID := "", Name := "", Short := "", Long := "", Link := "", Enabled := false,
              Check := none },
    Ruleset := "" }

/-- A JSON value decoded into the pointer field `LintError`: `null` sets it to nil; for
any other value a nil pointer is allocated first. -/
def decodeLintErrorPointer (v : Value) (old : Option LintError) :
    Option LintError × Option UnmarshalTypeError :=
  match v with
  | .null => (none, none)
  | other =>
    (some (decodeLintError other (old.getD zeroLintError)).1,
      (decodeLintError other (old.getD zeroLintError)).2)

/-- The anonymous struct of the field `Data`: the field tagged `lint_error`. -/
def decodeData : Value → LintErrorData → LintErrorData × Option UnmarshalTypeError :=
  decodeStruct "struct" fun key v d =>
    if equalFold key "lint_error" then
      ({ d with LintError := (decodeLintErrorPointer v d.LintError).1 },
        (decodeLintErrorPointer v d.LintError).2)
    else (d, none)

/-- The function `json.Unmarshal` of a parsed line into a `LintErrorWrapper`: the fields
tagged `label` and `data`; the wrapper as decoded and the error returned. -/
def Unmarshal : Value → LintErrorWrapper → LintErrorWrapper × Option UnmarshalTypeError :=
  decodeStruct "sdk.LintErrorWrapper" fun key v wrapper =>
    if equalFold key "label" then
      ({ wrapper with Label := (decodeString v wrapper.Label).1 },
        (decodeString v wrapper.Label).2)
    else if equalFold key "data" then
      ({ wrapper with Data := (decodeData v wrapper.Data).1 }, (decodeData v wrapper.Data).2)
    else (wrapper, none)

end json

/-- The declaration `var newError LintErrorWrapper` of the test: the zero value. -/
def newError : LintErrorWrapper := { Label := "", Data := { LintError := none } }

/-- A position as a JSON object, the way the output writes it. -/
def positionJSON (p : Position) : json.Value :=
  .object
    [("line", .number { negative := false, integer := p.Line, plain := true }),
     ("column", .number { negative := false, integer := p.Column, plain := true })]

/-- A line of the JSON output that holds a lint error: the object `data` has the object
`lint_error` with file path, line text, rule error, rule and ruleset under the tags of
`sdk/models.go`, and the line has a label. -/
def lintErrorLine (label filepath line ruleset : String) (rule : Rule) (ruleErr : RuleError) :
    json.Value :=
  .object
    [("data", .object
      [("lint_error", .object
        [("filepath", .string filepath),
         ("line", .string line),
         ("rule_error", .object
           [("suggestion", .string ruleErr.Suggestion),
            ("remediation", .string ruleErr.Remediation),
            ("location", .object
              [("start", positionJSON ruleErr.Location.Start),
               ("end", positionJSON ruleErr.Location.End)]),
            ("metadata", .object (ruleErr.Metadata.map fun kv => (kv.1, .string kv.2)))]),
         ("rule", .object
           [("id", .string rule.ID), ("name", .string rule.Name),
            ("short", .string rule.Short), ("long", .string rule.Long),
            ("link", .string rule.Link), ("enabled", .bool rule.Enabled)]),
         ("ruleset", .string ruleset)])]),
     ("label", .string label)]

/-- Whether the object `data` of a line has a `lint_error`: among the members of the line
one with a key matching `data` is an object with a member whose key matches
`lint_error`. -/
def hasLintError : json.Value → Bool
  | .object members =>
    members.any fun member =>
      json.equalFold member.1 "data" &&
        match member.2 with
        | .object dataMembers =>
          dataMembers.any fun dataMember => json.equalFold dataMember.1 "lint_error"
        | _ => false
  | _ => false

/-- The rule of the line decoded in `sdk_test.go`. -/
def testRule : Rule :=
  { ID := "89cd4", Name := "No resource with name example",
    Short := "Example is a poor name for a resource and might lead to naming collisions.",
    Long := "\nThis is simply a test description of a resource that effectively alerts on nothingness.\nIn turn this is essentially a really long description so we can test that our descriptions\nwork properly and are displayed properly in the terminal.\n",
    Link := "https://google.com", Enabled := true, Check := none }

/-- The rule error of the line decoded in `sdk_test.go`. -/
def testRuleError : RuleError :=
  { Suggestion := "Use a different resource name than example",
    Remediation := "resource \"google_compute_instance\" \"<new_name>\" \x7b",
    Location := { Start := { Line := 1, Column := 1 }, End := { Line := 1, Column := 47 } },
    Metadata := [("example", "Lorem ipsum dolor sit amet"), ("severity", "warning")] }

/-- An output line that holds a message and no lint error. -/
def infoLine : json.Value :=
  .object [("data", .object [("message", .string "Finished linting")]), ("label", .string "info")]

/-! ## Lemmas on the range loop -/

theorem rangeFirst_eq_none_iff {α : Type} {p : α → Bool} {l : List α} :
    rangeFirst p l = none ↔ ∀ x ∈ l, p x = false := by
  induction l with
  | nil => simp [rangeFirst]
  | cons a t ih =>
    by_cases ha : p a = true
    · simp [rangeFirst, ha]
    · simp only [Bool.not_eq_true] at ha
      simp [rangeFirst, ha, ih]

theorem rangeFirst_some_spec {α : Type} {p : α → Bool} {l : List α} {i : Nat} {x : α}
    (h : rangeFirst p l = some (i, x)) :
    l[i]? = some x ∧ p x = true ∧ ∀ k, k < i → ∀ y, l[k]? = some y → p y = false := by
  induction l generalizing i with
  | nil => simp [rangeFirst] at h
  | cons a t ih =>
    by_cases ha : p a = true
    · simp only [rangeFirst, ha, if_true, Option.some.injEq, Prod.mk.injEq] at h
      obtain ⟨rfl, rfl⟩ := h
      simp [ha]
    · simp only [Bool.not_eq_true] at ha
      simp only [rangeFirst, ha, Bool.false_eq_true, if_false, Option.map_eq_some'] at h
      obtain ⟨⟨j, y⟩, hq, hjy⟩ := h
      simp only [Prod.mk.injEq] at hjy
      obtain ⟨rfl, rfl⟩ := hjy
      obtain ⟨h1, h2, h3⟩ := ih hq
      refine ⟨by simpa using h1, h2, ?_⟩
      intro k hk z hz
      cases k with
      | zero =>
        simp only [List.getElem?_cons_zero, Option.some.injEq] at hz
        exact hz ▸ ha
      | succ k =>
        simp only [List.getElem?_cons_succ] at hz
        exact h3 k (by omega) z hz

theorem rangeFirst_of_spec {α : Type} {p : α → Bool} {l : List α} {i : Nat} {x : α}
    (h1 : l[i]? = some x) (h2 : p x = true)
    (h3 : ∀ k, k < i → ∀ y, l[k]? = some y → p y = false) :
    rangeFirst p l = some (i, x) := by
  induction l generalizing i with
  | nil => simp at h1
  | cons a t ih =>
    cases i with
    | zero =>
      simp only [List.getElem?_cons_zero, Option.some.injEq] at h1
      subst h1
      simp [rangeFirst, h2]
    | succ i =>
      have ha : p a = false := h3 0 (by omega) a (by simp)
      simp only [List.getElem?_cons_succ] at h1
      have := ih h1 (fun k hk y hy => h3 (k + 1) (by omega) y (by simpa using hy))
      simp [rangeFirst, ha, this]

/-- Overwriting the found element by another one that passes the guard: the loop stops at
the same index, on the new element. -/
theorem rangeFirst_set_same {α : Type} {p : α → Bool} {l : List α} {i : Nat} {x y : α}
    (h : rangeFirst p l = some (i, x)) (hy : p y = true) :
    rangeFirst p (l.set i y) = some (i, y) := by
  obtain ⟨h1, _, h3⟩ := rangeFirst_some_spec h
  have hi : i < l.length := (List.getElem?_eq_some_iff.mp h1).1
  refine rangeFirst_of_spec (by simp [hi]) hy ?_
  intro k hk z hz
  rw [List.getElem?_set_ne (by omega)] at hz
  exact h3 k hk z hz

/-- Overwriting an element that fails the guard `q` by another one that fails it leaves
the outcome of the loop with guard `q` as it was. -/
theorem rangeFirst_set_other {α : Type} {q : α → Bool} {l : List α} {i : Nat} {x y : α}
    (h1 : l[i]? = some x) (hx : q x = false) (hy : q y = false) :
    rangeFirst q (l.set i y) = rangeFirst q l := by
  induction l generalizing i with
  | nil => simp at h1
  | cons a t ih =>
    cases i with
    | zero =>
      simp only [List.getElem?_cons_zero, Option.some.injEq] at h1
      subst h1
      simp [rangeFirst, hx, hy]
    | succ i =>
      simp only [List.getElem?_cons_succ] at h1
      simp [rangeFirst, ih h1]

/-- Appending an element that passes the guard to a list on which the loop finds nothing:
the loop stops on the appended element. -/
theorem rangeFirst_append_single {α : Type} {p : α → Bool} {l : List α} {y : α}
    (h : rangeFirst p l = none) (hy : p y = true) :
    rangeFirst p (l ++ [y]) = some (l.length, y) := by
  rw [rangeFirst_eq_none_iff] at h
  refine rangeFirst_of_spec (List.getElem?_concat_length l y) hy ?_
  intro k hk z hz
  rw [List.getElem?_append_left hk] at hz
  exact h z (List.mem_iff_getElem?.mpr ⟨k, hz⟩)

theorem writeConfig_ne_ok {writeFile : Appcfg → Option String} {appcfg : Appcfg}
    (h : writeFile appcfg ≠ none) : appcfg.writeConfig writeFile ≠ .ok () := by
  unfold Appcfg.writeConfig
  cases hw : writeFile appcfg with
  | none => exact absurd hw h
  | some e => simp

theorem writeConfig_ne_msg (writeFile : Appcfg → Option String) (appcfg : Appcfg) (text : String) :
    appcfg.writeConfig writeFile ≠ .error (.msg text) := by
  unfold Appcfg.writeConfig
  cases writeFile appcfg <;> simp

/-! ## The claims -/

/-- C1 (the code at the failing input): on the empty registry AddRuleset of a ruleset
named "AWS" succeeds and stores it under the name "aws"; a second AddRuleset of the same
ruleset succeeds too, where 'ruleset already exists' was due, and leaves two rulesets named
"aws" in the registry. -/
theorem AddRuleset_same_name_twice_succeeds :
    (Appcfg.AddRuleset asciiLower writeOk emptyCfg (mkRuleset "AWS" "1.0.0" [])).1 = .ok () ∧
    (Appcfg.AddRuleset asciiLower writeOk emptyCfg (mkRuleset "AWS" "1.0.0" [])).2
      = awsOnlyCfg_upper ∧
    (Appcfg.AddRuleset asciiLower writeOk awsOnlyCfg_upper (mkRuleset "AWS" "1.0.0" [])).1
      = .ok () ∧
    (Appcfg.AddRuleset asciiLower writeOk awsOnlyCfg_upper
      (mkRuleset "AWS" "1.0.0" [])).2.Rulesets.map (fun rs => rs.Name) = ["aws", "aws"] := by
  decide

/-- C2 (counterexample): with a failing file write, AddRuleset on the empty registry
returns the write error, and the registry in memory is not the empty one it was before the
call: it holds the new ruleset. -/
theorem AddRuleset_write_failure_changes_registry :
    Appcfg.AddRuleset asciiLower (writeFail "disk full") emptyCfg (mkRuleset "aws" "1.0.0" [])
      = (.error (.io "disk full"), awsOnlyCfg) ∧ awsOnlyCfg ≠ emptyCfg := by
  decide

/-- C2 (amended): when the file write fails, each of AddRuleset, UpdateRuleset, UpsertRule,
SetRulesetEnabled and SetRuleEnabled returns an error, and the registry in memory is the
one the same call leaves when the write succeeds: the change made in memory is kept, it is
not rolled back. -/
theorem mutation_write_failure_keeps_change (toLower : String → String)
    (writeFile : Appcfg → Option String) (appcfg : Appcfg) (rs : Ruleset)
    (name ruleID : String) (rule : Rule) (enabled : Bool)
    (hfail : ∀ c, writeFile c ≠ none) :
    ((appcfg.AddRuleset toLower writeFile rs).1 ≠ .ok () ∧
      (appcfg.AddRuleset toLower writeFile rs).2 = (appcfg.AddRuleset toLower writeOk rs).2) ∧
    ((appcfg.UpdateRuleset toLower writeFile rs).1 ≠ .ok () ∧
      (appcfg.UpdateRuleset toLower writeFile rs).2
        = (appcfg.UpdateRuleset toLower writeOk rs).2) ∧
    ((appcfg.UpsertRule writeFile name rule).1 ≠ .ok () ∧
      (appcfg.UpsertRule writeFile name rule).2 = (appcfg.UpsertRule writeOk name rule).2) ∧
    ((appcfg.SetRulesetEnabled writeFile name enabled).1 ≠ .ok () ∧
      (appcfg.SetRulesetEnabled writeFile name enabled).2
        = (appcfg.SetRulesetEnabled writeOk name enabled).2) ∧
    ((appcfg.SetRuleEnabled writeFile name ruleID enabled).1 ≠ .ok () ∧
      (appcfg.SetRuleEnabled writeFile name ruleID enabled).2
        = (appcfg.SetRuleEnabled writeOk name ruleID enabled).2) := by
  have hw : ∀ c : Appcfg, c.writeConfig writeFile ≠ .ok () := fun c => writeConfig_ne_ok (hfail c)
  refine ⟨?_, ?_, ?_, ?_, ?_⟩
  · unfold Appcfg.AddRuleset
    split <;> simp [hw]
  · unfold Appcfg.UpdateRuleset
    split <;> simp [hw]
  · unfold Appcfg.UpsertRule
    split
    · split <;> simp [hw]
    · simp
  · unfold Appcfg.SetRulesetEnabled
    split <;> simp [hw]
  · unfold Appcfg.SetRuleEnabled
    split
    · split <;> simp [hw]
    · simp

/-- C2 (amended), at a concrete input: the registry `twoCfg` and a file system whose every
write fails with "disk full". -/
theorem mutation_write_failure_keeps_change_witness :
    (∀ c, writeFail "disk full" c ≠ none) ∧
    ((twoCfg.AddRuleset asciiLower (writeFail "disk full") (mkRuleset "Azure" "0.1.0" [])).1
        ≠ .ok () ∧
      (twoCfg.AddRuleset asciiLower (writeFail "disk full") (mkRuleset "Azure" "0.1.0" [])).2
        = (twoCfg.AddRuleset asciiLower writeOk (mkRuleset "Azure" "0.1.0" [])).2) ∧
    ((twoCfg.UpdateRuleset asciiLower (writeFail "disk full") (mkRuleset "Azure" "0.1.0" [])).1
        ≠ .ok () ∧
      (twoCfg.UpdateRuleset asciiLower (writeFail "disk full") (mkRuleset "Azure" "0.1.0" [])).2
        = (twoCfg.UpdateRuleset asciiLower writeOk (mkRuleset "Azure" "0.1.0" [])).2) ∧
    ((twoCfg.UpsertRule (writeFail "disk full") "aws" (mkRule "77aa0" "ports" true)).1
        ≠ .ok () ∧
      (twoCfg.UpsertRule (writeFail "disk full") "aws" (mkRule "77aa0" "ports" true)).2
        = (twoCfg.UpsertRule writeOk "aws" (mkRule "77aa0" "ports" true)).2) ∧
    ((twoCfg.SetRulesetEnabled (writeFail "disk full") "aws" false).1 ≠ .ok () ∧
      (twoCfg.SetRulesetEnabled (writeFail "disk full") "aws" false).2
        = (twoCfg.SetRulesetEnabled writeOk "aws" false).2) ∧
    ((twoCfg.SetRuleEnabled (writeFail "disk full") "aws" "0f3d1" false).1 ≠ .ok () ∧
      (twoCfg.SetRuleEnabled (writeFail "disk full") "aws" "0f3d1" false).2
        = (twoCfg.SetRuleEnabled writeOk "aws" "0f3d1" false).2) :=
  ⟨fun _ => by simp [writeFail],
    mutation_write_failure_keeps_change asciiLower (writeFail "disk full") twoCfg
      (mkRuleset "Azure" "0.1.0" []) "aws" "0f3d1" (mkRule "77aa0" "ports" true) false
      (fun _ => by simp [writeFail])⟩

/-- C3: when GetRule finds a rule `old` with id `newRule.ID` in the ruleset named
`rulesetName`, a successful UpsertRule overwrites that rule in place: the registry is the
old one with, at the position of that ruleset, the same ruleset whose rule list has, at the
position of `old`, the rule `newRule` carrying the `Enabled` flag of `old`.  The numbers of
rulesets and of rules are unchanged, and GetRule then returns that rule. -/
theorem UpsertRule_existing_keeps_enabled (writeFile : Appcfg → Option String)
    (appcfg : Appcfg) (rulesetName : String) (newRule old : Rule)
    (hold : appcfg.GetRule rulesetName newRule.ID = .ok old)
    (_hok : (appcfg.UpsertRule writeFile rulesetName newRule).1 = .ok ()) :
    ∃ index ruleset ruleIndex,
      appcfg.Rulesets[index]? = some ruleset ∧ ruleset.Name = rulesetName ∧
      ruleset.Rules[ruleIndex]? = some old ∧ old.ID = newRule.ID ∧
      (appcfg.UpsertRule writeFile rulesetName newRule).2.Rulesets
        = appcfg.Rulesets.set index
            { ruleset with
              Rules := ruleset.Rules.set ruleIndex { newRule with Enabled := old.Enabled } } ∧
      (appcfg.UpsertRule writeFile rulesetName newRule).2.Rulesets.length
        = appcfg.Rulesets.length ∧
      (ruleset.Rules.set ruleIndex { newRule with Enabled := old.Enabled }).length
        = ruleset.Rules.length ∧
      (appcfg.UpsertRule writeFile rulesetName newRule).2.GetRule rulesetName newRule.ID
        = .ok { newRule with Enabled := old.Enabled } := by
  unfold Appcfg.GetRule at hold
  cases h1 : rangeFirst (fun ruleset => ruleset.Name == rulesetName) appcfg.Rulesets with
  | none => simp [h1] at hold
  | some q1 =>
    obtain ⟨index, ruleset⟩ := q1
    simp only [h1] at hold
    cases h2 : rangeFirst (fun rule => rule.ID == newRule.ID) ruleset.Rules with
    | none => simp [h2] at hold
    | some q2 =>
      obtain ⟨ruleIndex, rule⟩ := q2
      simp only [h2, Except.ok.injEq] at hold
      subst hold
      obtain ⟨g1, g2, _⟩ := rangeFirst_some_spec h1
      obtain ⟨k1, k2, _⟩ := rangeFirst_some_spec h2
      have hname : ruleset.Name = rulesetName := by simpa using g2
      have hid : rule.ID = newRule.ID := by simpa using k2
      refine ⟨index, ruleset, ruleIndex, g1, hname, k1, hid, ?_, ?_, ?_, ?_⟩
      · simp [Appcfg.UpsertRule, h1, h2]
      · simp [Appcfg.UpsertRule, h1, h2]
      · simp
      · have e1 := rangeFirst_set_same (y := { ruleset with
            Rules := ruleset.Rules.set ruleIndex { newRule with Enabled := rule.Enabled } })
          h1 (by simpa using hname)
        have e2 := rangeFirst_set_same (y := { newRule with Enabled := rule.Enabled })
          h2 (by simp)
        simp [Appcfg.UpsertRule, h1, h2, Appcfg.GetRule, e1, e2]

/-- C3 at a concrete input: in `twoCfg` the rule `0f3d1` of `aws` is disabled; upserting
an enabled rule of that id keeps it disabled. -/
theorem UpsertRule_existing_keeps_enabled_witness :
    ∃ index ruleset ruleIndex,
      twoCfg.Rulesets[index]? = some ruleset ∧ ruleset.Name = "aws" ∧
      ruleset.Rules[ruleIndex]? = some (mkRule "0f3d1" "tags" false) ∧
      (mkRule "0f3d1" "tags" false).ID = (mkRule "0f3d1" "labels" true).ID ∧
      (twoCfg.UpsertRule writeOk "aws" (mkRule "0f3d1" "labels" true)).2.Rulesets
        = twoCfg.Rulesets.set index
            { ruleset with
              Rules := ruleset.Rules.set ruleIndex
                { mkRule "0f3d1" "labels" true with
                  Enabled := (mkRule "0f3d1" "tags" false).Enabled } } ∧
      (twoCfg.UpsertRule writeOk "aws" (mkRule "0f3d1" "labels" true)).2.Rulesets.length
        = twoCfg.Rulesets.length ∧
      (ruleset.Rules.set ruleIndex
          { mkRule "0f3d1" "labels" true with
            Enabled := (mkRule "0f3d1" "tags" false).Enabled }).length
        = ruleset.Rules.length ∧
      (twoCfg.UpsertRule writeOk "aws" (mkRule "0f3d1" "labels" true)).2.GetRule "aws"
          (mkRule "0f3d1" "labels" true).ID
        = .ok { mkRule "0f3d1" "labels" true with
                Enabled := (mkRule "0f3d1" "tags" false).Enabled } :=
  UpsertRule_existing_keeps_enabled writeOk twoCfg "aws" (mkRule "0f3d1" "labels" true)
    (mkRule "0f3d1" "tags" false) (by decide) (by decide)

/-- C4 (the code at the failing input): the registry holds `aws` at version 1.0.0;
AddRuleset of a ruleset named "AWS" at version 2.0.0 succeeds, and GetRuleset with the
lower-cased name "aws" then returns the ruleset stored before, at version 1.0.0, which is
not the inserted value. -/
theorem AddRuleset_then_GetRuleset_older_entry :
    (awsOnlyCfg.AddRuleset asciiLower writeOk (mkRuleset "AWS" "2.0.0" [])).1 = .ok () ∧
    (awsOnlyCfg.AddRuleset asciiLower writeOk (mkRuleset "AWS" "2.0.0" [])).2.GetRuleset
        (asciiLower "AWS") = .ok (mkRuleset "aws" "1.0.0" []) ∧
    mkRuleset "aws" "1.0.0" [] ≠ { mkRuleset "AWS" "2.0.0" [] with Name := asciiLower "AWS" } := by
  decide

/-- C5 (the code at the failing input): the registry holding the single ruleset `aws`
satisfies the name invariant; AddRuleset of a ruleset named "AWS" succeeds on it, and the
resulting registry, with two rulesets named "aws", does not satisfy the invariant. -/
theorem AddRuleset_breaks_RegistryInv :
    RegistryInv asciiLower awsOnlyCfg ∧
    (awsOnlyCfg.AddRuleset asciiLower writeOk (mkRuleset "AWS" "2.0.0" [])).1 = .ok () ∧
    ¬ RegistryInv asciiLower
        (awsOnlyCfg.AddRuleset asciiLower writeOk (mkRuleset "AWS" "2.0.0" [])).2 := by
  decide

/-- C6: SetRulesetEnabled with no ruleset named `name` returns 'ruleset not found';
SetRuleEnabled returns 'ruleset not found' when no ruleset is named `ruleset`, and 'rule
not found' when the ruleset of that name has no rule of id `rule`.  In each case the
registry is the one before the call, so GetRuleset and GetRule return what they returned
before. -/
theorem setEnabled_not_found_unchanged (writeFile : Appcfg → Option String) (appcfg : Appcfg)
    (name ruleset rule : String) (enabled : Bool)
    (hname : ∀ rs ∈ appcfg.Rulesets, rs.Name ≠ name)
    (hrule : (∀ rs ∈ appcfg.Rulesets, rs.Name ≠ ruleset) ∨
      (∃ rs, appcfg.GetRuleset ruleset = .ok rs ∧ ∀ r ∈ rs.Rules, r.ID ≠ rule)) :
    appcfg.SetRulesetEnabled writeFile name enabled
      = (.error (.msg "ruleset not found"), appcfg) ∧
    appcfg.SetRuleEnabled writeFile ruleset rule enabled
      = (.error (.msg (if appcfg.RulesetExists ruleset then "rule not found"
          else "ruleset not found")), appcfg) ∧
    (∀ n, (appcfg.SetRulesetEnabled writeFile name enabled).2.GetRuleset n
        = appcfg.GetRuleset n) ∧
    (∀ n i, (appcfg.SetRulesetEnabled writeFile name enabled).2.GetRule n i
        = appcfg.GetRule n i) ∧
    (∀ n, (appcfg.SetRuleEnabled writeFile ruleset rule enabled).2.GetRuleset n
        = appcfg.GetRuleset n) ∧
    (∀ n i, (appcfg.SetRuleEnabled writeFile ruleset rule enabled).2.GetRule n i
        = appcfg.GetRule n i) := by
  have e1 : appcfg.SetRulesetEnabled writeFile name enabled
      = (.error (.msg "ruleset not found"), appcfg) := by
    have hn : rangeFirst (fun r : Ruleset => r.Name == name) appcfg.Rulesets = none :=
      rangeFirst_eq_none_iff.mpr (fun x hx => by simpa using hname x hx)
    simp [Appcfg.SetRulesetEnabled, hn]
  have e2 : appcfg.SetRuleEnabled writeFile ruleset rule enabled
      = (.error (.msg (if appcfg.RulesetExists ruleset then "rule not found"
          else "ruleset not found")), appcfg) := by
    rcases hrule with h | ⟨rs, hget, hno⟩
    · have hn : rangeFirst (fun r : Ruleset => r.Name == ruleset) appcfg.Rulesets = none :=
        rangeFirst_eq_none_iff.mpr (fun x hx => by simpa using h x hx)
      have hex : appcfg.RulesetExists ruleset = false := by
        simp only [Appcfg.RulesetExists, List.any_eq_false]
        intro x hx
        simpa using h x hx
      simp [Appcfg.SetRuleEnabled, hn, hex]
    · unfold Appcfg.GetRuleset at hget
      cases h1 : rangeFirst (fun r : Ruleset => r.Name == ruleset) appcfg.Rulesets with
      | none => simp [h1] at hget
      | some q =>
        obtain ⟨index, found⟩ := q
        simp only [h1, Except.ok.injEq] at hget
        subst hget
        obtain ⟨g1, g2, _⟩ := rangeFirst_some_spec h1
        have hex : appcfg.RulesetExists ruleset = true := by
          simp only [Appcfg.RulesetExists, List.any_eq_true]
          exact ⟨found, List.mem_iff_getElem?.mpr ⟨index, g1⟩, g2⟩
        have hn : rangeFirst (fun r : Rule => r.ID == rule) found.Rules = none :=
          rangeFirst_eq_none_iff.mpr (fun x hx => by simpa using hno x hx)
        simp [Appcfg.SetRuleEnabled, h1, hn, hex]
  refine ⟨e1, e2, ?_, ?_, ?_, ?_⟩
  · intro n; rw [e1]
  · intro n i; rw [e1]
  · intro n; rw [e2]
  · intro n i; rw [e2]

/-- C6 at a concrete input: in `twoCfg` there is no ruleset `azure`, and the ruleset `gcp`
has no rule `0f3d1`. -/
theorem setEnabled_not_found_unchanged_witness :
    twoCfg.SetRulesetEnabled writeOk "azure" false
      = (.error (.msg "ruleset not found"), twoCfg) ∧
    twoCfg.SetRuleEnabled writeOk "gcp" "0f3d1" false
      = (.error (.msg (if twoCfg.RulesetExists "gcp" then "rule not found"
          else "ruleset not found")), twoCfg) ∧
    (∀ n, (twoCfg.SetRulesetEnabled writeOk "azure" false).2.GetRuleset n
        = twoCfg.GetRuleset n) ∧
    (∀ n i, (twoCfg.SetRulesetEnabled writeOk "azure" false).2.GetRule n i
        = twoCfg.GetRule n i) ∧
    (∀ n, (twoCfg.SetRuleEnabled writeOk "gcp" "0f3d1" false).2.GetRuleset n
        = twoCfg.GetRuleset n) ∧
    (∀ n i, (twoCfg.SetRuleEnabled writeOk "gcp" "0f3d1" false).2.GetRule n i
        = twoCfg.GetRule n i) :=
  setEnabled_not_found_unchanged writeOk twoCfg "azure" "gcp" "0f3d1" false (by decide)
    (Or.inr ⟨mkRuleset "gcp" "0.2.0" [mkRule "abc12" "zones" true], by decide, by decide⟩)

/-- C7: a successful SetRulesetEnabled, whatever any other call does, overwrites, at the
position of the ruleset that GetRuleset finds under `name`, that ruleset with only its
`Enabled` field set to the given value; GetRuleset then returns it, and returns for every
other name what it returned before.  A successful SetRuleEnabled, whatever any other call
does, overwrites, at the position of the rule that GetRule finds, that rule with only its
`Enabled` field set; GetRule then returns it, and returns for every other pair of ruleset
name and rule id what it returned before.  All other positions of the ruleset list and of
the rule list are untouched. -/
theorem setEnabled_changes_only_flag (writeFile : Appcfg → Option String) (appcfg : Appcfg)
    (name ruleset rule : String) (enabled : Bool) :
    ((appcfg.SetRulesetEnabled writeFile name enabled).1 = .ok () →
      ∃ index rs,
        appcfg.Rulesets[index]? = some rs ∧ appcfg.GetRuleset name = .ok rs ∧
        (appcfg.SetRulesetEnabled writeFile name enabled).2.Rulesets
          = appcfg.Rulesets.set index { rs with Enabled := enabled } ∧
        (appcfg.SetRulesetEnabled writeFile name enabled).2.GetRuleset name
          = .ok { rs with Enabled := enabled } ∧
        ∀ n, n ≠ name →
          (appcfg.SetRulesetEnabled writeFile name enabled).2.GetRuleset n
            = appcfg.GetRuleset n) ∧
    ((appcfg.SetRuleEnabled writeFile ruleset rule enabled).1 = .ok () →
      ∃ rsIndex rs index r,
        appcfg.Rulesets[rsIndex]? = some rs ∧ appcfg.GetRuleset ruleset = .ok rs ∧
        rs.Rules[index]? = some r ∧ appcfg.GetRule ruleset rule = .ok r ∧
        (appcfg.SetRuleEnabled writeFile ruleset rule enabled).2.Rulesets
          = appcfg.Rulesets.set rsIndex
              { rs with Rules := rs.Rules.set index { r with Enabled := enabled } } ∧
        (appcfg.SetRuleEnabled writeFile ruleset rule enabled).2.GetRule ruleset rule
          = .ok { r with Enabled := enabled } ∧
        ∀ n i, (n ≠ ruleset ∨ i ≠ rule) →
          (appcfg.SetRuleEnabled writeFile ruleset rule enabled).2.GetRule n i
            = appcfg.GetRule n i) := by
  constructor
  · intro hrs
    cases h1 : rangeFirst (fun r : Ruleset => r.Name == name) appcfg.Rulesets with
    | none => simp [Appcfg.SetRulesetEnabled, h1] at hrs
    | some q =>
      obtain ⟨index, rs⟩ := q
      obtain ⟨g1, g2, _⟩ := rangeFirst_some_spec h1
      have hname : rs.Name = name := by simpa using g2
      refine ⟨index, rs, g1, by simp [Appcfg.GetRuleset, h1],
        by simp [Appcfg.SetRulesetEnabled, h1], ?_, ?_⟩
      · have e1 := rangeFirst_set_same (y := { rs with Enabled := enabled }) h1
          (by simpa using hname)
        simp [Appcfg.SetRulesetEnabled, h1, Appcfg.GetRuleset, e1]
      · intro n hn
        have e1 := rangeFirst_set_other (q := fun r : Ruleset => r.Name == n)
          (y := { rs with Enabled := enabled }) g1
          (by simp only [beq_eq_false_iff_ne, ne_eq]; rw [hname]; exact fun h => hn h.symm)
          (by simp only [beq_eq_false_iff_ne, ne_eq]; rw [hname]; exact fun h => hn h.symm)
        simp [Appcfg.SetRulesetEnabled, h1, Appcfg.GetRuleset, e1]
  · intro hr
    cases h1 : rangeFirst (fun r : Ruleset => r.Name == ruleset) appcfg.Rulesets with
    | none => simp [Appcfg.SetRuleEnabled, h1] at hr
    | some q =>
      obtain ⟨rsIndex, rs⟩ := q
      cases h2 : rangeFirst (fun r : Rule => r.ID == rule) rs.Rules with
      | none => simp [Appcfg.SetRuleEnabled, h1, h2] at hr
      | some q2 =>
        obtain ⟨index, r⟩ := q2
        obtain ⟨g1, g2, _⟩ := rangeFirst_some_spec h1
        obtain ⟨k1, k2, _⟩ := rangeFirst_some_spec h2
        have hname : rs.Name = ruleset := by simpa using g2
        have hid : r.ID = rule := by simpa using k2
        have e1 := rangeFirst_set_same
          (y := { rs with Rules := rs.Rules.set index { r with Enabled := enabled } }) h1
          (by simpa using hname)
        refine ⟨rsIndex, rs, index, r, g1, by simp [Appcfg.GetRuleset, h1], k1,
          by simp [Appcfg.GetRule, h1, h2], by simp [Appcfg.SetRuleEnabled, h1, h2], ?_, ?_⟩
        · have e2 := rangeFirst_set_same (y := { r with Enabled := enabled }) h2
            (by simpa using hid)
          simp [Appcfg.SetRuleEnabled, h1, h2, Appcfg.GetRule, e1, e2]
        · intro n i hni
          by_cases hn : n = ruleset
          · subst hn
            have hi : i ≠ rule := by
              rcases hni with h | h
              · exact absurd rfl h
              · exact h
            have e2 := rangeFirst_set_other (q := fun x : Rule => x.ID == i)
              (y := { r with Enabled := enabled }) k1
              (by simp only [beq_eq_false_iff_ne, ne_eq]; rw [hid]; exact fun h => hi h.symm)
              (by simp only [beq_eq_false_iff_ne, ne_eq]; rw [hid]; exact fun h => hi h.symm)
            simp [Appcfg.SetRuleEnabled, h1, h2, Appcfg.GetRule, e1, e2]
          · have e3 := rangeFirst_set_other (q := fun x : Ruleset => x.Name == n)
              (y := { rs with Rules := rs.Rules.set index { r with Enabled := enabled } }) g1
              (by simp only [beq_eq_false_iff_ne, ne_eq]; rw [hname]; exact fun h => hn h.symm)
              (by simp only [beq_eq_false_iff_ne, ne_eq]; rw [hname]; exact fun h => hn h.symm)
            simp [Appcfg.SetRuleEnabled, h1, h2, Appcfg.GetRule, e3]

/-- C7 at concrete inputs, each call on its own.  The registry `awsOnlyCfg` has the
ruleset `aws` and no rule, so that no SetRuleEnabled call succeeds on it: disabling the
ruleset `aws` changes only its flag.  In `twoCfg`, which has no ruleset `azure` to be
disabled, disabling the rule `abc12` of `aws` changes only the flag of that rule. -/
theorem setEnabled_changes_only_flag_witness :
    (awsOnlyCfg.SetRuleEnabled writeOk "aws" "abc12" false).1
      = .error (.msg "rule not found") ∧
    (∃ index rs,
      awsOnlyCfg.Rulesets[index]? = some rs ∧ awsOnlyCfg.GetRuleset "aws" = .ok rs ∧
      (awsOnlyCfg.SetRulesetEnabled writeOk "aws" false).2.Rulesets
        = awsOnlyCfg.Rulesets.set index { rs with Enabled := false } ∧
      (awsOnlyCfg.SetRulesetEnabled writeOk "aws" false).2.GetRuleset "aws"
        = .ok { rs with Enabled := false } ∧
      ∀ n, n ≠ "aws" →
        (awsOnlyCfg.SetRulesetEnabled writeOk "aws" false).2.GetRuleset n
          = awsOnlyCfg.GetRuleset n) ∧
    (twoCfg.SetRulesetEnabled writeOk "azure" false).1
      = .error (.msg "ruleset not found") ∧
    (∃ rsIndex rs index r,
      twoCfg.Rulesets[rsIndex]? = some rs ∧ twoCfg.GetRuleset "aws" = .ok rs ∧
      rs.Rules[index]? = some r ∧ twoCfg.GetRule "aws" "abc12" = .ok r ∧
      (twoCfg.SetRuleEnabled writeOk "aws" "abc12" false).2.Rulesets
        = twoCfg.Rulesets.set rsIndex
            { rs with Rules := rs.Rules.set index { r with Enabled := false } } ∧
      (twoCfg.SetRuleEnabled writeOk "aws" "abc12" false).2.GetRule "aws" "abc12"
        = .ok { r with Enabled := false } ∧
      ∀ n i, (n ≠ "aws" ∨ i ≠ "abc12") →
        (twoCfg.SetRuleEnabled writeOk "aws" "abc12" false).2.GetRule n i
          = twoCfg.GetRule n i) :=
  ⟨by decide,
    (setEnabled_changes_only_flag writeOk awsOnlyCfg "aws" "aws" "abc12" false).1 (by decide),
    by decide,
    (setEnabled_changes_only_flag writeOk twoCfg "azure" "aws" "abc12" false).2 (by decide)⟩

/-- C8: UpdateRuleset returns 'could not find ruleset' exactly when no stored ruleset has
the name `rs.Name`.  When one has, the first ruleset of that name is overwritten in place
by `rs` with its name lower-cased: the list of rulesets keeps its length, every other
position keeps its ruleset, and the call returns no error when the file write succeeds. -/
theorem UpdateRuleset_replaces_in_place (toLower : String → String)
    (writeFile : Appcfg → Option String) (appcfg : Appcfg) (rs : Ruleset) :
    ((appcfg.UpdateRuleset toLower writeFile rs).1 = .error (.msg "could not find ruleset") ↔
      ∀ r ∈ appcfg.Rulesets, r.Name ≠ rs.Name) ∧
    ((∃ r ∈ appcfg.Rulesets, r.Name = rs.Name) →
      ∃ index old,
        appcfg.Rulesets[index]? = some old ∧ old.Name = rs.Name ∧
        (∀ k, k < index → ∀ r, appcfg.Rulesets[k]? = some r → r.Name ≠ rs.Name) ∧
        (appcfg.UpdateRuleset toLower writeFile rs).2.Rulesets
          = appcfg.Rulesets.set index { rs with Name := toLower rs.Name } ∧
        (appcfg.UpdateRuleset toLower writeFile rs).2.Rulesets.length
          = appcfg.Rulesets.length ∧
        (appcfg.UpdateRuleset toLower writeFile rs).2.Rulesets[index]?
          = some { rs with Name := toLower rs.Name } ∧
        (∀ k, k ≠ index →
          (appcfg.UpdateRuleset toLower writeFile rs).2.Rulesets[k]? = appcfg.Rulesets[k]?) ∧
        (writeFile (appcfg.UpdateRuleset toLower writeFile rs).2 = none →
          (appcfg.UpdateRuleset toLower writeFile rs).1 = .ok ())) := by
  cases h1 : rangeFirst (fun r : Ruleset => r.Name == rs.Name) appcfg.Rulesets with
  | none =>
    have hall : ∀ r ∈ appcfg.Rulesets, r.Name ≠ rs.Name := fun r hr => by
      simpa using rangeFirst_eq_none_iff.mp h1 r hr
    refine ⟨?_, ?_⟩
    · simp only [Appcfg.UpdateRuleset, h1, true_iff]
      exact hall
    · rintro ⟨r, hr, hn⟩
      exact absurd hn (hall r hr)
  | some q =>
    obtain ⟨index, old⟩ := q
    obtain ⟨g1, g2, g3⟩ := rangeFirst_some_spec h1
    have hname : old.Name = rs.Name := by simpa using g2
    have hmem : old ∈ appcfg.Rulesets := List.mem_iff_getElem?.mpr ⟨index, g1⟩
    have hi : index < appcfg.Rulesets.length := (List.getElem?_eq_some_iff.mp g1).1
    refine ⟨?_, ?_⟩
    · simp only [Appcfg.UpdateRuleset, h1]
      constructor
      · intro h
        exact absurd h (writeConfig_ne_msg writeFile _ _)
      · intro h
        exact absurd hname (h old hmem)
    · intro _
      refine ⟨index, old, g1, hname, ?_, by simp [Appcfg.UpdateRuleset, h1],
        by simp [Appcfg.UpdateRuleset, h1], by simp [Appcfg.UpdateRuleset, h1, hi], ?_, ?_⟩
      · intro k hk r hr
        simpa using g3 k hk r hr
      · intro k hk
        simp only [Appcfg.UpdateRuleset, h1]
        exact List.getElem?_set_ne (fun h => hk h.symm)
      · simp only [Appcfg.UpdateRuleset, h1, Appcfg.writeConfig]
        intro hw
        rw [hw]

/-- C8 at a concrete input: updating `gcp` in `twoCfg` to version 0.3.0. -/
theorem UpdateRuleset_replaces_in_place_witness :
    (twoCfg.UpdateRuleset asciiLower writeOk (mkRuleset "gcp" "0.3.0" [])).1 = .ok () ∧
    (twoCfg.UpdateRuleset asciiLower writeOk (mkRuleset "gcp" "0.3.0" [])).2.Rulesets.length
      = twoCfg.Rulesets.length ∧
    ((twoCfg.UpdateRuleset asciiLower writeOk (mkRuleset "azure" "0.3.0" [])).1
        = .error (.msg "could not find ruleset") ↔
      ∀ r ∈ twoCfg.Rulesets, r.Name ≠ (mkRuleset "azure" "0.3.0" []).Name) :=
  ⟨by decide,
    by
      obtain ⟨_, _, _, _, _, _, hlen, _⟩ :=
        (UpdateRuleset_replaces_in_place asciiLower writeOk twoCfg
          (mkRuleset "gcp" "0.3.0" [])).2 (by decide)
      exact hlen,
    (UpdateRuleset_replaces_in_place asciiLower writeOk twoCfg (mkRuleset "azure" "0.3.0" [])).1⟩

/-- C9: UpsertRule returns 'ruleset not found' exactly when no stored ruleset is named
`rulesetName`, and the registry is then the one before the call.  When GetRuleset finds a
ruleset under that name and none of its rules has the id `newRule.ID`, a successful call
overwrites that ruleset, in place, with the same ruleset whose rule list has `newRule` (as
given, `Enabled` included) appended at the end; the rules before it and every other
position of the ruleset list are untouched, and GetRule then returns `newRule`. -/
theorem UpsertRule_not_found_or_appends (writeFile : Appcfg → Option String)
    (appcfg : Appcfg) (rulesetName : String) (newRule : Rule) :
    ((appcfg.UpsertRule writeFile rulesetName newRule).1 = .error (.msg "ruleset not found") ↔
      ∀ rs ∈ appcfg.Rulesets, rs.Name ≠ rulesetName) ∧
    ((∀ rs ∈ appcfg.Rulesets, rs.Name ≠ rulesetName) →
      (appcfg.UpsertRule writeFile rulesetName newRule).2 = appcfg) ∧
    (∀ ruleset, appcfg.GetRuleset rulesetName = .ok ruleset →
      (∀ r ∈ ruleset.Rules, r.ID ≠ newRule.ID) →
      (appcfg.UpsertRule writeFile rulesetName newRule).1 = .ok () →
      ∃ index,
        appcfg.Rulesets[index]? = some ruleset ∧
        (appcfg.UpsertRule writeFile rulesetName newRule).2.Rulesets
          = appcfg.Rulesets.set index { ruleset with Rules := ruleset.Rules ++ [newRule] } ∧
        (appcfg.UpsertRule writeFile rulesetName newRule).2.GetRuleset rulesetName
          = .ok { ruleset with Rules := ruleset.Rules ++ [newRule] } ∧
        (appcfg.UpsertRule writeFile rulesetName newRule).2.GetRule rulesetName newRule.ID
          = .ok newRule) := by
  cases h1 : rangeFirst (fun r : Ruleset => r.Name == rulesetName) appcfg.Rulesets with
  | none =>
    have hall : ∀ r ∈ appcfg.Rulesets, r.Name ≠ rulesetName := fun r hr => by
      simpa using rangeFirst_eq_none_iff.mp h1 r hr
    refine ⟨?_, ?_, ?_⟩
    · simp only [Appcfg.UpsertRule, h1, true_iff]
      exact hall
    · intro _
      simp [Appcfg.UpsertRule, h1]
    · intro ruleset hget
      simp [Appcfg.GetRuleset, h1] at hget
  | some q =>
    obtain ⟨index, found⟩ := q
    obtain ⟨g1, g2, _⟩ := rangeFirst_some_spec h1
    have hname : found.Name = rulesetName := by simpa using g2
    have hmem : found ∈ appcfg.Rulesets := List.mem_iff_getElem?.mpr ⟨index, g1⟩
    refine ⟨?_, ?_, ?_⟩
    · constructor
      · intro h
        exfalso
        simp only [Appcfg.UpsertRule, h1] at h
        split at h <;> exact writeConfig_ne_msg writeFile _ _ h
      · intro h
        exact absurd hname (h found hmem)
    · intro h
      exact absurd hname (h found hmem)
    · intro ruleset hget hno _
      simp only [Appcfg.GetRuleset, h1, Except.ok.injEq] at hget
      subst hget
      have h2 : rangeFirst (fun r : Rule => r.ID == newRule.ID) found.Rules = none :=
        rangeFirst_eq_none_iff.mpr (fun x hx => by simpa using hno x hx)
      have e1 := rangeFirst_set_same
        (y := { found with Rules := found.Rules ++ [newRule] }) h1 (by simpa using hname)
      have e2 := rangeFirst_append_single (y := newRule) h2 (by simp)
      refine ⟨index, g1, by simp [Appcfg.UpsertRule, h1, h2], ?_, ?_⟩
      · simp [Appcfg.UpsertRule, h1, h2, Appcfg.GetRuleset, e1]
      · simp [Appcfg.UpsertRule, h1, h2, Appcfg.GetRule, e1, e2]

/-- C9 at a concrete input: upserting a rule of a new id into `gcp` of `twoCfg`, and
upserting into the absent ruleset `azure`. -/
theorem UpsertRule_not_found_or_appends_witness :
    (∃ index,
      twoCfg.Rulesets[index]? = some (mkRuleset "gcp" "0.2.0" [mkRule "abc12" "zones" true]) ∧
      (twoCfg.UpsertRule writeOk "gcp" (mkRule "77aa0" "ports" false)).2.Rulesets
        = twoCfg.Rulesets.set index
            { mkRuleset "gcp" "0.2.0" [mkRule "abc12" "zones" true] with
              Rules := (mkRuleset "gcp" "0.2.0" [mkRule "abc12" "zones" true]).Rules
                ++ [mkRule "77aa0" "ports" false] } ∧
      (twoCfg.UpsertRule writeOk "gcp" (mkRule "77aa0" "ports" false)).2.GetRuleset "gcp"
        = .ok { mkRuleset "gcp" "0.2.0" [mkRule "abc12" "zones" true] with
              Rules := (mkRuleset "gcp" "0.2.0" [mkRule "abc12" "zones" true]).Rules
                ++ [mkRule "77aa0" "ports" false] } ∧
      (twoCfg.UpsertRule writeOk "gcp" (mkRule "77aa0" "ports" false)).2.GetRule "gcp"
          (mkRule "77aa0" "ports" false).ID
        = .ok (mkRule "77aa0" "ports" false)) ∧
    (twoCfg.UpsertRule writeOk "azure" (mkRule "77aa0" "ports" false)).2 = twoCfg :=
  ⟨(UpsertRule_not_found_or_appends writeOk twoCfg "gcp" (mkRule "77aa0" "ports" false)).2.2
      (mkRuleset "gcp" "0.2.0" [mkRule "abc12" "zones" true]) (by decide) (by decide)
      (by decide),
    (UpsertRule_not_found_or_appends writeOk twoCfg "azure"
      (mkRule "77aa0" "ports" false)).2.1 (by decide)⟩

/-- C10: if the rule ids inside every ruleset of the registry are pairwise distinct, they
are pairwise distinct in the registry UpsertRule leaves, for every ruleset name, every new
rule and every outcome of the file write. -/
theorem UpsertRule_preserves_RuleIdsUnique (writeFile : Appcfg → Option String)
    (appcfg : Appcfg) (rulesetName : String) (newRule : Rule)
    (h : RuleIdsUnique appcfg) :
    RuleIdsUnique (appcfg.UpsertRule writeFile rulesetName newRule).2 := by
  cases h1 : rangeFirst (fun r : Ruleset => r.Name == rulesetName) appcfg.Rulesets with
  | none => simpa [Appcfg.UpsertRule, h1] using h
  | some q =>
    obtain ⟨index, found⟩ := q
    obtain ⟨g1, _, _⟩ := rangeFirst_some_spec h1
    have hfound : (found.Rules.map (fun r => r.ID)).Nodup :=
      h found (List.mem_iff_getElem?.mpr ⟨index, g1⟩)
    cases h2 : rangeFirst (fun r : Rule => r.ID == newRule.ID) found.Rules with
    | none =>
      have hnew : ∀ x ∈ found.Rules, x.ID ≠ newRule.ID := fun x hx => by
        simpa using rangeFirst_eq_none_iff.mp h2 x hx
      intro rs hrs
      simp only [Appcfg.UpsertRule, h1, h2] at hrs
      rcases List.mem_or_eq_of_mem_set hrs with hin | heq
      · exact h rs hin
      · subst heq
        simp only [List.map_append, List.map_cons, List.map_nil]
        refine List.Nodup.append hfound (List.nodup_singleton _) ?_
        intro a ha hb
        simp only [List.mem_singleton] at hb
        subst hb
        obtain ⟨x, hx, hxa⟩ := List.mem_map.mp ha
        exact hnew x hx hxa
    | some q2 =>
      obtain ⟨ruleIndex, rule⟩ := q2
      obtain ⟨k1, k2, _⟩ := rangeFirst_some_spec h2
      have hid : rule.ID = newRule.ID := by simpa using k2
      intro rs hrs
      simp only [Appcfg.UpsertRule, h1, h2] at hrs
      rcases List.mem_or_eq_of_mem_set hrs with hin | heq
      · exact h rs hin
      · subst heq
        have hsame : (found.Rules.set ruleIndex { newRule with Enabled := rule.Enabled }).map
            (fun r => r.ID) = found.Rules.map (fun r => r.ID) := by
          apply List.ext_getElem?
          intro k
          by_cases hk : ruleIndex = k
          · subst hk
            simp only [List.map_set, List.getElem?_map, k1, Option.map_some']
            rw [List.getElem?_set_self (by
              simpa using (List.getElem?_eq_some_iff.mp k1).1)]
            simp [hid]
          · simp only [List.map_set]
            rw [List.getElem?_set_ne hk]
        simpa [hsame] using hfound

/-- C10 at a concrete input: `twoCfg` has pairwise distinct rule ids in each ruleset, and
so has the registry left by upserting a rule of the existing id `abc12` into `aws`. -/
theorem UpsertRule_preserves_RuleIdsUnique_witness :
    RuleIdsUnique twoCfg ∧
    RuleIdsUnique (twoCfg.UpsertRule writeOk "aws" (mkRule "abc12" "bucket-v2" false)).2 :=
  ⟨by decide,
    UpsertRule_preserves_RuleIdsUnique writeOk twoCfg "aws" (mkRule "abc12" "bucket-v2" false)
      (by decide)⟩

/-! ## Lemmas on reading a line -/

theorem rawLines_of_ne_nil {data : Bytes} (h : data ≠ []) :
    rawLines data = data.takeWhile (fun b => b != 10)
      :: rawLines ((data.dropWhile (fun b => b != 10)).drop 1) := by
  induction data with
  | nil => exact absurd rfl h
  | cons b rest ih =>
    by_cases hb : b = 10
    · subst hb
      simp [rawLines]
    · have hp : (b != 10) = true := by simpa using hb
      cases rest with
      | nil => simp [rawLines, hb, hp]
      | cons c rest2 =>
        have := ih (by simp)
        rw [rawLines, if_neg hb, this]
        simp [hp]

theorem length_rest_lt {data : Bytes} (h : data ≠ []) :
    ((data.dropWhile (fun b => b != 10)).drop 1).length < data.length := by
  have h1 : (data.dropWhile (fun b => b != 10)).length ≤ data.length :=
    (List.dropWhile_sublist _).length_le
  have h2 : 0 < data.length := List.length_pos.mpr h
  simp only [List.length_drop]
  omega

theorem scanLine_of_short {data : Bytes} (h : data ≠ [])
    (hlen : (data.takeWhile (fun b => b != 10)).length < MaxScanTokenSize) :
    scanLine data = some (dropCR (data.takeWhile (fun b => b != 10)),
      (data.dropWhile (fun b => b != 10)).drop 1) := by
  unfold scanLine
  rw [if_neg h]
  simp only
  rw [if_neg (by omega)]

/-- The loop of ReadLine reaches a line within reach: it returns the line without its
terminator, the number of the line, and no error. -/
theorem ReadLine_loop_of_readable (fuel : Nat) :
    ∀ (data : Bytes) (lastLine n : Nat), data.length < fuel → ReadableLine data n →
      ∃ line, (rawLines data)[n - 1]? = some line ∧
        ReadLine.loop ((lastLine + n : Nat) : Int) fuel data lastLine
          = (dropCR line, lastLine + n, none) := by
  induction fuel with
  | zero => intro data lastLine n h; omega
  | succ fuel ih =>
    intro data lastLine n hfuel hread
    obtain ⟨h1, h2, h3⟩ := hread
    have hne : data ≠ [] := by
      intro h0
      subst h0
      simp [rawLines] at h2
      omega
    have hraw := rawLines_of_ne_nil hne
    have hshort : (data.takeWhile (fun b => b != 10)).length < MaxScanTokenSize := by
      apply h3
      rw [hraw]
      obtain ⟨m, rfl⟩ : ∃ m, n = m + 1 := ⟨n - 1, by omega⟩
      simp
    rw [ReadLine.loop, scanLine_of_short hne hshort]
    simp only
    by_cases hn : n = 1
    · subst hn
      refine ⟨data.takeWhile (fun b => b != 10), by rw [hraw]; simp, ?_⟩
      simp
    · have hcast : ¬ (((lastLine + 1 : Nat) : Int) = ((lastLine + n : Nat) : Int)) := by
        intro h
        have := Int.ofNat.inj h
        omega
      rw [if_neg hcast]
      obtain ⟨m, rfl⟩ : ∃ m, n = m + 2 := ⟨n - 2, by omega⟩
      have hrest : ReadableLine ((data.dropWhile (fun b => b != 10)).drop 1) (m + 1) := by
        refine ⟨by omega, ?_, ?_⟩
        · rw [hraw] at h2
          simp only [List.length_cons] at h2
          omega
        · intro line hline
          apply h3
          rw [hraw]
          simp only [List.take_succ_cons]
          exact List.mem_cons_of_mem _ hline
      obtain ⟨line, hl1, hl2⟩ := ih _ (lastLine + 1) (m + 1)
        (by have := length_rest_lt hne; omega) hrest
      refine ⟨line, ?_, ?_⟩
      · rw [hraw]
        simpa using hl1
      · have e : lastLine + 1 + (m + 1) = lastLine + (m + 2) := by omega
        rw [e] at hl2
        exact hl2

theorem ReadLine_of_readable (content : Bytes) (n : Nat) (h : ReadableLine content n) :
    ∃ line, (docLines content)[n - 1]? = some line ∧ ReadLine content n = (line, n, none) := by
  obtain ⟨line, h1, h2⟩ := ReadLine_loop_of_readable (content.length + 1) content 0 n
    (by omega) h
  refine ⟨dropCR line, by simp [docLines, h1], ?_⟩
  simpa [ReadLine] using h2

theorem takeWhile_longLineDoc :
    longLineDoc.takeWhile (fun b => b != 10) = longLineDoc := by
  unfold longLineDoc
  rw [List.takeWhile_replicate]
  rfl

theorem dropWhile_longLineDoc :
    longLineDoc.dropWhile (fun b => b != 10) = [] := by
  unfold longLineDoc
  rw [List.dropWhile_replicate]
  rfl

theorem longLineDoc_ne_nil : longLineDoc ≠ [] := by
  intro h
  have := congrArg List.length h
  rw [longLineDoc, List.length_replicate] at this
  exact absurd this (by decide)

theorem dropCR_longLineDoc : dropCR longLineDoc = longLineDoc := by
  unfold dropCR longLineDoc
  rw [List.getLast?_replicate]
  rfl

theorem scanLine_longLineDoc : scanLine longLineDoc = none := by
  unfold scanLine
  rw [if_neg longLineDoc_ne_nil]
  simp only
  rw [takeWhile_longLineDoc, if_pos]
  rw [longLineDoc, List.length_replicate]
  decide

theorem ReadLine_loop_of_scan_none (lineNum : Int) (fuel : Nat) (data : Bytes) (lastLine : Nat)
    (h : scanLine data = none) :
    ReadLine.loop lineNum fuel data lastLine = ([], lastLine, some EOF) := by
  cases fuel <;> simp [ReadLine.loop, h]

/-- C14 (counterexample): the document made of one line of 65536 letters has exactly one
line, so its line 1 is within 1 and the number of lines; ReadLine asked for line 1
returns the empty text, last line 0 and `io.EOF`, because the line does not fit the
scanner buffer. -/
theorem ReadLine_long_line_not_returned :
    docLines longLineDoc = [longLineDoc] ∧ ReadLine longLineDoc 1 = ([], 0, some EOF) := by
  constructor
  · unfold docLines
    rw [rawLines_of_ne_nil longLineDoc_ne_nil, takeWhile_longLineDoc, dropWhile_longLineDoc]
    simp [rawLines, dropCR_longLineDoc]
  · exact ReadLine_loop_of_scan_none 1 _ longLineDoc 0 scanLine_longLineDoc

/-! ## Lemmas on the lint run -/

theorem calls_append (a b : List Event) : calls (a ++ b) = calls a ++ calls b := by
  simp [calls]

theorem reported_append (a b : List Event) : reported (a ++ b) = reported a ++ reported b := by
  simp [reported]

/-- The message built from a rule error has its location, start and end set, and is
converted back to the rule error. -/
theorem ruleErrorsToProto_cons (d : RuleError) (rest : List RuleError) :
    ∃ p : proto.RuleError,
      ruleErrorsToProto (d :: rest) = p :: ruleErrorsToProto rest ∧
      (p.Location.bind fun location => location.Start)
        = some { Line := d.Location.Start.Line, Column := d.Location.Start.Column } ∧
      ProtoToRuleError p = some d :=
  ⟨_, rfl, rfl, rfl⟩

theorem length_ruleErrorsToProto (checked : List RuleError) :
    (ruleErrorsToProto checked).length = checked.length := by
  simp [ruleErrorsToProto]

/-- Every message built by ruleErrorsToProto carries its location. -/
theorem hasLocation_ruleErrorsToProto (checked : List RuleError) :
    (ruleErrorsToProto checked).all hasLocation = true := by
  simp [ruleErrorsToProto, hasLocation]

/-- A rule error that carries its location has a start, and is converted. -/
theorem of_hasLocation {p : proto.RuleError} (h : hasLocation p = true) :
    (∃ start, (p.Location.bind fun location => location.Start) = some start) ∧
    ∃ ruleErr, ProtoToRuleError p = some ruleErr := by
  unfold hasLocation at h
  cases hl : p.Location with
  | none => simp [hl] at h
  | some location =>
    simp only [hl, Bool.and_eq_true, Option.isSome_iff_exists] at h
    obtain ⟨⟨start, hs⟩, ⟨stop, he⟩⟩ := h
    exact ⟨⟨start, by simp [hs]⟩, by simp [ProtoToRuleError, hl, hs, he]⟩

/-- The loop of runRule only adds printed lint errors to the events, and it ends: it
returns or the program panics. -/
theorem report_adds_lint_errors (ruleset : String) (rule : Rule) (filepath : String)
    (contents : Bytes) :
    ∀ (ruleErrs : List proto.RuleError) (trace : List Event),
      (runRule.report ruleset rule filepath contents ruleErrs trace).1 ≠ .blocked ∧
      ∃ mid, (runRule.report ruleset rule filepath contents ruleErrs trace).2 = trace ++ mid ∧
        ∀ e ∈ mid, ∃ lintErr, e = Event.lintError lintErr := by
  intro ruleErrs
  induction ruleErrs with
  | nil => intro trace; exact ⟨by simp [runRule.report], [], by simp [runRule.report], by simp⟩
  | cons p rest ih =>
    intro trace
    rw [runRule.report]
    cases hs : p.Location.bind (fun location => location.Start) with
    | none => exact ⟨by simp, [], by simp, by simp⟩
    | some start =>
      simp only
      rcases hrl : ReadLine contents (start.Line : Nat) with ⟨line, last, err⟩
      cases err with
      | some e => exact ⟨by simp, [], by simp, by simp⟩
      | none =>
        simp only
        cases hc : ProtoToRuleError p with
        | none => exact ⟨by simp, [], by simp, by simp⟩
        | some ruleErr =>
          simp only
          obtain ⟨hnb, mid, h1, h2⟩ := ih (trace ++ [Event.lintError
            { Filepath := filepath, Line := line, Ruleset := ruleset, Rule := rule,
              RuleErr := ruleErr }])
          refine ⟨hnb, Event.lintError
            { Filepath := filepath, Line := line, Ruleset := ruleset, Rule := rule,
              RuleErr := ruleErr } :: mid, by rw [h1]; simp, ?_⟩
          intro e he
          rcases List.mem_cons.mp he with rfl | hm
          · exact ⟨_, rfl⟩
          · exact h2 e hm

/-- The loop of runRule adds no call of runRule to the events. -/
theorem calls_report (ruleset : String) (rule : Rule) (filepath : String) (contents : Bytes)
    (ruleErrs : List proto.RuleError) (trace : List Event) :
    calls (runRule.report ruleset rule filepath contents ruleErrs trace).2 = calls trace := by
  obtain ⟨_, mid, h1, h2⟩ := report_adds_lint_errors ruleset rule filepath contents ruleErrs trace
  rw [h1, calls_append]
  have : calls mid = [] := by
    unfold calls
    rw [List.filterMap_eq_nil_iff]
    intro e he
    obtain ⟨lintErr, rfl⟩ := h2 e he
    rfl
  rw [this, List.append_nil]

/-- Over rule errors that all carry their location the loop of runRule does not panic. -/
theorem report_ne_panic (ruleset : String) (rule : Rule) (filepath : String)
    (contents : Bytes) :
    ∀ (ruleErrs : List proto.RuleError) (trace : List Event),
      ruleErrs.all hasLocation = true →
      (runRule.report ruleset rule filepath contents ruleErrs trace).1 ≠ .panic := by
  intro ruleErrs
  induction ruleErrs with
  | nil => intro trace _; simp [runRule.report]
  | cons p rest ih =>
    intro trace hall
    simp only [List.all_cons, Bool.and_eq_true] at hall
    obtain ⟨⟨start, hs⟩, ⟨ruleErr, hc⟩⟩ := of_hasLocation hall.1
    rw [runRule.report, hs]
    simp only
    rcases hrl : ReadLine contents (start.Line : Nat) with ⟨line, last, err⟩
    cases err with
    | some e => simp
    | none =>
      simp only [hc]
      exact ih _ hall.2

/-- When every start line can be read, the loop of runRule prints the lint error of every
rule error, in order. -/
theorem report_toProto_readable (ruleset : String) (rule : Rule) (filepath : String)
    (contents : Bytes) :
    ∀ (checked : List RuleError) (trace : List Event),
      (∀ d ∈ checked, (ReadLine contents (d.Location.Start.Line : Nat)).2.2 = none) →
      runRule.report ruleset rule filepath contents (ruleErrorsToProto checked) trace
        = (.ok (), trace ++ checked.map fun d =>
            Event.lintError (lintErrorOf filepath contents (ruleset, rule) d)) := by
  intro checked
  induction checked with
  | nil => intro trace _; simp [ruleErrorsToProto, runRule.report]
  | cons d rest ih =>
    intro trace hall
    obtain ⟨p, hp, hstart, hconv⟩ := ruleErrorsToProto_cons d rest
    rw [hp, runRule.report, hstart]
    simp only
    have hd := hall d (by simp)
    rcases hrl : ReadLine contents (d.Location.Start.Line : Nat) with ⟨line, last, err⟩
    rw [hrl] at hd
    simp only at hd
    subst hd
    simp only [hconv]
    rw [ih _ (fun x hx => hall x (List.mem_cons_of_mem _ hx))]
    simp [lintErrorOf, hrl]

/-- The function runRule does not return exactly when the call to the rule process does
not return. -/
theorem runRule_blocked_iff (w : LintWorld) (ruleset : String) (rule : Rule)
    (filepath : String) (contents : Bytes) :
    (runRule w ruleset rule filepath contents).1 = .blocked ↔
      w.plugin (RulePath w.configPath ruleset rule.ID) contents = .hangs := by
  unfold runRule
  cases hp : w.plugin (RulePath w.configPath ruleset rule.ID) contents with
  | clientError e => simp [hp]
  | dispenseError e => simp [hp]
  | notRuleDefinition => simp [hp]
  | callError e => simp [hp]
  | hangs => simp [hp]
  | response ruleErrs =>
    simp only [hp]
    have h := (report_adds_lint_errors ruleset rule filepath contents ruleErrs
      [Event.newClient (RulePath w.configPath ruleset rule.ID)]).1
    rcases hr : runRule.report ruleset rule filepath contents ruleErrs
      [Event.newClient (RulePath w.configPath ruleset rule.ID)] with ⟨o, tr⟩
    rw [hr] at h
    cases o with
    | ok u => simp
    | error e => simp
    | panic => simp
    | blocked => exact absurd rfl h

/-- The program panics in runRule only over a response with a rule error that lacks its
location. -/
theorem runRule_panic (w : LintWorld) (ruleset : String) (rule : Rule) (filepath : String)
    (contents : Bytes) (h : (runRule w ruleset rule filepath contents).1 = .panic) :
    ∃ ruleErrs, w.plugin (RulePath w.configPath ruleset rule.ID) contents = .response ruleErrs ∧
      ruleErrs.all hasLocation = false := by
  unfold runRule at h
  cases hp : w.plugin (RulePath w.configPath ruleset rule.ID) contents with
  | clientError e => simp [hp] at h
  | dispenseError e => simp [hp] at h
  | notRuleDefinition => simp [hp] at h
  | callError e => simp [hp] at h
  | hangs => simp [hp] at h
  | response ruleErrs =>
    refine ⟨ruleErrs, rfl, ?_⟩
    simp only [hp] at h
    cases hall : ruleErrs.all hasLocation with
    | false => rfl
    | true =>
      have hnp := report_ne_panic ruleset rule filepath contents ruleErrs
        [Event.newClient (RulePath w.configPath ruleset rule.ID)] hall
      rcases hr : runRule.report ruleset rule filepath contents ruleErrs
        [Event.newClient (RulePath w.configPath ruleset rule.ID)] with ⟨o, tr⟩
      rw [hr] at h hnp
      cases o with
      | ok u => simp at h
      | error e => simp at h
      | panic => exact absurd rfl hnp
      | blocked => simp at h

/-- A call that comes back to the host with what it can walk does not stop lintFile. -/
theorem stops_of_answers (w : LintWorld) (filepath : String) (contents : Bytes)
    (r : String × Rule) (h : answers w contents r = true) :
    stops w filepath contents r = false := by
  unfold stops
  cases ho : (runRule w r.1 r.2 filepath contents).1 with
  | ok n => rfl
  | error e => rfl
  | panic =>
    obtain ⟨ruleErrs, hp, hall⟩ := runRule_panic w r.1 r.2 filepath contents ho
    simp [answers, hp, hall] at h
  | blocked =>
    have hp := (runRule_blocked_iff w r.1 r.2 filepath contents).mp ho
    simp [answers, hp] at h

/-- The events of runRule hold no call of runRule. -/
theorem calls_runRule (w : LintWorld) (ruleset : String) (rule : Rule) (filepath : String)
    (contents : Bytes) : calls (runRule w ruleset rule filepath contents).2 = [] := by
  unfold runRule
  cases hp : w.plugin (RulePath w.configPath ruleset rule.ID) contents with
  | clientError e => simp [hp, calls]
  | dispenseError e => simp [hp, calls]
  | notRuleDefinition => simp [hp, calls]
  | callError e => simp [hp, calls]
  | hangs => simp [hp, calls]
  | response ruleErrs =>
    simp only [hp]
    have h := calls_report ruleset rule filepath contents ruleErrs
      [Event.newClient (RulePath w.configPath ruleset rule.ID)]
    rcases hr : runRule.report ruleset rule filepath contents ruleErrs
      [Event.newClient (RulePath w.configPath ruleset rule.ID)] with ⟨o, tr⟩
    rw [hr] at h
    simp only at h
    cases o <;> simp [calls_append, h] <;> simp [calls]

/-- A call of runRule that returns a count returns the number of rule errors of the
response. -/
theorem runRule_ok_count (w : LintWorld) (ruleset : String) (rule : Rule) (filepath : String)
    (contents : Bytes) (k : Nat)
    (h : (runRule w ruleset rule filepath contents).1 = .ok k) :
    ∃ ruleErrs, w.plugin (RulePath w.configPath ruleset rule.ID) contents = .response ruleErrs ∧
      k = ruleErrs.length := by
  unfold runRule at h
  cases hp : w.plugin (RulePath w.configPath ruleset rule.ID) contents with
  | clientError e => simp [hp] at h
  | dispenseError e => simp [hp] at h
  | notRuleDefinition => simp [hp] at h
  | callError e => simp [hp] at h
  | hangs => simp [hp] at h
  | response ruleErrs =>
    refine ⟨ruleErrs, rfl, ?_⟩
    simp only [hp] at h
    rcases hr : runRule.report ruleset rule filepath contents ruleErrs
      [Event.newClient (RulePath w.configPath ruleset rule.ID)] with ⟨o, tr⟩
    rw [hr] at h
    cases o with
    | ok u =>
      simp only [Outcome.ok.injEq] at h
      exact h.symm
    | error e => simp at h
    | panic => simp at h
    | blocked => simp at h

/-- When the executor answers, as the SDK sends it, with rule errors whose start lines can
all be read, runRule prints the lint error of every rule error, in order, between creating
and killing the client, and returns their number. -/
theorem runRule_of_readable (w : LintWorld) (ruleset : String) (rule : Rule) (filepath : String)
    (contents : Bytes) (checked : List RuleError)
    (hp : w.plugin (RulePath w.configPath ruleset rule.ID) contents
      = .response (ruleErrorsToProto checked))
    (hall : ∀ d ∈ checked, (ReadLine contents (d.Location.Start.Line : Nat)).2.2 = none) :
    runRule w ruleset rule filepath contents
      = (.ok checked.length,
          [Event.newClient (RulePath w.configPath ruleset rule.ID)]
            ++ (checked.map fun d =>
                Event.lintError (lintErrorOf filepath contents (ruleset, rule) d))
            ++ [Event.kill (RulePath w.configPath ruleset rule.ID)]) := by
  unfold runRule
  simp only [hp]
  rw [report_toProto_readable ruleset rule filepath contents checked _ hall]
  simp [length_ruleErrorsToProto]

/-- A loop over rules none of which stops it ends with the counts of the rules added. -/
theorem rulesOutcome_of_no_stop (w : LintWorld) (filepath : String) (contents : Bytes) :
    ∀ (l : List (String × Rule)) (acc : Nat),
      l.any (stops w filepath contents) = false →
      rulesOutcome w filepath contents l acc
        = .ok (acc + (l.map (ruleCount w filepath contents)).sum) := by
  intro l
  induction l with
  | nil => intro acc _; simp [rulesOutcome]
  | cons r rest ih =>
    intro acc h
    simp only [List.any_cons, Bool.or_eq_false_iff] at h
    rw [rulesOutcome]
    cases ho : (runRule w r.1 r.2 filepath contents).1 with
    | ok n =>
      simp only
      rw [ih _ h.2]
      simp [ruleCount, ho, Nat.add_assoc]
    | error e =>
      simp only
      rw [ih _ h.2]
      simp [ruleCount, ho]
    | panic => simp [stops, ho] at h
    | blocked => simp [stops, ho] at h

/-- A loop over rules one of which stops it does not end with a count: the program panics
or the loop does not end. -/
theorem rulesOutcome_of_stop (w : LintWorld) (filepath : String) (contents : Bytes) :
    ∀ (l : List (String × Rule)) (acc : Nat),
      l.any (stops w filepath contents) = true →
      rulesOutcome w filepath contents l acc = .panic ∨
        rulesOutcome w filepath contents l acc = .blocked := by
  intro l
  induction l with
  | nil => intro acc h; simp at h
  | cons r rest ih =>
    intro acc h
    rw [rulesOutcome]
    cases ho : (runRule w r.1 r.2 filepath contents).1 with
    | ok n =>
      simp only
      apply ih
      simpa [stops, ho] using h
    | error e =>
      simp only
      apply ih
      simpa [stops, ho] using h
    | panic => exact Or.inl rfl
    | blocked => exact Or.inr rfl

theorem reached_of_no_stop {α : Type} (stop : α → Bool) :
    ∀ l : List α, l.any stop = false → reached stop l = l := by
  intro l
  induction l with
  | nil => intro _; rfl
  | cons x rest ih =>
    intro h
    simp only [List.any_cons, Bool.or_eq_false_iff] at h
    simp [reached, h.1, ih h.2]

theorem reached_append {α : Type} (stop : α → Bool) (l2 : List α) :
    ∀ l1 : List α,
      reached stop (l1 ++ l2)
        = if l1.any stop = true then reached stop l1 else l1 ++ reached stop l2 := by
  intro l1
  induction l1 with
  | nil => simp [reached]
  | cons x rest ih =>
    cases hx : stop x with
    | true => simp [reached, hx]
    | false =>
      rw [List.cons_append, reached, reached, ih]
      by_cases h : rest.any stop = true <;> simp [h, hx]

/-- The items a loop gets to are a prefix of the list. -/
theorem reached_initial {α : Type} (stop : α → Bool) :
    ∀ l : List α, reached stop l <+: l := by
  intro l
  induction l with
  | nil => exact List.prefix_refl _
  | cons x rest ih =>
    cases hx : stop x with
    | true =>
      simp only [reached, hx, if_true]
      exact ⟨rest, rfl⟩
    | false =>
      simp only [reached, hx, Bool.false_eq_true, if_false]
      exact (List.prefix_cons_inj x).mpr ih

theorem rulesOutcome_append (w : LintWorld) (filepath : String) (contents : Bytes)
    (l2 : List (String × Rule)) :
    ∀ (l1 : List (String × Rule)) (acc : Nat),
      rulesOutcome w filepath contents (l1 ++ l2) acc
        = match rulesOutcome w filepath contents l1 acc with
          | .ok n => rulesOutcome w filepath contents l2 n
          | other => other := by
  intro l1
  induction l1 with
  | nil => intro acc; simp [rulesOutcome]
  | cons r rest ih =>
    intro acc
    rw [List.cons_append, rulesOutcome, rulesOutcome]
    cases ho : (runRule w r.1 r.2 filepath contents).1 with
    | ok n => exact ih _
    | error e => exact ih _
    | panic => rfl
    | blocked => rfl

/-- The loop over rules never ends with an error. -/
theorem rulesOutcome_ne_error (w : LintWorld) (filepath : String) (contents : Bytes) :
    ∀ (l : List (String × Rule)) (acc : Nat) (err : Error),
      rulesOutcome w filepath contents l acc ≠ .error err := by
  intro l acc err
  cases hany : l.any (stops w filepath contents) with
  | false => rw [rulesOutcome_of_no_stop w filepath contents l acc hany]; simp
  | true =>
    rcases rulesOutcome_of_stop w filepath contents l acc hany with h | h <;> rw [h] <;> simp

/-- A loop over rules that ends with a count was not stopped. -/
theorem no_stop_of_rulesOutcome_ok (w : LintWorld) (filepath : String) (contents : Bytes)
    (l : List (String × Rule)) (acc n : Nat)
    (h : rulesOutcome w filepath contents l acc = .ok n) :
    l.any (stops w filepath contents) = false := by
  cases hany : l.any (stops w filepath contents) with
  | false => rfl
  | true =>
    rcases rulesOutcome_of_stop w filepath contents l acc hany with h2 | h2 <;>
      rw [h2] at h <;> simp at h

/-- The inner loop of lintFile is the loop over the enabled rules of the ruleset: it ends
as that loop ends, and its events are those of the rules it gets to. -/
theorem lintFile_rules_eq (w : LintWorld) (ruleset filepath : String) (contents : Bytes) :
    ∀ (rules : List Rule) (acc : Nat) (trace : List Event),
      lintFile.rules w ruleset filepath contents rules acc trace
        = (rulesOutcome w filepath contents
              ((rules.filter fun rule => rule.Enabled).map fun rule => (ruleset, rule)) acc,
            trace ++ (reached (stops w filepath contents)
              ((rules.filter fun rule => rule.Enabled).map fun rule => (ruleset, rule))).flatMap
                (ruleEvents w filepath contents)) := by
  intro rules
  induction rules with
  | nil => intro acc trace; simp [lintFile.rules, rulesOutcome, reached]
  | cons rule rest ih =>
    intro acc trace
    cases hEn : rule.Enabled with
    | false => simp [lintFile.rules, hEn, ih]
    | true =>
      rw [lintFile.rules]
      simp only [hEn, Bool.not_true, Bool.false_eq_true, if_false]
      rcases hr : runRule w ruleset rule filepath contents with ⟨o, ev⟩
      have ho : (runRule w ruleset rule filepath contents).1 = o := by rw [hr]
      have hev : (runRule w ruleset rule filepath contents).2 = ev := by rw [hr]
      cases o with
      | panic =>
        simp [List.filter_cons, hEn, rulesOutcome, reached, stops, ruleEvents, ho, hev]
      | blocked =>
        simp [List.filter_cons, hEn, rulesOutcome, reached, stops, ruleEvents, ho, hev]
      | error e =>
        simp only [ih]
        simp [List.filter_cons, hEn, rulesOutcome, reached, stops, ruleEvents, ho, hev]
      | ok n =>
        simp only [ih]
        simp [List.filter_cons, hEn, rulesOutcome, reached, stops, ruleEvents, ho, hev]

/-- The outer loop of lintFile is the loop over the enabled rules of the enabled rulesets,
in order: it ends as that loop ends, and its events are those of the rules it gets to. -/
theorem lintFile_rulesets_eq (w : LintWorld) (filepath : String) (contents : Bytes) :
    ∀ (rulesets : List Ruleset) (acc : Nat) (trace : List Event),
      lintFile.rulesets w filepath contents rulesets acc trace
        = (rulesOutcome w filepath contents (enabledRules { Rulesets := rulesets }) acc,
            trace ++ (reached (stops w filepath contents)
              (enabledRules { Rulesets := rulesets })).flatMap
                (ruleEvents w filepath contents)) := by
  intro rulesets
  induction rulesets with
  | nil => intro acc trace; simp [lintFile.rulesets, enabledRules, rulesOutcome, reached]
  | cons ruleset rest ih =>
    intro acc trace
    cases hEn : ruleset.Enabled with
    | false =>
      have := ih acc trace
      simp only [enabledRules] at this ⊢
      simp [lintFile.rulesets, hEn, this]
    | true =>
      have hsplit : enabledRules { Rulesets := ruleset :: rest }
          = ((ruleset.Rules.filter fun rule => rule.Enabled).map fun rule =>
              (ruleset.Name, rule)) ++ enabledRules { Rulesets := rest } := by
        simp [enabledRules, hEn]
      rw [lintFile.rulesets, hsplit, rulesOutcome_append, reached_append]
      simp only [hEn, Bool.not_true, Bool.false_eq_true, if_false, lintFile_rules_eq]
      cases ho : rulesOutcome w filepath contents
          ((ruleset.Rules.filter fun rule => rule.Enabled).map fun rule =>
            (ruleset.Name, rule)) acc with
      | ok n =>
        have hns := no_stop_of_rulesOutcome_ok w filepath contents _ acc n ho
        simp only [ih, hns, Bool.false_eq_true, if_false,
          reached_of_no_stop _ _ hns, List.flatMap_append, List.append_assoc]
      | error e => exact absurd ho (rulesOutcome_ne_error w filepath contents _ acc e)
      | panic =>
        have hs : List.any ((ruleset.Rules.filter fun rule => rule.Enabled).map fun rule =>
            (ruleset.Name, rule)) (stops w filepath contents) = true := by
          cases hany : List.any ((ruleset.Rules.filter fun rule => rule.Enabled).map
              fun rule => (ruleset.Name, rule)) (stops w filepath contents) with
          | true => rfl
          | false =>
            rw [rulesOutcome_of_no_stop w filepath contents _ acc hany] at ho
            simp at ho
        simp only [hs, if_true]
      | blocked =>
        have hs : List.any ((ruleset.Rules.filter fun rule => rule.Enabled).map fun rule =>
            (ruleset.Name, rule)) (stops w filepath contents) = true := by
          cases hany : List.any ((ruleset.Rules.filter fun rule => rule.Enabled).map
              fun rule => (ruleset.Name, rule)) (stops w filepath contents) with
          | true => rfl
          | false =>
            rw [rulesOutcome_of_no_stop w filepath contents _ acc hany] at ho
            simp at ho
        simp only [hs, if_true]

/-- The function lintFile on a file that passes the memory check, is read and parses: it
ends as the loop over the enabled rules of the enabled rulesets ends, and its events are
those of the rules the loop gets to. -/
theorem lintFile_of_parsed (w : LintWorld) (cfg : Appcfg) (file : File) (contents : Bytes)
    (hmem : checkAvailMemory (w.virtualMemory file) file = .ok ())
    (hread : file.ReadAll = .ok contents)
    (hparse : w.parseHCL contents file.Name = none) :
    lintFile w cfg file
      = (rulesOutcome w file.Name contents (enabledRules cfg) 0,
          (reached (stops w file.Name contents) (enabledRules cfg)).flatMap
            (ruleEvents w file.Name contents)) := by
  unfold lintFile
  simp [hmem, hread, hparse, lintFile_rulesets_eq]

/-- A file that passes the memory check, is read and parses, every call of an enabled rule
coming back to the host with what it can walk: lintFile returns the sum of the counts of
the enabled rules, and its events are those of the enabled rules, in order. -/
theorem lintFile_of_answers (w : LintWorld) (cfg : Appcfg) (file : File) (contents : Bytes)
    (hmem : checkAvailMemory (w.virtualMemory file) file = .ok ())
    (hread : file.ReadAll = .ok contents)
    (hparse : w.parseHCL contents file.Name = none)
    (hanswers : ∀ r ∈ enabledRules cfg, answers w contents r = true) :
    lintFile w cfg file
      = (.ok ((enabledRules cfg).map (ruleCount w file.Name contents)).sum,
          (enabledRules cfg).flatMap (ruleEvents w file.Name contents)) := by
  have hns : (enabledRules cfg).any (stops w file.Name contents) = false := by
    rw [List.any_eq_false]
    intro r hr
    rw [stops_of_answers w file.Name contents r (hanswers r hr)]
    simp
  rw [lintFile_of_parsed w cfg file contents hmem hread hparse,
    rulesOutcome_of_no_stop _ _ _ _ _ hns, reached_of_no_stop _ _ hns, Nat.zero_add]

theorem calls_ruleEvents (w : LintWorld) (filepath : String) (contents : Bytes)
    (l : List (String × Rule)) :
    calls (l.flatMap (ruleEvents w filepath contents))
      = l.map fun r => (r.1, r.2, filepath) := by
  induction l with
  | nil => simp [calls]
  | cons r rest ih =>
    rw [List.flatMap_cons, calls_append, ih]
    have : calls (ruleEvents w filepath contents r) = [(r.1, r.2, filepath)] := by
      unfold ruleEvents
      rw [calls_append, calls_append, calls_runRule]
      cases (runRule w r.1 r.2 filepath contents).1 <;> simp [calls]
    rw [this]
    rfl

theorem mem_enabledRules {cfg : Appcfg} {r : String × Rule} (h : r ∈ enabledRules cfg) :
    r.2.Enabled = true ∧
      ∃ ruleset ∈ cfg.Rulesets, ruleset.Enabled = true ∧ ruleset.Name = r.1 ∧
        r.2 ∈ ruleset.Rules := by
  simp only [enabledRules, List.mem_flatMap, List.mem_filter, List.mem_map] at h
  obtain ⟨ruleset, ⟨hrs, hen⟩, rule, ⟨hrule, hren⟩, rfl⟩ := h
  exact ⟨hren, ruleset, hrs, hen, rfl, hrule⟩

theorem answers_of_toProto (w : LintWorld) (contents : Bytes) (r : String × Rule)
    (checked : List RuleError)
    (h : w.plugin (RulePath w.configPath r.1 r.2.ID) contents
      = .response (ruleErrorsToProto checked)) :
    answers w contents r = true := by
  simp only [answers, h]
  exact hasLocation_ruleErrorsToProto checked

theorem answers_of_callError (w : LintWorld) (contents : Bytes) (r : String × Rule)
    (err : String)
    (h : w.plugin (RulePath w.configPath r.1 r.2.ID) contents = .callError err) :
    answers w contents r = true := by
  simp [answers, h]

/-! ## The claims on the lint run -/

/-- C11 (counterexample): the file `main.tf` passes the memory check and parses, and the
registry has two enabled rules, `ops/c0ffe` and then `aws/abc12`.  The process of
`ops/c0ffe` never responds: lintFile calls runRule for `ops/c0ffe` and never gets to
`aws/abc12`.  Likewise with the enabled rules `ops/dead1` and then `aws/abc12`, when the
process of `ops/dead1` answers with a rule error without location: the program panics in
runRule and `aws/abc12` is not called. -/
theorem lintFile_hung_rule_not_all_called :
    checkAvailMemory (hclWorld.virtualMemory (hclFile "main.tf")) (hclFile "main.tf") = .ok () ∧
    (hclFile "main.tf").ReadAll = .ok hclDoc ∧
    hclWorld.parseHCL hclDoc "main.tf" = none ∧
    enabledRules stallCfg
      = [("ops", mkRule "c0ffe" "uptime" true), ("aws", mkRule "abc12" "bucket" true)] ∧
    hclWorld.plugin (RulePath hclWorld.configPath "ops" "c0ffe") hclDoc = .hangs ∧
    calls (lintFile hclWorld stallCfg (hclFile "main.tf")).2
      = [("ops", mkRule "c0ffe" "uptime" true, "main.tf")] ∧
    enabledRules bareCfg
      = [("ops", mkRule "dead1" "owner" true), ("aws", mkRule "abc12" "bucket" true)] ∧
    hclWorld.plugin (RulePath hclWorld.configPath "ops" "dead1") hclDoc
      = .response [bareRuleError] ∧
    (lintFile hclWorld bareCfg (hclFile "main.tf")).1 = .panic ∧
    calls (lintFile hclWorld bareCfg (hclFile "main.tf")).2
      = [("ops", mkRule "dead1" "owner" true, "main.tf")] := by
  decide

/-- C11 (amended): for every registry, every world and every file that passes the memory
check, is read and parses, the calls of runRule made by lintFile are the enabled rules of
the enabled rulesets, each with the name of its ruleset and the name of the file, in
ruleset registration order and then rule registration order, up to the first rule whose
call does not come back; every rule called is enabled and belongs to an enabled ruleset of
the registry.  When lintFile returns, and whenever the call of every enabled rule returns
(with a result or with an error) with rule errors that carry their location, the calls are
exactly the enabled rules of the enabled rulesets, each once, whether or not earlier
calls failed. -/
theorem lintFile_calls_enabled_rules (w : LintWorld) (cfg : Appcfg) (file : File)
    (contents : Bytes)
    (hmem : checkAvailMemory (w.virtualMemory file) file = .ok ())
    (hread : file.ReadAll = .ok contents)
    (hparse : w.parseHCL contents file.Name = none) :
    calls (lintFile w cfg file).2
      = (reached (stops w file.Name contents) (enabledRules cfg)).map
          (fun r => (r.1, r.2, file.Name)) ∧
    calls (lintFile w cfg file).2 <+: (enabledRules cfg).map (fun r => (r.1, r.2, file.Name)) ∧
    ((∀ r ∈ enabledRules cfg, answers w contents r = true) →
      calls (lintFile w cfg file).2
        = (enabledRules cfg).map (fun r => (r.1, r.2, file.Name))) ∧
    (∀ n, (lintFile w cfg file).1 = .ok n →
      calls (lintFile w cfg file).2
        = (enabledRules cfg).map (fun r => (r.1, r.2, file.Name))) ∧
    ∀ c ∈ calls (lintFile w cfg file).2,
      c.2.1.Enabled = true ∧
        ∃ ruleset ∈ cfg.Rulesets, ruleset.Enabled = true ∧ ruleset.Name = c.1 ∧
          c.2.1 ∈ ruleset.Rules := by
  have hres := lintFile_of_parsed w cfg file contents hmem hread hparse
  have hcalls : calls (lintFile w cfg file).2
      = (reached (stops w file.Name contents) (enabledRules cfg)).map
          (fun r => (r.1, r.2, file.Name)) := by
    rw [hres]
    exact calls_ruleEvents w file.Name contents _
  have hinit := reached_initial (stops w file.Name contents) (enabledRules cfg)
  refine ⟨hcalls, ?_, ?_, ?_, ?_⟩
  · rw [hcalls]
    obtain ⟨t, ht⟩ := hinit
    refine ⟨t.map (fun r => (r.1, r.2, file.Name)), ?_⟩
    rw [← List.map_append, ht]
  · intro hanswers
    rw [lintFile_of_answers w cfg file contents hmem hread hparse hanswers]
    exact calls_ruleEvents w file.Name contents _
  · intro n hn
    rw [hres] at hn
    have hns := no_stop_of_rulesOutcome_ok w file.Name contents _ 0 n hn
    rw [hcalls, reached_of_no_stop _ _ hns]
  · intro c hc
    rw [hcalls, List.mem_map] at hc
    obtain ⟨r, hr, rfl⟩ := hc
    exact mem_enabledRules (hinit.subset hr)

/-- C11 (amended) at a concrete input: in `multiCfg` the rule `77aa0` of `aws` and the
ruleset `old` are disabled and the call of `gcp/abc12` fails; lintFile calls `aws/abc12`,
`aws/0f3d1`, `gcp/abc12` and `gcp/5e9aa`, in this order. -/
theorem lintFile_calls_enabled_rules_witness :
    calls (lintFile hclWorld multiCfg (hclFile "main.tf")).2
      = [("aws", mkRule "abc12" "bucket" true, "main.tf"),
         ("aws", mkRule "0f3d1" "tags" true, "main.tf"),
         ("gcp", mkRule "abc12" "zones" true, "main.tf"),
         ("gcp", mkRule "5e9aa" "labels" true, "main.tf")] ∧
    (∃ err, (runRule hclWorld "gcp" (mkRule "abc12" "zones" true) "main.tf" hclDoc).1
      = .error err) ∧
    ∀ c ∈ calls (lintFile hclWorld multiCfg (hclFile "main.tf")).2,
      c.2.1.Enabled = true ∧
        ∃ ruleset ∈ multiCfg.Rulesets, ruleset.Enabled = true ∧ ruleset.Name = c.1 ∧
          c.2.1 ∈ ruleset.Rules :=
  ⟨((lintFile_calls_enabled_rules hclWorld multiCfg (hclFile "main.tf") hclDoc
      (by decide) (by decide) (by decide)).2.2.1 (by decide)).trans (by decide),
    ⟨Error.msg ("could not execute linting rule: "
      ++ "rpc error: code = Unavailable desc = transport is closing"), by decide⟩,
    (lintFile_calls_enabled_rules hclWorld multiCfg (hclFile "main.tf") hclDoc
      (by decide) (by decide) (by decide)).2.2.2.2⟩

theorem runLint_single (w : LintWorld) (cfg : Appcfg) (path : String) (file : File) (n : Nat)
    (hopen : w.openFile path = .ok file) (hlint : (lintFile w cfg file).1 = .ok n) :
    (runLint w cfg [path]).1 = .ok { numFiles := 1, numErrors := n, numSkipped := 0 } := by
  rcases hl : lintFile w cfg file with ⟨o, ev⟩
  rw [hl] at hlint
  simp only at hlint
  subst hlint
  simp [runLint, runLint.files, hopen, hl]

/-- C12 (counterexample): the file `main.tf` passes the memory check and parses; the
process of the first enabled rule never responds.  lintFile does not return, with or
without an error, and neither does runLint: no file is counted as linted.  When the
process of the first enabled rule answers with a rule error without location, the program
panics in runRule: lintFile and runLint return nothing. -/
theorem lintFile_hung_rule_never_returns :
    checkAvailMemory (hclWorld.virtualMemory (hclFile "main.tf")) (hclFile "main.tf") = .ok () ∧
    (hclFile "main.tf").ReadAll = .ok hclDoc ∧
    hclWorld.parseHCL hclDoc "main.tf" = none ∧
    hclWorld.openFile "main.tf" = .ok (hclFile "main.tf") ∧
    (runRule hclWorld "ops" (mkRule "c0ffe" "uptime" true) "main.tf" hclDoc).1 = .blocked ∧
    (lintFile hclWorld stallCfg (hclFile "main.tf")).1 = .blocked ∧
    (runLint hclWorld stallCfg ["main.tf"]).1 = .blocked ∧
    (runRule hclWorld "ops" (mkRule "dead1" "owner" true) "main.tf" hclDoc).1 = .panic ∧
    (lintFile hclWorld bareCfg (hclFile "main.tf")).1 = .panic ∧
    (runLint hclWorld bareCfg ["main.tf"]).1 = .panic := by
  decide

/-- C12 (amended): a rule failure that runRule returns never fails the document.  For
every file that passes the memory check, is read and parses, when the call of every
enabled rule returns (with a result or with an error) with rule errors that carry their
location, lintFile returns no error and the sum, over the enabled rules of the enabled
rulesets, of what each rule adds: the count runRule returns when it succeeds, which is the
number of rule errors of the response, and 0 when runRule fails.  If runRule fails for
every enabled rule the result is 0 with no error, and runLint over that file counts it as
linted. -/
theorem lintFile_rule_failure_not_fatal (w : LintWorld) (cfg : Appcfg) (file : File)
    (contents : Bytes)
    (hmem : checkAvailMemory (w.virtualMemory file) file = .ok ())
    (hread : file.ReadAll = .ok contents)
    (hparse : w.parseHCL contents file.Name = none)
    (hanswers : ∀ r ∈ enabledRules cfg, answers w contents r = true) :
    (lintFile w cfg file).1
      = .ok ((enabledRules cfg).map (ruleCount w file.Name contents)).sum ∧
    (∀ r k, (runRule w r.1 r.2 file.Name contents).1 = .ok k →
      ruleCount w file.Name contents r = k ∧
        ∃ ruleErrs, w.plugin (RulePath w.configPath r.1 r.2.ID) contents = .response ruleErrs ∧
          k = ruleErrs.length) ∧
    (∀ r err, (runRule w r.1 r.2 file.Name contents).1 = .error err →
      ruleCount w file.Name contents r = 0) ∧
    ((∀ r ∈ enabledRules cfg, ∃ err, (runRule w r.1 r.2 file.Name contents).1 = .error err) →
      (lintFile w cfg file).1 = .ok 0 ∧
      ∀ path, w.openFile path = .ok file →
        (runLint w cfg [path]).1 = .ok { numFiles := 1, numErrors := 0, numSkipped := 0 }) := by
  have hres := lintFile_of_answers w cfg file contents hmem hread hparse hanswers
  refine ⟨by rw [hres], ?_, ?_, ?_⟩
  · intro r k hk
    exact ⟨by simp [ruleCount, hk], runRule_ok_count w r.1 r.2 file.Name contents k hk⟩
  · intro r err herr
    simp [ruleCount, herr]
  · intro hall
    have hzero : ((enabledRules cfg).map (ruleCount w file.Name contents)).sum = 0 := by
      have : ∀ l : List (String × Rule),
          (∀ r ∈ l, ∃ err, (runRule w r.1 r.2 file.Name contents).1 = .error err) →
          (l.map (ruleCount w file.Name contents)).sum = 0 := by
        intro l
        induction l with
        | nil => intro _; rfl
        | cons r rest ih =>
          intro h
          obtain ⟨err, herr⟩ := h r (by simp)
          have := ih (fun x hx => h x (List.mem_cons_of_mem _ hx))
          simp [ruleCount, herr, this]
      exact this _ hall
    have h0 : (lintFile w cfg file).1 = .ok 0 := by rw [hres, hzero]
    exact ⟨h0, fun path hopen => runLint_single w cfg path file 0 hopen h0⟩

/-- C12 (amended) at a concrete input: of the four enabled rules of `multiCfg`,
`aws/abc12` returns one rule error, `aws/0f3d1` two, the call of `gcp/abc12` fails and
`gcp/5e9aa` returns one; lintFile returns the count 4 and no error.  With the registry
whose only rule is `gcp/abc12` every rule fails: the count is 0 and the file is counted as
linted. -/
theorem lintFile_rule_failure_not_fatal_witness :
    (lintFile hclWorld multiCfg (hclFile "main.tf")).1 = .ok 4 ∧
    (lintFile hclWorld failingCfg (hclFile "main.tf")).1 = .ok 0 ∧
    (runLint hclWorld failingCfg ["main.tf"]).1
      = .ok { numFiles := 1, numErrors := 0, numSkipped := 0 } :=
  ⟨(lintFile_rule_failure_not_fatal hclWorld multiCfg (hclFile "main.tf") hclDoc
      (by decide) (by decide) (by decide) (by decide)).1.trans (by decide),
    ((lintFile_rule_failure_not_fatal hclWorld failingCfg (hclFile "main.tf") hclDoc
      (by decide) (by decide) (by decide) (by decide)).2.2.2
        (by
          intro r hr
          have hr2 : r = ("gcp", mkRule "abc12" "zones" true) := by
            simpa [enabledRules, failingCfg, mkRuleset, mkRule] using hr
          subst hr2
          exact ⟨Error.msg ("could not execute linting rule: "
            ++ "rpc error: code = Unavailable desc = transport is closing"), by decide⟩)).1,
    ((lintFile_rule_failure_not_fatal hclWorld failingCfg (hclFile "main.tf") hclDoc
      (by decide) (by decide) (by decide) (by decide)).2.2.2
        (by
          intro r hr
          have hr2 : r = ("gcp", mkRule "abc12" "zones" true) := by
            simpa [enabledRules, failingCfg, mkRuleset, mkRule] using hr
          subst hr2
          exact ⟨Error.msg ("could not execute linting rule: "
            ++ "rpc error: code = Unavailable desc = transport is closing"), by decide⟩)).2
      "main.tf" (by decide)⟩

theorem ReadLine_err_of_readable {content : Bytes} {n : Nat} (h : ReadableLine content n) :
    (ReadLine content (n : Nat)).2.2 = none := by
  obtain ⟨line, _, hr⟩ := ReadLine_of_readable content n h
  rw [hr]

/-- The events and the count of lintFile for rules whose executors answer with rule errors
on readable lines. -/
theorem reported_ruleEvents_readable (w : LintWorld) (filepath : String) (contents : Bytes)
    (diags : String × Rule → List RuleError) :
    ∀ l : List (String × Rule),
      (∀ r ∈ l, w.plugin (RulePath w.configPath r.1 r.2.ID) contents
        = .response (ruleErrorsToProto (diags r))) →
      (∀ r ∈ l, ∀ d ∈ diags r, ReadableLine contents d.Location.Start.Line) →
      reported (l.flatMap (ruleEvents w filepath contents))
          = l.flatMap (fun r => (diags r).map (lintErrorOf filepath contents r)) ∧
      (l.map (ruleCount w filepath contents)).sum
          = (l.flatMap (fun r => (diags r).map (lintErrorOf filepath contents r))).length := by
  intro l
  induction l with
  | nil => intro _ _; simp [reported]
  | cons r rest ih =>
    intro hexec hlines
    obtain ⟨ih1, ih2⟩ := ih (fun x hx => hexec x (List.mem_cons_of_mem _ hx))
      (fun x hx => hlines x (List.mem_cons_of_mem _ hx))
    have hrun := runRule_of_readable w r.1 r.2 filepath contents (diags r)
      (hexec r (by simp))
      (fun d hd => ReadLine_err_of_readable (hlines r (by simp) d hd))
    have hrep : reported (ruleEvents w filepath contents r)
        = (diags r).map (lintErrorOf filepath contents r) := by
      unfold ruleEvents
      rw [hrun]
      simp only [reported_append]
      have : ∀ ds : List RuleError,
          reported (ds.map fun d => Event.lintError (lintErrorOf filepath contents (r.1, r.2) d))
            = ds.map (lintErrorOf filepath contents r) := by
        intro ds
        induction ds with
        | nil => rfl
        | cons d ds ihd =>
          simp only [List.map_cons, reported, List.filterMap_cons] at ihd ⊢
          rw [ihd]
      rw [this]
      simp [reported]
    have hcnt : ruleCount w filepath contents r = (diags r).length := by
      simp [ruleCount, hrun]
    refine ⟨?_, ?_⟩
    · rw [List.flatMap_cons, reported_append, hrep, ih1, List.flatMap_cons]
    · rw [List.map_cons, List.sum_cons, hcnt, ih2, List.flatMap_cons, List.length_append,
        List.length_map]

/-- C13 (counterexample): the single enabled rule `aws/77aa0` returns two rule errors,
the first on line 1 and the second on line 7 of a document of two lines that passes the
memory check and parses.  The lint errors reported are the first one only, not the two
returned, and lintFile returns the count 0, which is not the number of lint errors
reported. -/
theorem lintFile_reports_part_counts_none :
    checkAvailMemory (hclWorld.virtualMemory (hclFile "main.tf")) (hclFile "main.tf") = .ok () ∧
    (hclFile "main.tf").ReadAll = .ok hclDoc ∧
    hclWorld.parseHCL hclDoc "main.tf" = none ∧
    enabledRules mixedRuleCfg = [("aws", mkRule "77aa0" "ports" true)] ∧
    hclWorld.plugin (RulePath hclWorld.configPath "aws" "77aa0") hclDoc
      = .response (ruleErrorsToProto [mkDiag "close port" 1, mkDiag "close port" 7]) ∧
    reported (lintFile hclWorld mixedRuleCfg (hclFile "main.tf")).2
      = [lintErrorOf "main.tf" hclDoc ("aws", mkRule "77aa0" "ports" true)
          (mkDiag "close port" 1)] ∧
    (lintFile hclWorld mixedRuleCfg (hclFile "main.tf")).1 = .ok 0 := by
  decide

/-- C13 (amended): for a file that passes the memory check, is read and parses, when the
executor of every enabled rule of every enabled ruleset returns a list of rule errors
whose start lines are all within reach of ReadLine, the lint errors reported by lintFile
are exactly the concatenation of those lists, in ruleset registration order and then rule
registration order, each list in the order returned and duplicates kept, each rule error
with its file, ruleset, rule and line text; and the count returned by lintFile is the
number of lint errors reported. -/
theorem lintFile_reports_concatenation (w : LintWorld) (cfg : Appcfg) (file : File)
    (contents : Bytes) (diags : String × Rule → List RuleError)
    (hmem : checkAvailMemory (w.virtualMemory file) file = .ok ())
    (hread : file.ReadAll = .ok contents)
    (hparse : w.parseHCL contents file.Name = none)
    (hexec : ∀ r ∈ enabledRules cfg,
      w.plugin (RulePath w.configPath r.1 r.2.ID) contents
        = .response (ruleErrorsToProto (diags r)))
    (hlines : ∀ r ∈ enabledRules cfg, ∀ d ∈ diags r,
      ReadableLine contents d.Location.Start.Line) :
    reported (lintFile w cfg file).2
      = (enabledRules cfg).flatMap
          (fun r => (diags r).map (lintErrorOf file.Name contents r)) ∧
    (lintFile w cfg file).1 = .ok (reported (lintFile w cfg file).2).length := by
  obtain ⟨h1, h2⟩ := reported_ruleEvents_readable w file.Name contents diags
    (enabledRules cfg) hexec hlines
  rw [lintFile_of_answers w cfg file contents hmem hread hparse
    (fun r hr => answers_of_toProto w contents r (diags r) (hexec r hr))]
  exact ⟨h1, by rw [h1, h2]⟩

/-- C13 (amended) at a concrete input: the HCL document of two lines and the registry
`reportCfg`, with three enabled rules in two enabled rulesets, a disabled rule and a
disabled ruleset.  `aws/abc12` returns one rule error on line 1, `aws/0f3d1` the same rule
error on line 2 twice, `gcp/5e9aa` the rule error of `aws/abc12`.  The four lint errors
are reported in this order, none dropped as a duplicate, and the count is 4. -/
theorem lintFile_reports_concatenation_witness :
    reported (lintFile hclWorld reportCfg (hclFile "main.tf")).2
      = [lintErrorOf "main.tf" hclDoc ("aws", mkRule "abc12" "bucket" true)
           (mkDiag "rename resource" 1),
         lintErrorOf "main.tf" hclDoc ("aws", mkRule "0f3d1" "tags" true)
           (mkDiag "add tags" 2),
         lintErrorOf "main.tf" hclDoc ("aws", mkRule "0f3d1" "tags" true)
           (mkDiag "add tags" 2),
         lintErrorOf "main.tf" hclDoc ("gcp", mkRule "5e9aa" "labels" true)
           (mkDiag "rename resource" 1)] ∧
    (lintErrorOf "main.tf" hclDoc ("aws", mkRule "0f3d1" "tags" true)
        (mkDiag "add tags" 2)).Line = [98, 32, 61, 32, 50] ∧
    (lintFile hclWorld reportCfg (hclFile "main.tf")).1 = .ok 4 :=
  ⟨(lintFile_reports_concatenation hclWorld reportCfg (hclFile "main.tf") hclDoc
      (fun r => if r.2.ID = "0f3d1" then [mkDiag "add tags" 2, mkDiag "add tags" 2]
        else [mkDiag "rename resource" 1])
      (by decide) (by decide) (by decide) (by decide) (by decide)).1.trans (by decide),
    by decide,
    (lintFile_reports_concatenation hclWorld reportCfg (hclFile "main.tf") hclDoc
      (fun r => if r.2.ID = "0f3d1" then [mkDiag "add tags" 2, mkDiag "add tags" 2]
        else [mkDiag "rename resource" 1])
      (by decide) (by decide) (by decide) (by decide) (by decide)).2.trans (by decide)⟩

/-- C14 (amended): for every document and every line number `n` from 1 to the number of
lines such that each of the first `n` lines is shorter than the scanner buffer of 65536
bytes, ReadLine returns the `n`-th line of the raw bytes without its line terminator,
last line `n` and no error; and for a rule error with start line `n` that line is the
text of the lint error runRule prints. -/
theorem ReadLine_returns_line_in_reach (content : Bytes) (n : Nat)
    (h : ReadableLine content n) :
    ∃ line, (docLines content)[n - 1]? = some line ∧
      ReadLine content (n : Nat) = (line, n, none) ∧
      ∀ (w : LintWorld) (ruleset : String) (rule : Rule) (filepath : String) (d : RuleError),
        d.Location.Start.Line = n →
        w.plugin (RulePath w.configPath ruleset rule.ID) content
          = .response (ruleErrorsToProto [d]) →
        reported (runRule w ruleset rule filepath content).2
          = [{ Filepath := filepath, Line := line, RuleErr := d, Rule := rule,
               Ruleset := ruleset }] := by
  obtain ⟨line, h1, h2⟩ := ReadLine_of_readable content n h
  refine ⟨line, h1, h2, ?_⟩
  intro w ruleset rule filepath d hd hp
  have hrun := runRule_of_readable w ruleset rule filepath content [d] hp
    (by
      intro x hx
      simp only [List.mem_singleton] at hx
      subst hx
      rw [hd, h2])
  rw [hrun]
  simp [reported, lintErrorOf, hd, h2]

/-- C14 (amended) at a concrete input: line 1 of the two-line document, whose first line
ends in CR LF, is `ab`. -/
theorem ReadLine_returns_line_in_reach_witness :
    ∃ line, (docLines twoLineDoc)[1 - 1]? = some line ∧
      ReadLine twoLineDoc (1 : Nat) = (line, 1, none) ∧
      ∀ (w : LintWorld) (ruleset : String) (rule : Rule) (filepath : String) (d : RuleError),
        d.Location.Start.Line = 1 →
        w.plugin (RulePath w.configPath ruleset rule.ID) twoLineDoc
          = .response (ruleErrorsToProto [d]) →
        reported (runRule w ruleset rule filepath twoLineDoc).2
          = [{ Filepath := filepath, Line := line, RuleErr := d, Rule := rule,
               Ruleset := ruleset }] :=
  ReadLine_returns_line_in_reach twoLineDoc 1 (by decide)

/-! ## Lemmas on the run totals -/

/-- The file loop of runLint over files for each of which lintFile returns adds to the
totals the files linted, the counts of the files linted and the files skipped. -/
theorem runLint_files_of_finishes (w : LintWorld) (cfg : Appcfg) :
    ∀ (files : List String) (tally : Tally) (trace : List Event),
      files.all (finishes w cfg) = true →
      (runLint.files w cfg files tally trace).1
        = .ok { numFiles := tally.numFiles + files.countP (isLinted w cfg),
                numErrors := tally.numErrors + (files.map (fileCount w cfg)).sum,
                numSkipped := tally.numSkipped + files.countP (isSkipped w cfg) } := by
  intro files
  induction files with
  | nil => intro tally trace _; simp [runLint.files]
  | cons path rest ih =>
    intro tally trace hall
    simp only [List.all_cons, Bool.and_eq_true] at hall
    obtain ⟨hfin, hrest⟩ := hall
    rw [runLint.files]
    cases hopen : w.openFile path with
    | error e => simp [finishes, isLinted, isSkipped, hopen] at hfin
    | ok file =>
      simp only
      rcases hl : lintFile w cfg file with ⟨o, ev⟩
      cases o with
      | panic => simp [finishes, isLinted, isSkipped, hopen, hl] at hfin
      | blocked => simp [finishes, isLinted, isSkipped, hopen, hl] at hfin
      | error err =>
        simp only [ih _ _ hrest]
        simp only [Outcome.ok.injEq, Tally.mk.injEq, List.countP_cons, List.map_cons,
          List.sum_cons, isLinted, isSkipped, fileCount, hopen, hl]
        simp
        omega
      | ok n =>
        simp only [ih _ _ hrest]
        simp only [Outcome.ok.injEq, Tally.mk.injEq, List.countP_cons, List.map_cons,
          List.sum_cons, isLinted, isSkipped, fileCount, hopen, hl]
        simp
        omega

/-- The file loop of runLint over files for one of which lintFile does not return, or
which cannot be opened, does not end with totals. -/
theorem runLint_files_of_not_finishes (w : LintWorld) (cfg : Appcfg) :
    ∀ (files : List String) (tally : Tally) (trace : List Event),
      files.all (finishes w cfg) = false →
      (runLint.files w cfg files tally trace).1 = .panic ∨
        (runLint.files w cfg files tally trace).1 = .blocked := by
  intro files
  induction files with
  | nil => intro tally trace h; simp at h
  | cons path rest ih =>
    intro tally trace hall
    rw [runLint.files]
    cases hopen : w.openFile path with
    | error e => exact Or.inl rfl
    | ok file =>
      simp only
      rcases hl : lintFile w cfg file with ⟨o, ev⟩
      cases o with
      | panic => exact Or.inl rfl
      | blocked => exact Or.inr rfl
      | error err =>
        simp only
        apply ih
        simpa [finishes, isLinted, isSkipped, hopen, hl] using hall
      | ok n =>
        simp only
        apply ih
        simpa [finishes, isLinted, isSkipped, hopen, hl] using hall

theorem countP_linted_add_skipped (w : LintWorld) (cfg : Appcfg) :
    ∀ files : List String, files.all (finishes w cfg) = true →
      files.countP (isLinted w cfg) + files.countP (isSkipped w cfg) = files.length := by
  intro files
  induction files with
  | nil => intro _; rfl
  | cons path rest ih =>
    intro h
    simp only [List.all_cons, Bool.and_eq_true] at h
    have := ih h.2
    have hp := h.1
    cases hopen : w.openFile path with
    | error e => simp [finishes, isLinted, isSkipped, hopen] at hp
    | ok file =>
      rcases hl : lintFile w cfg file with ⟨o, ev⟩
      cases o with
      | panic => simp [finishes, isLinted, isSkipped, hopen, hl] at hp
      | blocked => simp [finishes, isLinted, isSkipped, hopen, hl] at hp
      | error err =>
        simp only [List.countP_cons, List.length_cons, isLinted, isSkipped, hopen, hl]
        simp
        omega
      | ok n =>
        simp only [List.countP_cons, List.length_cons, isLinted, isSkipped, hopen, hl]
        simp
        omega

theorem all_finishes_of_perm (w : LintWorld) (cfg : Appcfg) {files1 files2 : List String}
    (h : files1.Perm files2) :
    files1.all (finishes w cfg) = files2.all (finishes w cfg) := by
  rw [Bool.eq_iff_iff]
  simp only [List.all_eq_true]
  exact ⟨fun h1 x hx => h1 x (h.mem_iff.mpr hx), fun h2 x hx => h2 x (h.mem_iff.mp hx)⟩

theorem sum_fileCount_of_perm (w : LintWorld) (cfg : Appcfg) {files1 files2 : List String}
    (h : files1.Perm files2) :
    (files1.map (fileCount w cfg)).sum = (files2.map (fileCount w cfg)).sum := by
  induction h with
  | nil => rfl
  | cons x _ ih => simp [ih]
  | swap x y l => simp; omega
  | trans _ _ ih1 ih2 => rw [ih1, ih2]

theorem runLint_fst_of_ne_nil (w : LintWorld) (cfg : Appcfg) (files : List String)
    (hne : files ≠ []) :
    (runLint w cfg files).1
      = (runLint.files w cfg files { numFiles := 0, numErrors := 0, numSkipped := 0 } []).1 := by
  unfold runLint
  have hlen : ¬ files.length = 0 := fun h => hne (List.length_eq_zero.mp h)
  rw [if_neg hlen]

/-- The run of runLint over a list of target files ends with totals exactly when there is
a file and lintFile returns for every file, and the totals are then the files linted, the
sum of their counts and the files skipped. -/
theorem runLint_ok_iff (w : LintWorld) (cfg : Appcfg) (files : List String) (tally : Tally) :
    (runLint w cfg files).1 = .ok tally ↔
      files ≠ [] ∧ files.all (finishes w cfg) = true ∧
        tally = { numFiles := files.countP (isLinted w cfg),
                  numErrors := (files.map (fileCount w cfg)).sum,
                  numSkipped := files.countP (isSkipped w cfg) } := by
  by_cases hne : files = []
  · subst hne
    simp [runLint]
  · rw [runLint_fst_of_ne_nil w cfg files hne]
    cases hall : files.all (finishes w cfg) with
    | true =>
      rw [runLint_files_of_finishes w cfg files _ _ hall]
      simp only [Nat.zero_add, Outcome.ok.injEq, ne_eq, hne, not_false_eq_true, true_and]
      exact eq_comm
    | false =>
      rcases runLint_files_of_not_finishes w cfg files
        { numFiles := 0, numErrors := 0, numSkipped := 0 } [] hall with h | h <;>
        rw [h] <;> simp

/-- A file that opens and on whose content every call of an enabled rule comes back is
linted or skipped: lintFile returns for it. -/
theorem finishes_of_rulesAnswer (w : LintWorld) (cfg : Appcfg) (path : String)
    (hopen : opens w path = true) (hanswers : rulesAnswer w cfg path = true) :
    finishes w cfg path = true := by
  cases hf : w.openFile path with
  | error e => simp [opens, hf] at hopen
  | ok file =>
    simp only [rulesAnswer, hf] at hanswers
    simp only [finishes, isLinted, isSkipped, hf]
    cases hmem : checkAvailMemory (w.virtualMemory file) file with
    | error err => simp [lintFile, hmem]
    | ok u =>
      cases hread : file.ReadAll with
      | error err => simp [lintFile, hmem, hread]
      | ok contents =>
        cases hparse : w.parseHCL contents file.Name with
        | some diags => simp [lintFile, hmem, hread, hparse]
        | none =>
          simp only [hread, List.all_eq_true] at hanswers
          rw [lintFile_of_answers w cfg file contents hmem hread hparse hanswers]
          rfl

/-- C15 (counterexample): one file that opens, passes the memory check and parses, and
one enabled rule of one enabled ruleset whose executor returns one rule error, on line 7
of a document of two lines: the tally is one file linted, none skipped, and 0 errors
found, not 1.  The same file with a registry whose first enabled rule never responds, or
answers with a rule error without location: runLint does not return or panics, and there
is no tally.  With no target file at all runLint returns an error and no tally. -/
theorem runLint_one_diagnostic_tally_zero :
    hclWorld.openFile "main.tf" = .ok (hclFile "main.tf") ∧
    checkAvailMemory (hclWorld.virtualMemory (hclFile "main.tf")) (hclFile "main.tf") = .ok () ∧
    (hclFile "main.tf").ReadAll = .ok hclDoc ∧
    hclWorld.parseHCL hclDoc "main.tf" = none ∧
    enabledRules farRuleCfg = [("aws", mkRule "7c1e0" "regions" true)] ∧
    hclWorld.plugin (RulePath hclWorld.configPath "aws" "7c1e0") hclDoc
      = .response (ruleErrorsToProto [mkDiag "set region" 7]) ∧
    (runLint hclWorld farRuleCfg ["main.tf"]).1
      = .ok { numFiles := 1, numErrors := 0, numSkipped := 0 } ∧
    (runLint hclWorld stallCfg ["main.tf"]).1 = .blocked ∧
    (runLint hclWorld bareCfg ["main.tf"]).1 = .panic ∧
    (runLint hclWorld farRuleCfg []).1 = .error (.msg "no hcl files found") := by
  decide

/-- C15 (amended): for every list of at least one target file, all of which can be
opened, when on the content of every file the call of each enabled rule returns (with a
result or with an error) with rule errors that carry their location, runLint ends with a
tally in which files linted + files skipped is the number of target files, the files
skipped are those for which lintFile returns an error, the files linted those for which
it returns none, and the errors found are the sum of the counts lintFile returns for the
files linted.  For one file that passes the memory check, is read and parses, and one
enabled rule of one enabled ruleset whose executor returns one rule error with a start
line within reach of ReadLine, the tally is files linted 1, files skipped 0, errors
found 1. -/
theorem runLint_tally (w : LintWorld) (cfg : Appcfg) (files : List String)
    (hne : files ≠ [])
    (hopen : ∀ path ∈ files, opens w path = true)
    (hanswers : ∀ path ∈ files, rulesAnswer w cfg path = true) :
    ∃ tally, (runLint w cfg files).1 = .ok tally ∧
      tally.numFiles + tally.numSkipped = files.length ∧
      tally.numSkipped = files.countP (isSkipped w cfg) ∧
      tally.numFiles = files.countP (isLinted w cfg) ∧
      tally.numErrors = (files.map (fileCount w cfg)).sum ∧
      ∀ (path : String) (file : File) (contents : Bytes) (r : String × Rule) (d : RuleError),
        files = [path] → w.openFile path = .ok file →
        checkAvailMemory (w.virtualMemory file) file = .ok () →
        file.ReadAll = .ok contents → w.parseHCL contents file.Name = none →
        enabledRules cfg = [r] →
        w.plugin (RulePath w.configPath r.1 r.2.ID) contents
          = .response (ruleErrorsToProto [d]) →
        ReadableLine contents d.Location.Start.Line →
        tally = { numFiles := 1, numErrors := 1, numSkipped := 0 } := by
  have hall : files.all (finishes w cfg) = true := by
    rw [List.all_eq_true]
    intro path hp
    exact finishes_of_rulesAnswer w cfg path (hopen path hp) (hanswers path hp)
  have hfst := (runLint_ok_iff w cfg files _).mpr ⟨hne, hall, rfl⟩
  refine ⟨_, hfst, ?_, rfl, rfl, rfl, ?_⟩
  · exact countP_linted_add_skipped w cfg files hall
  · intro path file contents r d hfiles hof hmem hread hparse hrules hp hline
    subst hfiles
    obtain ⟨_, hcount⟩ := reported_ruleEvents_readable w file.Name contents (fun _ => [d])
      (enabledRules cfg)
      (by intro x hx; rw [hrules, List.mem_singleton] at hx; subst hx; exact hp)
      (by
        intro x _ y hy
        rw [List.mem_singleton] at hy
        subst hy
        exact hline)
    have hlint := lintFile_of_answers w cfg file contents hmem hread hparse
      (by
        intro x hx
        rw [hrules, List.mem_singleton] at hx
        subst hx
        exact answers_of_toProto w contents x [d] hp)
    rw [hcount, hrules] at hlint
    simp only [List.flatMap_cons, List.flatMap_nil, List.append_nil, List.map_cons,
      List.map_nil, List.length_singleton] at hlint
    simp [isLinted, isSkipped, fileCount, hof, hlint]

/-- C15 (amended) at a concrete input: the files `main.tf`, `broken.tf` and `vars.tf`
with the registry `reportCfg`: `broken.tf` does not parse and is skipped, the other two
are linted with 4 errors each.  The file `main.tf` alone with the registry whose single
enabled rule `aws/abc12` returns one rule error on line 1: one file linted, none skipped,
one error. -/
theorem runLint_tally_witness :
    (runLint hclWorld reportCfg ["main.tf", "broken.tf", "vars.tf"]).1
      = .ok { numFiles := 2, numErrors := 8, numSkipped := 1 } ∧
    ∃ tally, (runLint hclWorld oneRuleCfg ["main.tf"]).1 = .ok tally ∧
      tally = { numFiles := 1, numErrors := 1, numSkipped := 0 } := by
  obtain ⟨tally3, g1, _, g3, g4, g5, _⟩ := runLint_tally hclWorld reportCfg
    ["main.tf", "broken.tf", "vars.tf"] (by decide) (by decide) (by decide)
  obtain ⟨tally, h1, _, _, _, _, h6⟩ := runLint_tally hclWorld oneRuleCfg ["main.tf"]
    (by decide) (by decide) (by decide)
  refine ⟨?_, tally, h1, h6 "main.tf" (hclFile "main.tf") hclDoc
    ("aws", mkRule "abc12" "bucket" true) (mkDiag "rename resource" 1) rfl (by decide)
    (by decide) (by decide) (by decide) (by decide) (by decide) (by decide)⟩
  rw [g1]
  have e3 : tally3.numSkipped = 1 := g3.trans (by decide)
  have e4 : tally3.numFiles = 2 := g4.trans (by decide)
  have e5 : tally3.numErrors = 8 := g5.trans (by decide)
  cases tally3
  simp only at e3 e4 e5
  subst e3 e4 e5
  rfl

/-- C16: the outcome of lintFile for a file being a function of the file (as it is in a
world), runLint over two orderings of the same target files ends with totals for the one
exactly when it does for the other, and the totals are the same: the same files linted,
errors found and files skipped.  With no file both runs return the same error.  When
lintFile returns for every file the two runs end the same way.  (A run reports no totals
when a file cannot be opened or a call of a rule does not come back; the order of the
files then only decides which of these ends the run.) -/
theorem runLint_totals_order_independent (w : LintWorld) (cfg : Appcfg)
    (files1 files2 : List String) (h : files1.Perm files2) :
    (∀ tally, (runLint w cfg files1).1 = .ok tally ↔ (runLint w cfg files2).1 = .ok tally) ∧
    (∀ err, (runLint w cfg files1).1 = .error err ↔ (runLint w cfg files2).1 = .error err) ∧
    ((∀ path ∈ files1, finishes w cfg path = true) →
      (runLint w cfg files1).1 = (runLint w cfg files2).1) := by
  have hnil : files1 = [] ↔ files2 = [] :=
    ⟨fun h1 => (h1 ▸ h).symm.eq_nil, fun h2 => (h2 ▸ h).eq_nil⟩
  have hok : ∀ tally, (runLint w cfg files1).1 = .ok tally ↔
      (runLint w cfg files2).1 = .ok tally := by
    intro tally
    rw [runLint_ok_iff, runLint_ok_iff, all_finishes_of_perm w cfg h, h.countP_eq, h.countP_eq,
      sum_fileCount_of_perm w cfg h, ne_eq, ne_eq, hnil]
  refine ⟨hok, ?_, ?_⟩
  · intro err
    by_cases hne : files1 = []
    · have hne2 := hnil.mp hne
      subst hne
      subst hne2
      rfl
    · have hne2 : files2 ≠ [] := fun h2 => hne (hnil.mpr h2)
      rw [runLint_fst_of_ne_nil w cfg files1 hne, runLint_fst_of_ne_nil w cfg files2 hne2]
      have key : ∀ files : List String,
          (runLint.files w cfg files { numFiles := 0, numErrors := 0, numSkipped := 0 } []).1
            ≠ .error err := by
        intro files
        cases hall : files.all (finishes w cfg) with
        | true => rw [runLint_files_of_finishes w cfg files _ _ hall]; simp
        | false =>
          rcases runLint_files_of_not_finishes w cfg files
            { numFiles := 0, numErrors := 0, numSkipped := 0 } [] hall with h1 | h1 <;>
            rw [h1] <;> simp
      exact ⟨fun h1 => absurd h1 (key files1), fun h2 => absurd h2 (key files2)⟩
  · intro hfin
    by_cases hne : files1 = []
    · have hne2 := hnil.mp hne
      subst hne
      subst hne2
      rfl
    · have hall : files1.all (finishes w cfg) = true := List.all_eq_true.mpr hfin
      have h1 := (runLint_ok_iff w cfg files1 _).mpr ⟨hne, hall, rfl⟩
      rw [h1, (hok _).mp h1]

/-- C16 at a concrete input: a file that is linted and a file that is skipped, in both
orders.  Without totals the two runs need not end the same way: of a file whose first rule
never responds and a file that cannot be opened, the one that comes first decides whether
the run does not return or panics. -/
theorem runLint_totals_order_independent_witness :
    (runLint hclWorld twoCfg ["main.tf", "broken.tf"]).1
      = (runLint hclWorld twoCfg ["broken.tf", "main.tf"]).1 ∧
    (runLint hclWorld twoCfg ["main.tf", "broken.tf"]).1
      = .ok { numFiles := 1, numErrors := 1, numSkipped := 1 } ∧
    (runLint hclWorld stallCfg ["main.tf", "missing.tf"]).1 = .blocked ∧
    (runLint hclWorld stallCfg ["missing.tf", "main.tf"]).1 = .panic :=
  ⟨(runLint_totals_order_independent hclWorld twoCfg ["main.tf", "broken.tf"]
      ["broken.tf", "main.tf"] (List.Perm.swap _ _ _)).2.2 (by decide), by decide, by decide,
    by decide⟩

/-- C17 (counterexample): the query of the available memory fails.  checkAvailMemory
returns that error for a file of 12 bytes although no amount of available memory is
reported, let alone one less than the size of the file; lintFile returns the error and
runLint counts the file as skipped. -/
theorem checkAvailMemory_error_without_shortage :
    checkAvailMemory (noMemoryInfoWorld.virtualMemory (hclFile "main.tf")) (hclFile "main.tf")
      = .error (.io "open /proc/meminfo: permission denied") ∧
    (¬ ∃ available, noMemoryInfoWorld.virtualMemory (hclFile "main.tf") = .ok available ∧
        available < (hclFile "main.tf").Size) ∧
    lintFile noMemoryInfoWorld multiCfg (hclFile "main.tf")
      = (.error (.io "open /proc/meminfo: permission denied"), []) ∧
    (runLint noMemoryInfoWorld multiCfg ["main.tf"]).1
      = .ok { numFiles := 0, numErrors := 0, numSkipped := 1 } := by
  refine ⟨by decide, ?_, by decide, by decide⟩
  rintro ⟨available, h, _⟩
  have hv : noMemoryInfoWorld.virtualMemory (hclFile "main.tf")
      = .error "open /proc/meminfo: permission denied" := rfl
  rw [hv] at h
  cases h

/-- C17 (amended): checkAvailMemory returns an error exactly when the query of the
available memory fails or the available memory is less than the size of the file.  When
it returns an error, or when the content is read and the parser reports errors, lintFile
returns an error without a single event (no rule is run), and the file loop of runLint,
at such a file, adds one to the files skipped, leaves the files linted and the errors
found as they are, and goes on with the remaining files. -/
theorem document_error_skips_only_document (w : LintWorld) (cfg : Appcfg) (file : File)
    (hdoc : checkAvailMemory (w.virtualMemory file) file ≠ .ok () ∨
      ∃ contents diags, file.ReadAll = .ok contents ∧
        w.parseHCL contents file.Name = some diags) :
    (∀ (vmem : Except String Nat) (f : File), f.Size < 2 ^ 63 →
      (checkAvailMemory vmem f ≠ .ok () ↔
        (∃ err, vmem = .error err) ∨ ∃ available, vmem = .ok available ∧ available < f.Size)) ∧
    ∃ err, lintFile w cfg file = (.error err, []) ∧
      ∀ (path : String) (rest : List String) (tally : Tally) (trace : List Event),
        w.openFile path = .ok file →
        runLint.files w cfg (path :: rest) tally trace
          = runLint.files w cfg rest
              { numFiles := tally.numFiles, numErrors := tally.numErrors,
                numSkipped := tally.numSkipped + 1 }
              (trace ++ [Event.skippedFile file.Name err]) := by
  constructor
  · intro vmem f hsize
    have hmod : f.Size % 2 ^ 64 = f.Size := Nat.mod_eq_of_lt (by omega)
    unfold checkAvailMemory
    cases vmem with
    | error err => simp
    | ok available =>
      simp only [hmod]
      by_cases hlt : available < f.Size
      · simp [hlt]
      · simp [hlt]
  · have hlint : ∃ err, lintFile w cfg file = (.error err, []) := by
      unfold lintFile
      rcases hdoc with hmem | ⟨contents, diags, hread, hparse⟩
      · cases hc : checkAvailMemory (w.virtualMemory file) file with
        | error err => exact ⟨err, rfl⟩
        | ok u => exact absurd hc hmem
      · cases hc : checkAvailMemory (w.virtualMemory file) file with
        | error err => exact ⟨err, rfl⟩
        | ok u => exact ⟨.io diags, by simp [hread, hparse]⟩
    obtain ⟨err, herr⟩ := hlint
    refine ⟨err, herr, ?_⟩
    intro path rest tally trace hopen
    rw [runLint.files]
    simp [hopen, herr]

/-- C17 (amended) at a concrete input: `huge.tf` is larger than the available memory and
the parser rejects the content of `broken.tf`; both are skipped without a rule being run
and the file after them is linted. -/
theorem document_error_skips_only_document_witness :
    (∃ err, lintFile hclWorld multiCfg { hclFile "huge.tf" with Size := 5000 }
      = (.error err, [])) ∧
    (∃ err, lintFile hclWorld multiCfg (docFile "broken.tf") = (.error err, [])) ∧
    (runLint hclWorld multiCfg ["huge.tf", "broken.tf", "main.tf"]).1
      = .ok { numFiles := 1, numErrors := 4, numSkipped := 2 } :=
  ⟨by
      obtain ⟨_, err, h, _⟩ := document_error_skips_only_document hclWorld multiCfg
        { hclFile "huge.tf" with Size := 5000 } (Or.inl (by decide))
      exact ⟨err, h⟩,
    by
      obtain ⟨_, err, h, _⟩ := document_error_skips_only_document hclWorld multiCfg
        (docFile "broken.tf")
        (Or.inr ⟨twoLineDoc, "Argument or block definition required", by decide, by decide⟩)
      exact ⟨err, h⟩,
    by decide⟩

theorem two_le_countP {α : Type} (p : α → Bool) :
    ∀ (l : List α) (i k : Nat) (a b : α), l[i]? = some a → l[k]? = some b → i ≠ k →
      p a = true → p b = true → 2 ≤ l.countP p := by
  intro l
  induction l with
  | nil => intro i k a b h; simp at h
  | cons x t ih =>
    intro i k a b hi hk hne ha hb
    cases i with
    | zero =>
      cases k with
      | zero => exact absurd rfl hne
      | succ k =>
        simp only [List.getElem?_cons_zero, Option.some.injEq] at hi
        simp only [List.getElem?_cons_succ] at hk
        subst hi
        have : 0 < t.countP p :=
          List.countP_pos_iff.mpr ⟨b, List.mem_iff_getElem?.mpr ⟨k, hk⟩, hb⟩
        rw [List.countP_cons, if_pos ha]
        omega
    | succ i =>
      cases k with
      | zero =>
        simp only [List.getElem?_cons_zero, Option.some.injEq] at hk
        simp only [List.getElem?_cons_succ] at hi
        subst hk
        have : 0 < t.countP p :=
          List.countP_pos_iff.mpr ⟨a, List.mem_iff_getElem?.mpr ⟨i, hi⟩, ha⟩
        rw [List.countP_cons, if_pos hb]
        omega
      | succ k =>
        simp only [List.getElem?_cons_succ] at hi hk
        have := ih i k a b hi hk (fun h => hne (by rw [h])) ha hb
        have hle : t.countP p ≤ (x :: t).countP p := by
          rw [List.countP_cons]
          exact Nat.le_add_right _ _
        omega

/-- Every call of runRule made by lintFile names an enabled ruleset of the registry. -/
theorem calls_lintFile_enabled (w : LintWorld) (cfg : Appcfg) (file : File) :
    ∀ c ∈ calls (lintFile w cfg file).2,
      ∃ ruleset ∈ cfg.Rulesets, ruleset.Enabled = true ∧ ruleset.Name = c.1 := by
  intro c hc
  unfold lintFile at hc
  split at hc
  · simp [calls] at hc
  · split at hc
    · simp [calls] at hc
    · split at hc
      · simp [calls] at hc
      · rename_i contents _ _
        rw [lintFile_rulesets_eq] at hc
        simp only [List.nil_append] at hc
        rw [calls_ruleEvents, List.mem_map] at hc
        obtain ⟨r, hr, rfl⟩ := hc
        obtain ⟨_, ruleset, h1, h2, h3, _⟩ :=
          mem_enabledRules ((reached_initial _ _).subset hr)
        exact ⟨ruleset, h1, h2, h3⟩

/-- C18 (counterexample): the registry holds two enabled rulesets named `aws`.
SetRulesetEnabled(`aws`, false) succeeds, and lintFile over a document then still runs
the rule of the second ruleset named `aws`. -/
theorem SetRulesetEnabled_false_second_still_linted :
    (dupCfg.SetRulesetEnabled writeOk "aws" false).1 = .ok () ∧
    calls (lintFile hclWorld (dupCfg.SetRulesetEnabled writeOk "aws" false).2
        (hclFile "main.tf")).2
      = [("aws", mkRule "0f3d1" "tags" true, "main.tf")] := by
  decide

/-- C18 (amended): for every registry that holds at most one ruleset named `name`, after
a successful SetRulesetEnabled(`name`, false), lintFile over any file, in any world, makes
no call of runRule for a ruleset named `name`. -/
theorem disabled_ruleset_not_linted (writeFile : Appcfg → Option String) (appcfg : Appcfg)
    (name : String) (w : LintWorld) (file : File)
    (hone : appcfg.Rulesets.countP (fun rs => rs.Name == name) ≤ 1)
    (hok : (appcfg.SetRulesetEnabled writeFile name false).1 = .ok ()) :
    ∀ c ∈ calls (lintFile w (appcfg.SetRulesetEnabled writeFile name false).2 file).2,
      c.1 ≠ name := by
  intro c hc hname
  obtain ⟨ruleset, hmem, hen, hrn⟩ := calls_lintFile_enabled w _ file c hc
  cases h1 : rangeFirst (fun r : Ruleset => r.Name == name) appcfg.Rulesets with
  | none => simp [Appcfg.SetRulesetEnabled, h1] at hok
  | some q =>
    obtain ⟨index, rs⟩ := q
    obtain ⟨g1, g2, _⟩ := rangeFirst_some_spec h1
    simp only [Appcfg.SetRulesetEnabled, h1] at hmem
    obtain ⟨k, hk⟩ := List.mem_iff_getElem?.mp hmem
    by_cases hik : index = k
    · subst hik
      have hi : index < appcfg.Rulesets.length := (List.getElem?_eq_some_iff.mp g1).1
      rw [List.getElem?_set_self hi] at hk
      simp only [Option.some.injEq] at hk
      subst hk
      simp at hen
    · rw [List.getElem?_set_ne hik] at hk
      have := two_le_countP (fun r : Ruleset => r.Name == name) appcfg.Rulesets index k rs
        ruleset g1 hk hik g2 (by simp [hrn, hname])
      omega

/-- C18 (amended) at a concrete input: `twoCfg` holds one ruleset named `aws`; once it is
disabled, linting `main.tf` runs no rule of `aws`. -/
theorem disabled_ruleset_not_linted_witness :
    twoCfg.Rulesets.countP (fun rs => rs.Name == "aws") ≤ 1 ∧
    (twoCfg.SetRulesetEnabled writeOk "aws" false).1 = .ok () ∧
    ∀ c ∈ calls (lintFile hclWorld (twoCfg.SetRulesetEnabled writeOk "aws" false).2
        (hclFile "main.tf")).2,
      c.1 ≠ "aws" :=
  ⟨by decide, by decide,
    disabled_ruleset_not_linted writeOk twoCfg "aws" hclWorld (hclFile "main.tf")
      (by decide) (by decide)⟩

/-! ## The claims on ruleset update and rule ids -/

/-- C19 (the code at the failing input): the ruleset `aws` is installed at version 2.0.0
and the remote `ruleset.hcl` is valid and names version 1.0.0, a different version.
The function updateRuleset returns no error, leaves the registry entry at 2.0.0 and
builds nothing.  With 1.0.0 installed and 2.0.0 remote it does update the entry to
2.0.0. -/
theorem updateRuleset_ignores_older_remote :
    updateRuleset (demoUpdateWorld "1.0.0") aws2Cfg (mkRuleset "aws" "2.0.0" [])
      = (.ok (), aws2Cfg, []) ∧
    updateRuleset (demoUpdateWorld "2.0.0") awsOnlyCfg (mkRuleset "aws" "1.0.0" [])
      = (.ok (), aws2Cfg, []) := by
  decide

theorem fnv32_foldl_lt (data : Bytes) :
    ∀ h0 : Nat, h0 < 2 ^ 32 →
      data.foldl (fun hash c => (hash * 16777619 % 2 ^ 32) ^^^ (c % 256)) h0 < 2 ^ 32 := by
  induction data with
  | nil => intro h0 h; simpa using h
  | cons c rest ih =>
    intro h0 _
    rw [List.foldl_cons]
    apply ih
    apply Nat.xor_lt_two_pow
    · exact Nat.mod_lt _ (by decide)
    · exact Nat.lt_of_lt_of_le (Nat.mod_lt _ (by decide)) (by decide)

theorem fnv32_lt (data : Bytes) : fnv32 data < 2 ^ 32 :=
  fnv32_foldl_lt data _ (by decide)

theorem hexDigit_mem (v : Nat) : hexDigit v ∈ hextable := by
  by_cases h : v < 16
  · interval_cases v <;> decide
  · have hlen : hextable.length ≤ v := by
      simp only [hextable, List.length_cons, List.length_nil]
      omega
    rw [hexDigit, List.getD_eq_default _ _ hlen]
    decide

/-- The hash of `hash/fnv` follows the recurrence of the 32-bit FNV-1 hash: it starts from
the offset basis 2166136261, and each further byte multiplies the hash by the prime
16777619 in 32-bit arithmetic and is then xor-ed into it. -/
theorem fnv32_append (data : Bytes) (c : Nat) :
    fnv32 (data ++ [c]) = (fnv32 data * 16777619 % 2 ^ 32) ^^^ (c % 256) := by
  simp [fnv32, List.foldl_append]

/-- C20: the result of generateHash depends on the bytes of its input alone; it has
exactly 5 characters, each one of `0123456789abcdef`; they are the five hexadecimal digits,
most significant first, of the top 20 bits of the 32-bit FNV-1 hash of the input bytes.
That hash is the one of the recurrence of FNV-1: the offset basis 2166136261 for no byte,
and for each further byte the hash so far times the prime 16777619, modulo 2^32, xor the
byte; on the inputs `a`, `ab` and `abc` it is 050c5d7e, 70772d38 and 439c2f4b
(hexadecimal), the values of the tests of `hash/fnv`.  generateHash of the empty string is
`811c9`, of `a` it is `050c5`, of `ab` it is `70772` and of `abc` it is `439c2`. -/
theorem generateHash_top_20_bits (s : String) :
    (∀ t : String, utf8Bytes t = utf8Bytes s → generateHash t = generateHash s) ∧
    fnv32 [] = 2166136261 ∧
    (∀ (data : Bytes) (c : Nat),
      fnv32 (data ++ [c]) = (fnv32 data * 16777619 % 2 ^ 32) ^^^ (c % 256)) ∧
    (∀ c : Char, fnv32 (utf8Bytes (s.push c))
      = (utf8Bytes (String.singleton c)).foldl
          (fun hash b => (hash * 16777619 % 2 ^ 32) ^^^ (b % 256)) (fnv32 (utf8Bytes s))) ∧
    utf8Bytes "abc" = [97, 98, 99] ∧
    fnv32 (utf8Bytes "a") = 0x050c5d7e ∧
    fnv32 (utf8Bytes "ab") = 0x70772d38 ∧
    fnv32 (utf8Bytes "abc") = 0x439c2f4b ∧
    generateHash "a" = "050c5" ∧ generateHash "ab" = "70772" ∧ generateHash "abc" = "439c2" ∧
    (generateHash s).length = 5 ∧
    (∀ c ∈ (generateHash s).data, c ∈ hextable) ∧
    fnv32 (utf8Bytes s) < 2 ^ 32 ∧
    fnv32 (utf8Bytes s) / 2 ^ 12 < 2 ^ 20 ∧
    generateHash s = String.mk
      [hexDigit (fnv32 (utf8Bytes s) / 2 ^ 12 / 16 ^ 4 % 16),
       hexDigit (fnv32 (utf8Bytes s) / 2 ^ 12 / 16 ^ 3 % 16),
       hexDigit (fnv32 (utf8Bytes s) / 2 ^ 12 / 16 ^ 2 % 16),
       hexDigit (fnv32 (utf8Bytes s) / 2 ^ 12 / 16 ^ 1 % 16),
       hexDigit (fnv32 (utf8Bytes s) / 2 ^ 12 % 16)] ∧
    generateHash "" = "811c9" := by
  have hlt := fnv32_lt (utf8Bytes s)
  generalize hh : fnv32 (utf8Bytes s) = h at hlt
  have hgen : generateHash s = String.mk
      [hexDigit (h / 2 ^ 12 / 16 ^ 4 % 16), hexDigit (h / 2 ^ 12 / 16 ^ 3 % 16),
       hexDigit (h / 2 ^ 12 / 16 ^ 2 % 16), hexDigit (h / 2 ^ 12 / 16 ^ 1 % 16),
       hexDigit (h / 2 ^ 12 % 16)] := by
    have e1 : h / 2 ^ 24 % 256 / 16 = h / 2 ^ 12 / 16 ^ 4 % 16 := by omega
    have e2 : h / 2 ^ 24 % 256 % 16 = h / 2 ^ 12 / 16 ^ 3 % 16 := by omega
    have e3 : h / 2 ^ 16 % 256 / 16 = h / 2 ^ 12 / 16 ^ 2 % 16 := by omega
    have e4 : h / 2 ^ 16 % 256 % 16 = h / 2 ^ 12 / 16 ^ 1 % 16 := by omega
    have e5 : h / 2 ^ 8 % 256 / 16 = h / 2 ^ 12 % 16 := by omega
    simp only [generateHash, hh, sum32, hexEncode, List.flatMap_cons, List.flatMap_nil,
      List.cons_append, List.nil_append, List.append_nil, List.take_succ_cons, List.take_zero,
      e1, e2, e3, e4, e5]
  refine ⟨?_, rfl, fnv32_append, ?_, by decide, by decide, by decide, by decide, by decide,
    by decide, by decide, ?_, ?_, hlt, by omega, hgen, by decide⟩
  · intro t ht
    simp only [generateHash, ht]
  · intro c
    rw [← hh]
    simp [fnv32, utf8Bytes, String.push, String.singleton, List.foldl_append]
  · rw [hgen]
    rfl
  · rw [hgen]
    intro c hc
    simp only [List.mem_cons, List.mem_singleton, List.not_mem_nil, or_false] at hc
    rcases hc with rfl | rfl | rfl | rfl | rfl <;> exact hexDigit_mem _

/-! ## The claims on collisions, plugin clients, unopened files and the wire conversion -/

theorem set_length_append_single {α : Type} (l : List α) (a b : α) :
    (l ++ [a]).set l.length b = l ++ [b] := by
  induction l with
  | nil => rfl
  | cons x t ih => simp [ih]

/-- Upserting two rules of the same id, one after the other, into a ruleset that has no
rule of that id leaves one entry for them: the second rule with the `Enabled` flag of the
first. -/
theorem UpsertRule_twice_same_id (writeFile : Appcfg → Option String) (appcfg : Appcfg)
    (rulesetName : String) (ruleset : Ruleset) (r1 r2 : Rule)
    (hid : r2.ID = r1.ID)
    (hget : appcfg.GetRuleset rulesetName = .ok ruleset)
    (hnew : ∀ r ∈ ruleset.Rules, r.ID ≠ r1.ID) :
    ((appcfg.UpsertRule writeFile rulesetName r1).2.UpsertRule writeFile rulesetName r2).2.GetRuleset
        rulesetName
      = .ok { ruleset with Rules := ruleset.Rules ++ [{ r2 with Enabled := r1.Enabled }] } := by
  unfold Appcfg.GetRuleset at hget
  cases h1 : rangeFirst (fun r : Ruleset => r.Name == rulesetName) appcfg.Rulesets with
  | none => simp [h1] at hget
  | some q =>
    obtain ⟨index, found⟩ := q
    simp only [h1, Except.ok.injEq] at hget
    subst hget
    obtain ⟨g1, g2, _⟩ := rangeFirst_some_spec h1
    have hname : found.Name = rulesetName := by simpa using g2
    have hi : index < appcfg.Rulesets.length := (List.getElem?_eq_some_iff.mp g1).1
    have h2 : rangeFirst (fun r : Rule => r.ID == r1.ID) found.Rules = none :=
      rangeFirst_eq_none_iff.mpr (fun x hx => by simpa using hnew x hx)
    have e1 := rangeFirst_set_same
      (y := { found with Rules := found.Rules ++ [r1] }) h1 (by simpa using hname)
    have e2 : rangeFirst (fun r : Rule => r.ID == r2.ID) (found.Rules ++ [r1])
        = some (found.Rules.length, r1) := by
      rw [hid]
      exact rangeFirst_append_single h2 (by simp)
    have e3 := rangeFirst_set_same
      (y := { found with Rules := found.Rules ++ [{ r2 with Enabled := r1.Enabled }] }) e1
      (by simpa using hname)
    have e4 := rangeFirst_set_same
      (y := { found with Rules := found.Rules ++ [{ r2 with Enabled := r1.Enabled }] }) h1
      (by simpa using hname)
    simp [Appcfg.UpsertRule, h1, h2, e1, e2, Appcfg.GetRuleset, e3, e4,
      set_length_append_single]

/-- C21: the rule directory names `rule0` and `rule1` are distinct and generateHash gives
both the id `21ddb`.  Upserting two rules with these ids into a ruleset that has no rule of
that id leaves a single entry for them (the second rule, with the `Enabled` flag of the
first), and buildAllRules over a rules directory holding `rule0` and `rule1` leaves the
ruleset with one rule. -/
theorem generateHash_collision_single_entry :
    "rule0" ≠ "rule1" ∧
    generateHash "rule0" = "21ddb" ∧ generateHash "rule1" = "21ddb" ∧
    (∀ (writeFile : Appcfg → Option String) (appcfg : Appcfg) (rulesetName : String)
        (ruleset : Ruleset) (r1 r2 : Rule),
      r1.ID = generateHash "rule0" → r2.ID = generateHash "rule1" →
      appcfg.GetRuleset rulesetName = .ok ruleset →
      (∀ r ∈ ruleset.Rules, r.ID ≠ r1.ID) →
      ((appcfg.UpsertRule writeFile rulesetName r1).2.UpsertRule writeFile
          rulesetName r2).2.GetRuleset rulesetName
        = .ok { ruleset with
                Rules := ruleset.Rules ++ [{ r2 with Enabled := r1.Enabled }] }) ∧
    (buildAllRules collideWorld awsOnlyCfg "aws").1 = .ok () ∧
    ((buildAllRules collideWorld awsOnlyCfg "aws").2.1.GetRuleset "aws").map
        (fun ruleset => ruleset.Rules.map fun rule => rule.ID)
      = .ok ["21ddb"] ∧
    ((buildAllRules collideWorld awsOnlyCfg "aws").2.2.filterMap fun
        | .buildRule srcPath _ => some srcPath
        | _ => none)
      = ["/cfg/rulesets.d/aws/repo/rules/rule0", "/cfg/rulesets.d/aws/repo/rules/rule1"] := by
  refine ⟨by decide, by decide, by decide, ?_, by decide, by decide, by decide⟩
  intro writeFile appcfg rulesetName ruleset r1 r2 h1 h2 hget hnew
  exact UpsertRule_twice_same_id writeFile appcfg rulesetName ruleset r1 r2
    (by rw [h1, h2]; decide) hget hnew

/-- C22: runRule creates one plugin client, and on every path on which it returns, and on
the one on which the program panics, its last event is Kill on that client, the events
between the two being printed lint errors only; this holds whether the client cannot be
created, the plugin cannot be dispensed, the interface conversion fails, the call fails, a
line cannot be read, or the rule succeeds.  runRule does not return exactly when the call
to the rule process does not.  The function getRuleInfo, which gets its client from
getRulePluginClient, creates one client and has killed it whenever it returns:
getRulePluginClient kills it when it returns an error, and getRuleInfo when it got the
client; getRuleInfo does not return exactly when the call to the rule process does
not.  At concrete inputs: a failing call and a response without location in runRule, an
answer without rule info and a process that never responds in getRuleInfo. -/
theorem plugin_client_killed_on_every_path (w : LintWorld) (bw : BuildWorld)
    (ruleset : String) (rule : Rule) (filepath : String) (contents : Bytes) (ruleID : String) :
    ((runRule w ruleset rule filepath contents).1 = .blocked ↔
      w.plugin (RulePath w.configPath ruleset rule.ID) contents = .hangs) ∧
    ((runRule w ruleset rule filepath contents).1 ≠ .blocked →
      ∃ mid, (runRule w ruleset rule filepath contents).2
          = Event.newClient (RulePath w.configPath ruleset rule.ID)
              :: (mid ++ [Event.kill (RulePath w.configPath ruleset rule.ID)]) ∧
        ∀ e ∈ mid, ∃ lintErr, e = Event.lintError lintErr) ∧
    ((getRuleInfo bw ruleset ruleID).1 = .blocked ↔
      bw.ruleInfo (RulePath bw.configPath ruleset ruleID) = .hangs) ∧
    ((getRuleInfo bw ruleset ruleID).1 ≠ .blocked →
      (getRuleInfo bw ruleset ruleID).2
        = [Event.newClient (RulePath bw.configPath ruleset ruleID),
           Event.kill (RulePath bw.configPath ruleset ruleID)]) ∧
    ((∃ err, (getRulePluginClient bw ruleset ruleID).1 = .error err) →
      (getRulePluginClient bw ruleset ruleID).2
        = [Event.newClient (RulePath bw.configPath ruleset ruleID),
           Event.kill (RulePath bw.configPath ruleset ruleID)]) ∧
    ((∃ plugin, (getRulePluginClient bw ruleset ruleID).1 = .ok plugin) →
      (getRulePluginClient bw ruleset ruleID).2
        = [Event.newClient (RulePath bw.configPath ruleset ruleID)]) ∧
    (runRule hclWorld "gcp" (mkRule "abc12" "zones" true) "main.tf" hclDoc).2
      = [Event.newClient "/cfg/rulesets.d/gcp/abc12", Event.kill "/cfg/rulesets.d/gcp/abc12"] ∧
    (runRule hclWorld "ops" (mkRule "dead1" "owner" true) "main.tf" hclDoc)
      = (.panic, [Event.newClient "/cfg/rulesets.d/ops/dead1",
          Event.kill "/cfg/rulesets.d/ops/dead1"]) ∧
    getRuleInfo bareInfoWorld "aws" "abc12"
      = (.panic, [Event.newClient "/cfg/rulesets.d/aws/abc12",
          Event.kill "/cfg/rulesets.d/aws/abc12"]) ∧
    getRuleInfo stalledInfoWorld "aws" "abc12"
      = (.blocked, [Event.newClient "/cfg/rulesets.d/aws/abc12"]) := by
  refine ⟨runRule_blocked_iff w ruleset rule filepath contents, ?_, ?_, ?_, ?_, ?_,
    by decide, by decide, by decide, by decide⟩
  · intro hnb
    unfold runRule at hnb ⊢
    cases hp : w.plugin (RulePath w.configPath ruleset rule.ID) contents with
    | clientError e => exact ⟨[], by simp [hp], by simp⟩
    | dispenseError e => exact ⟨[], by simp [hp], by simp⟩
    | notRuleDefinition => exact ⟨[], by simp [hp], by simp⟩
    | callError e => exact ⟨[], by simp [hp], by simp⟩
    | hangs => simp [hp] at hnb
    | response ruleErrs =>
      simp only [hp] at hnb ⊢
      obtain ⟨hb, mid, h1, h2⟩ := report_adds_lint_errors ruleset rule filepath contents
        ruleErrs [Event.newClient (RulePath w.configPath ruleset rule.ID)]
      rcases hr : runRule.report ruleset rule filepath contents ruleErrs
        [Event.newClient (RulePath w.configPath ruleset rule.ID)] with ⟨o, tr⟩
      rw [hr] at h1 hb
      simp only at h1
      subst h1
      refine ⟨mid, ?_, h2⟩
      cases o with
      | ok u => simp
      | error e => simp
      | panic => simp
      | blocked => exact absurd rfl hb
  · unfold getRuleInfo getRulePluginClient
    cases hp : bw.ruleInfo (RulePath bw.configPath ruleset ruleID) with
    | response value => cases hv : value.RuleInfo <;> simp [hp, hv]
    | _ => simp [hp]
  · intro hnb
    unfold getRuleInfo getRulePluginClient at hnb ⊢
    cases hp : bw.ruleInfo (RulePath bw.configPath ruleset ruleID) with
    | response value => cases hv : value.RuleInfo <;> simp [hp, hv]
    | hangs => simp [hp] at hnb
    | _ => simp [hp]
  · rintro ⟨err, herr⟩
    unfold getRulePluginClient at herr ⊢
    cases hp : bw.ruleInfo (RulePath bw.configPath ruleset ruleID) <;> simp [hp] at herr ⊢
  · rintro ⟨plugin, hok⟩
    unfold getRulePluginClient at hok ⊢
    cases hp : bw.ruleInfo (RulePath bw.configPath ruleset ruleID) <;> simp [hp] at hok ⊢

/-- C28 (the code at the failing input): of the three target files the second,
`missing.tf`, cannot be opened.  The run of runLint ends in a panic after the first
file: no file is counted as skipped, the third file is not linted and no tally is
reported. -/
theorem runLint_open_failure_panics :
    hclWorld.openFile "missing.tf" = .error "no such file" ∧
    (runLint hclWorld twoCfg ["main.tf", "missing.tf", "other.tf"]).1 = .panic ∧
    (calls (runLint hclWorld twoCfg ["main.tf", "missing.tf", "other.tf"]).2).map
        (fun c => c.2.2)
      = ["main.tf", "main.tf"] := by
  decide

/-- C30: for every list of rule errors, ruleErrorsToProto returns a list of the same
length; its element at each position has its location, its start and its end set, has
the suggestion, remediation, metadata, lines and columns of the rule error at that
position, and ProtoToRuleError turns it back into that rule error. -/
theorem ruleErrorsToProto_round_trip (ruleErrors : List RuleError) :
    (ruleErrorsToProto ruleErrors).length = ruleErrors.length ∧
    (ruleErrorsToProto ruleErrors).map ProtoToRuleError = ruleErrors.map some ∧
    ∀ (i : Nat) (d : RuleError), ruleErrors[i]? = some d →
      ∃ p location start stop,
        (ruleErrorsToProto ruleErrors)[i]? = some p ∧
        p.Location = some location ∧ location.Start = some start ∧
        location.End = some stop ∧
        p.Suggestion = d.Suggestion ∧ p.Remediation = d.Remediation ∧
        p.Metadata = d.Metadata ∧
        start.Line = d.Location.Start.Line ∧ start.Column = d.Location.Start.Column ∧
        stop.Line = d.Location.End.Line ∧ stop.Column = d.Location.End.Column ∧
        ProtoToRuleError p = some d := by
  refine ⟨length_ruleErrorsToProto ruleErrors, ?_, ?_⟩
  · induction ruleErrors with
    | nil => rfl
    | cons d rest ih =>
      obtain ⟨p, hp, _, hconv⟩ := ruleErrorsToProto_cons d rest
      rw [hp, List.map_cons, hconv, ih, List.map_cons]
  · intro i d hd
    have hget : (ruleErrorsToProto ruleErrors)[i]? = (ruleErrorsToProto [d])[0]? := by
      simp [ruleErrorsToProto, List.getElem?_map, hd]
    rw [hget]
    exact ⟨_, _, _, _, rfl, rfl, rfl, rfl, rfl, rfl, rfl, rfl, rfl, rfl, rfl, rfl⟩


/-! ## The claims on lines out of range -/

theorem rawLines_longLineDoc : rawLines longLineDoc = [longLineDoc] := by
  rw [rawLines_of_ne_nil longLineDoc_ne_nil, takeWhile_longLineDoc, dropWhile_longLineDoc]
  simp [rawLines]

/-- The loop of ReadLine asked for a line number it has passed, or one beyond the lines
left: it returns the empty line and `io.EOF`; the last line scanned is at most the number
of lines, and equal to it when every line fits the scanner buffer. -/
theorem ReadLine_loop_out_of_range (lineNum : Int) (fuel : Nat) :
    ∀ (data : Bytes) (lastLine : Nat), data.length < fuel →
      (lineNum ≤ (lastLine : Int) ∨ ((lastLine + (rawLines data).length : Nat) : Int) < lineNum) →
      (ReadLine.loop lineNum fuel data lastLine).1 = [] ∧
      (ReadLine.loop lineNum fuel data lastLine).2.2 = some EOF ∧
      (ReadLine.loop lineNum fuel data lastLine).2.1 ≤ lastLine + (rawLines data).length ∧
      ((∀ line ∈ rawLines data, line.length < MaxScanTokenSize) →
        (ReadLine.loop lineNum fuel data lastLine).2.1 = lastLine + (rawLines data).length) := by
  induction fuel with
  | zero => intro data lastLine h; omega
  | succ fuel ih =>
    intro data lastLine hfuel hn
    by_cases hne : data = []
    · subst hne
      simp [ReadLine.loop, scanLine, rawLines]
    · have hraw := rawLines_of_ne_nil hne
      by_cases hlen : (data.takeWhile (fun b => b != 10)).length < MaxScanTokenSize
      · have hscan := scanLine_of_short hne hlen
        have hrest := length_rest_lt hne
        have hneq : ¬ (((lastLine + 1 : Nat) : Int) = lineNum) := by
          rw [hraw] at hn
          simp only [List.length_cons] at hn
          omega
        rw [ReadLine.loop, hscan]
        simp only [if_neg hneq]
        obtain ⟨h1, h2, h3, h4⟩ := ih ((data.dropWhile (fun b => b != 10)).drop 1) (lastLine + 1)
          (by omega)
          (by
            rw [hraw] at hn
            simp only [List.length_cons] at hn
            rcases hn with hn | hn
            · left; omega
            · right; omega)
        refine ⟨h1, h2, ?_, ?_⟩
        · rw [hraw]; simp only [List.length_cons]; omega
        · intro hall
          rw [hraw] at hall ⊢
          simp only [List.length_cons]
          have := h4 (fun line hl => hall line (List.mem_cons_of_mem _ hl))
          omega
      · have hscan : scanLine data = none := by
          unfold scanLine
          rw [if_neg hne]
          simp only
          rw [if_pos (by omega)]
        rw [ReadLine_loop_of_scan_none lineNum _ data lastLine hscan]
        refine ⟨rfl, rfl, by simp, ?_⟩
        intro hall
        exact absurd (hall _ (by rw [hraw]; exact List.mem_cons_self _ _)) hlen

/-- Every error of the loop of ReadLine is `io.EOF`. -/
theorem ReadLine_loop_err (lineNum : Int) (fuel : Nat) :
    ∀ (data : Bytes) (lastLine : Nat),
      (ReadLine.loop lineNum fuel data lastLine).2.2 = none ∨
      (ReadLine.loop lineNum fuel data lastLine).2.2 = some EOF := by
  induction fuel with
  | zero => intro data lastLine; right; rfl
  | succ fuel ih =>
    intro data lastLine
    rw [ReadLine.loop]
    cases hs : scanLine data with
    | none => right; rfl
    | some p =>
      obtain ⟨text, rest⟩ := p
      simp only
      split
      · left; rfl
      · exact ih rest (lastLine + 1)

/-- The loop of runRule over the messages built from rule errors of which one is on a line
that ReadLine does not return: it ends with the error of ReadLine, `io.EOF`, wrapped. -/
theorem report_toProto_unreadable (ruleset : String) (rule : Rule) (filepath : String)
    (contents : Bytes) :
    ∀ (checked : List RuleError) (trace : List Event),
      (∃ d ∈ checked, (ReadLine contents (d.Location.Start.Line : Nat)).2.2 ≠ none) →
      (runRule.report ruleset rule filepath contents (ruleErrorsToProto checked) trace).1
        = .error (.msg "could not get line from file: EOF") := by
  intro checked
  induction checked with
  | nil => intro trace h; simp at h
  | cons d rest ih =>
    intro trace hex
    obtain ⟨p, hp, hstart, hconv⟩ := ruleErrorsToProto_cons d rest
    rw [hp, runRule.report, hstart]
    simp only
    rcases hrl : ReadLine contents (d.Location.Start.Line : Nat) with ⟨line, last, err⟩
    cases err with
    | some e =>
      have he := ReadLine_loop_err (d.Location.Start.Line : Nat) (contents.length + 1) contents 0
      have hrl2 : ReadLine.loop (d.Location.Start.Line : Nat) (contents.length + 1) contents 0
          = (line, last, some e) := hrl
      rw [hrl2] at he
      rcases he with he | he
      · exact absurd he (by simp)
      · simp only [Option.some.injEq] at he
        subst he
        rfl
    | none =>
      simp only [hconv]
      apply ih
      obtain ⟨d2, hd2, hne⟩ := hex
      rcases List.mem_cons.mp hd2 with rfl | hmem
      · rw [hrl] at hne
        exact absurd rfl hne
      · exact ⟨d2, hmem, hne⟩

/-- C29 (counterexample): the document made of one line of 65536 letters has one line;
ReadLine asked for line 2, beyond the number of lines, returns last line 0, not the
number of lines. -/
theorem ReadLine_beyond_long_line_last_zero :
    (rawLines longLineDoc).length = 1 ∧ (docLines longLineDoc).length = 1 ∧
    ReadLine longLineDoc (2 : Nat) = ([], 0, some EOF) ∧
    (ReadLine longLineDoc (2 : Nat)).2.1 ≠ (rawLines longLineDoc).length := by
  have h := ReadLine_loop_of_scan_none (2 : Nat) (longLineDoc.length + 1) longLineDoc 0
    scanLine_longLineDoc
  have hr : ReadLine longLineDoc (2 : Nat) = ([], 0, some EOF) := h
  refine ⟨by rw [rawLines_longLineDoc]; rfl, by rw [docLines, rawLines_longLineDoc]; rfl, hr, ?_⟩
  rw [hr, rawLines_longLineDoc]
  decide

/-- C29 (amended): for a start line `n` that is 0 or greater than the number of lines of
the document, ReadLine returns an empty line and `io.EOF`; the last line it reports is at
most the number of lines, and is the number of lines when every line of the document,
measured up to its newline, is shorter than 65536 bytes.  When a rule answers with rule
errors of which one has such a start line, runRule returns the error
`could not get line from file: EOF` and no count, so the rule adds nothing to the count
of the document. -/
theorem ReadLine_out_of_range (content : Bytes) (n : Nat)
    (h : n = 0 ∨ (rawLines content).length < n) :
    (ReadLine content (n : Nat)).1 = [] ∧
    (ReadLine content (n : Nat)).2.2 = some EOF ∧
    (ReadLine content (n : Nat)).2.1 ≤ (rawLines content).length ∧
    ((∀ line ∈ rawLines content, line.length < MaxScanTokenSize) →
      (ReadLine content (n : Nat)).2.1 = (rawLines content).length) ∧
    ∀ (w : LintWorld) (ruleset : String) (rule : Rule) (filepath : String)
      (checked : List RuleError),
      w.plugin (RulePath w.configPath ruleset rule.ID) content
        = .response (ruleErrorsToProto checked) →
      (∃ d ∈ checked, d.Location.Start.Line = n) →
      (runRule w ruleset rule filepath content).1
        = .error (.msg "could not get line from file: EOF") ∧
      ruleCount w filepath content (ruleset, rule) = 0 := by
  have hloop := ReadLine_loop_out_of_range (n : Nat) (content.length + 1) content 0 (by omega)
    (by
      rcases h with h | h
      · left; subst h; simp
      · right; simp only [Nat.zero_add]; exact_mod_cast h)
  simp only [Nat.zero_add] at hloop
  obtain ⟨h1, h2, h3, h4⟩ := hloop
  refine ⟨h1, h2, h3, h4, ?_⟩
  intro w ruleset rule filepath checked hp hex
  obtain ⟨d, hd, hline⟩ := hex
  have hrep := fun trace => report_toProto_unreadable ruleset rule filepath content checked trace
    ⟨d, hd, by
      rw [hline]
      have h2b : (ReadLine content (n : Nat)).2.2 = some EOF := h2
      rw [h2b]
      simp⟩
  have hrun : (runRule w ruleset rule filepath content).1
      = .error (.msg "could not get line from file: EOF") := by
    unfold runRule
    simp only [hp]
    have := hrep [Event.newClient (RulePath w.configPath ruleset rule.ID)]
    rcases hr : runRule.report ruleset rule filepath content (ruleErrorsToProto checked)
      [Event.newClient (RulePath w.configPath ruleset rule.ID)] with ⟨o, tr⟩
    rw [hr] at this
    simp only at this
    subst this
    rfl
  refine ⟨hrun, ?_⟩
  unfold ruleCount
  simp only [hrun]

/-- C29 (amended) at a concrete input: the document `twoLineDoc` of two lines, asked for
line 3. -/
theorem ReadLine_out_of_range_witness :
    (ReadLine twoLineDoc (3 : Nat)).1 = [] ∧
    (ReadLine twoLineDoc (3 : Nat)).2.2 = some EOF ∧
    (ReadLine twoLineDoc (3 : Nat)).2.1 ≤ (rawLines twoLineDoc).length ∧
    ((∀ line ∈ rawLines twoLineDoc, line.length < MaxScanTokenSize) →
      (ReadLine twoLineDoc (3 : Nat)).2.1 = (rawLines twoLineDoc).length) ∧
    ∀ (w : LintWorld) (ruleset : String) (rule : Rule) (filepath : String)
      (checked : List RuleError),
      w.plugin (RulePath w.configPath ruleset rule.ID) twoLineDoc
        = .response (ruleErrorsToProto checked) →
      (∃ d ∈ checked, d.Location.Start.Line = 3) →
      (runRule w ruleset rule filepath twoLineDoc).1
        = .error (.msg "could not get line from file: EOF") ∧
      ruleCount w filepath twoLineDoc (ruleset, rule) = 0 :=
  ReadLine_out_of_range twoLineDoc 3 (by decide)


/-! ## The claims on names -/

theorem name_prefix_ne_version (a b : String) :
    "ruleset name malformed: " ++ a
      ≠ "ruleset version text malformed; should be in semvar notation: " ++ b := by
  intro h
  have := congrArg String.data h
  simp [String.data_append] at this

theorem name_prefix_ne_rules (a : String) :
    "ruleset name malformed: " ++ a
      ≠ "no rules directory found; all rulesets must have a rules directory" := by
  intro h
  have := congrArg String.data h
  simp [String.data_append] at this

theorem length_utf8_of_ascii (l : List Char) (h : ∀ c ∈ l, c.toNat ≤ 127) :
    (l.flatMap fun c => (String.utf8EncodeChar c).map fun b => b.toNat).length = l.length := by
  induction l with
  | nil => rfl
  | cons c rest ih =>
    have hc := h c (by simp)
    have h1 : (String.utf8EncodeChar c).length = 1 := by
      rw [String.length_utf8EncodeChar]
      unfold Char.utf8Size
      have : c.val ≤ 127 := by
        show c.val.toNat ≤ 127
        exact hc
      simp [this]
    simp only [List.flatMap_cons, List.length_append, List.length_map, h1, List.length_cons]
    rw [ih (fun x hx => h x (List.mem_cons_of_mem _ hx))]
    omega

/-- The characters the pattern of isValidName allows are the ASCII letters, the ASCII
digits, `_` and `-`. -/
theorem validNameChar_iff (c : Char) :
    ((97 ≤ c.toNat && c.toNat ≤ 122) || (65 ≤ c.toNat && c.toNat ≤ 90) ||
      (48 ≤ c.toNat && c.toNat ≤ 57) || c.toNat == 95 || c.toNat == 45) = true
      ↔ (c.isAlpha = true ∨ c.isDigit = true ∨ c = '_' ∨ c = '-') := by
  have h95 : c = '_' ↔ c.toNat = 95 := by
    constructor
    · rintro rfl; rfl
    · intro h; apply Char.ext; apply UInt32.ext; exact h
  have h45 : c = '-' ↔ c.toNat = 45 := by
    constructor
    · rintro rfl; rfl
    · intro h; apply Char.ext; apply UInt32.ext; exact h
  rw [h95, h45]
  have key : ∀ n : Nat, n < 4294967296 → ((UInt32.ofNat n ≤ c.val) ↔ n ≤ c.toNat) ∧
      ((c.val ≤ UInt32.ofNat n) ↔ c.toNat ≤ n) := by
    intro n hn
    simp only [UInt32.le_def, Char.toNat, UInt32.toNat, UInt32.ofNat, BitVec.le_def,
      BitVec.toNat_ofNat, Fin.le_def]
    have : n % 4294967296 = n := Nat.mod_eq_of_lt hn
    rw [this]
    exact ⟨Iff.rfl, Iff.rfl⟩
  have k65 := key 65 (by omega)
  have k90 := key 90 (by omega)
  have k97 := key 97 (by omega)
  have k122 := key 122 (by omega)
  have k48 := key 48 (by omega)
  have k57 := key 57 (by omega)
  simp only [Char.isAlpha, Char.isUpper, Char.isLower, Char.isDigit, Bool.or_eq_true,
    Bool.and_eq_true, decide_eq_true_eq, beq_iff_eq, ge_iff_le]
  have k65a : (65 : UInt32) ≤ c.val ↔ 65 ≤ c.toNat := k65.1
  have k90a : c.val ≤ (90 : UInt32) ↔ c.toNat ≤ 90 := k90.2
  have k97a : (97 : UInt32) ≤ c.val ↔ 97 ≤ c.toNat := k97.1
  have k122a : c.val ≤ (122 : UInt32) ↔ c.toNat ≤ 122 := k122.2
  have k48a : (48 : UInt32) ≤ c.val ↔ 48 ≤ c.toNat := k48.1
  have k57a : c.val ≤ (57 : UInt32) ↔ c.toNat ≤ 57 := k57.2
  rw [k65a, k90a, k97a, k122a, k48a, k57a]
  omega

theorem isValidName_iff (name : String) :
    isValidName name = true ↔
      name ≠ "" ∧ ∀ c ∈ name.data, c.isAlpha = true ∨ c.isDigit = true ∨ c = '_' ∨ c = '-' := by
  have hne : name ≠ "" ↔ name.data ≠ [] := by
    rw [Ne, String.ext_iff]
  unfold isValidName
  rw [hne, Bool.and_eq_true, List.all_eq_true]
  constructor
  · rintro ⟨h1, h2⟩
    refine ⟨by intro h; simp [h] at h1, fun c hc => (validNameChar_iff c).mp (h2 c hc)⟩
  · rintro ⟨h1, h2⟩
    refine ⟨by cases hd : name.data with
      | nil => exact absurd hd h1
      | cons a l => rfl, fun c hc => (validNameChar_iff c).mpr (h2 c hc)⟩

/-- The three rules of verifyRuleset pass a name exactly when it has 3 to 20 characters,
each an ASCII letter, an ASCII digit, `_` or `-`. -/
theorem validate_ruleset_name_iff (name : String) :
    validation.Validate name
        [validation.Required, validation.Length 3 20,
          validation.NewStringRuleWithError isValidName
            "must be a valid name; alphanumeric characters and _ or - only"] = none ↔
      (3 ≤ name.length ∧ name.length ≤ 20 ∧
        ∀ c ∈ name.data, c.isAlpha = true ∨ c.isDigit = true ∨ c = '_' ∨ c = '-') := by
  by_cases hempty : name = ""
  · subst hempty
    constructor
    · intro h
      exact absurd h (by decide)
    · rintro ⟨h, _⟩
      exact absurd h (by decide)
  · have hreq : validation.Required name = none := by simp [validation.Required, hempty]
    simp only [validation.Validate, hreq]
    by_cases hvalid : isValidName name = true
    · have hchars := ((isValidName_iff name).mp hvalid).2
      have hlen : (utf8Bytes name).length = name.length :=
        length_utf8_of_ascii name.data (fun c hc => by
          have := (validNameChar_iff c).mpr (hchars c hc)
          simp only [Bool.or_eq_true, Bool.and_eq_true, decide_eq_true_eq, beq_iff_eq] at this
          omega)
      have hstr : validation.NewStringRuleWithError isValidName
          "must be a valid name; alphanumeric characters and _ or - only" name = none := by
        simp [validation.NewStringRuleWithError, hempty, hvalid]
      by_cases hrange : 3 ≤ name.length ∧ name.length ≤ 20
      · have hl : validation.Length 3 20 name = none := by
          unfold validation.Length
          rw [if_neg hempty, hlen, if_neg (by omega)]
        simp only [hl, hstr]
        exact ⟨fun _ => ⟨hrange.1, hrange.2, hchars⟩, fun _ => trivial⟩
      · have hl : validation.Length 3 20 name = some (validation.lengthError 3 20) := by
          unfold validation.Length
          rw [if_neg hempty, hlen, if_pos (by omega)]
        simp only [hl]
        exact ⟨fun h => by simp at h, fun h => absurd ⟨h.1, h.2.1⟩ hrange⟩
    · have hstr : validation.NewStringRuleWithError isValidName
          "must be a valid name; alphanumeric characters and _ or - only" name
            = some "must be a valid name; alphanumeric characters and _ or - only" := by
        simp [validation.NewStringRuleWithError, hempty, hvalid]
      have hnot : ¬ (∀ c ∈ name.data, c.isAlpha = true ∨ c.isDigit = true ∨ c = '_' ∨ c = '-') :=
        fun h => hvalid ((isValidName_iff name).mpr ⟨hempty, h⟩)
      cases hl : validation.Length 3 20 name with
      | some e => exact ⟨fun h => by simp at h, fun h => absurd h.2.2 hnot⟩
      | none =>
        simp only [hstr]
        exact ⟨fun h => by simp at h, fun h => absurd h.2.2 hnot⟩

/-- C25: verifyRuleset fails with `ruleset name malformed` exactly for the names that are
not between 3 and 20 characters long or have a character other than an ASCII letter, an
ASCII digit, `_` and `-`: that covers the empty name, and a name with a trailing newline
such as `abc` followed by a newline.  A name it accepts goes on to the checks of the
version and of the rules directory, and the ruleset is verified when these pass. -/
theorem verifyRuleset_name_accepted_iff (w : VerifyWorld) (path : String) (info : rulesetInfo) :
    ((∃ detail, verifyRuleset w path info
          = some (.msg ("ruleset name malformed: " ++ detail))) ↔
      ¬ (3 ≤ info.Name.length ∧ info.Name.length ≤ 20 ∧
          ∀ c ∈ info.Name.data, c.isAlpha = true ∨ c.isDigit = true ∨ c = '_' ∨ c = '-')) ∧
    (verifyRuleset w path info = none ↔
      (3 ≤ info.Name.length ∧ info.Name.length ≤ 20 ∧
          ∀ c ∈ info.Name.data, c.isAlpha = true ∨ c.isDigit = true ∨ c = '_' ∨ c = '-') ∧
        w.newVersion info.Version = none ∧ w.notExist (path ++ "/" ++ "rules") = false) ∧
    verifyRuleset w path { info with Name := "" }
      = some (.msg "ruleset name malformed: cannot be blank") ∧
    verifyRuleset w path { info with Name := "ab" }
      = some (.msg "ruleset name malformed: the length must be between 3 and 20") ∧
    verifyRuleset w path { info with Name := "abcdefghijklmnopqrstu" }
      = some (.msg "ruleset name malformed: the length must be between 3 and 20") ∧
    verifyRuleset w path { info with Name := "abc\n" }
      = some (.msg
          "ruleset name malformed: must be a valid name; alphanumeric characters and _ or - only") := by
  have hiff := validate_ruleset_name_iff info.Name
  refine ⟨?_, ?_, ?_, ?_, ?_, ?_⟩
  · unfold verifyRuleset
    cases hv : validation.Validate info.Name
        [validation.Required, validation.Length 3 20,
          validation.NewStringRuleWithError isValidName
            "must be a valid name; alphanumeric characters and _ or - only"] with
    | some err =>
      simp only
      refine ⟨fun _ h => ?_, fun _ => ⟨err, rfl⟩⟩
      rw [hiff.mpr h] at hv
      exact absurd hv (by simp)
    | none =>
      simp only
      refine ⟨?_, fun h => absurd (hiff.mp hv) h⟩
      rintro ⟨detail, hd⟩
      exfalso
      cases hver : w.newVersion info.Version with
      | some e =>
        simp only [hver, Option.some.injEq, Error.msg.injEq] at hd
        exact name_prefix_ne_version detail e hd.symm
      | none =>
        simp only [hver] at hd
        split at hd
        · simp only [Option.some.injEq, Error.msg.injEq] at hd
          exact name_prefix_ne_rules detail hd.symm
        · simp at hd
  · unfold verifyRuleset
    cases hv : validation.Validate info.Name
        [validation.Required, validation.Length 3 20,
          validation.NewStringRuleWithError isValidName
            "must be a valid name; alphanumeric characters and _ or - only"] with
    | some err =>
      simp only
      refine ⟨fun h => by simp at h, fun h => ?_⟩
      rw [hiff.mpr h.1] at hv
      exact absurd hv (by simp)
    | none =>
      simp only
      have hval := hiff.mp hv
      cases hver : w.newVersion info.Version with
      | some e => simp
      | none =>
        cases hex : w.notExist (path ++ "/" ++ "rules")
        · simp only [Bool.false_eq_true, if_false, true_and, and_true]
          exact ⟨fun _ => hval, fun _ => trivial⟩
        · simp
  · have : validation.Validate ""
        [validation.Required, validation.Length 3 20,
          validation.NewStringRuleWithError isValidName
            "must be a valid name; alphanumeric characters and _ or - only"]
          = some "cannot be blank" := by decide
    simp only [verifyRuleset, this]
    rfl
  · have : validation.Validate "ab"
        [validation.Required, validation.Length 3 20,
          validation.NewStringRuleWithError isValidName
            "must be a valid name; alphanumeric characters and _ or - only"]
          = some "the length must be between 3 and 20" := by decide
    simp only [verifyRuleset, this]
    rfl
  · have : validation.Validate "abcdefghijklmnopqrstu"
        [validation.Required, validation.Length 3 20,
          validation.NewStringRuleWithError isValidName
            "must be a valid name; alphanumeric characters and _ or - only"]
          = some "the length must be between 3 and 20" := by decide
    simp only [verifyRuleset, this]
    rfl
  · have : validation.Validate "abc\n"
        [validation.Required, validation.Length 3 20,
          validation.NewStringRuleWithError isValidName
            "must be a valid name; alphanumeric characters and _ or - only"]
          = some "must be a valid name; alphanumeric characters and _ or - only" := by decide
    simp only [verifyRuleset, this]
    rfl

/-- C26 (the code at the failing input): validateName accepts `my rule`, a name with a
space, and `a!b c`, a name with a space and a character that is not alphanumeric. -/
theorem validateName_accepts_space :
    validateName "my rule" = none ∧ validateName "a!b c" = none := by
  decide


/-! ## The claim on the target files -/

theorem HasSuffix_iff (s suffix : String) :
    strings.HasSuffix s suffix = true ↔ ∃ stem : String, s = stem ++ suffix := by
  unfold strings.HasSuffix
  rw [List.isSuffixOf_iff_suffix]
  constructor
  · rintro ⟨t, ht⟩
    exact ⟨String.mk t, by rw [String.ext_iff, String.data_append, ← ht]⟩
  · rintro ⟨stem, rfl⟩
    exact ⟨stem.data, by rw [String.data_append]⟩

/-- The loop of getHCLFiles ends without error exactly when the glob matches of every path
are found, and then it has added the matches ending in `.tf`, in order. -/
theorem getHCLFiles_loop_ok_iff (w : PathWorld) :
    ∀ (paths tfFiles files : List String),
      getHCLFiles.loop w paths tfFiles = .ok files ↔
        (∀ path ∈ paths, (globMatches w path).isSome = true) ∧
        files = tfFiles ++ paths.flatMap fun path =>
          ((globMatches w path).getD []).filter fun file => strings.HasSuffix file ".tf" := by
  intro paths
  induction paths with
  | nil =>
    intro tfFiles files
    simp only [getHCLFiles.loop, Except.ok.injEq, List.not_mem_nil, false_implies,
      implies_true, true_and, List.flatMap_nil, List.append_nil]
    exact eq_comm
  | cons path rest ih =>
    intro tfFiles files
    rw [getHCLFiles.loop]
    cases he : w.expand path with
    | none => simp [globMatches, he]
    | some expanded =>
      simp only []
      cases ha : w.abs expanded with
      | none => simp [globMatches, he, ha]
      | some full =>
        simp only []
        cases hs : w.stat (w.dir full) with
        | some err => simp [globMatches, he, ha, hs]
        | none =>
          simp only []
          cases hg : w.glob full with
          | none => simp [globMatches, he, ha, hs, hg]
          | some globFiles =>
            simp only [ih]
            have hm : globMatches w path = some globFiles := by
              simp [globMatches, he, ha, hs, hg]
            simp [hm, List.append_assoc]

/-- C27: getHCLFiles returns a list exactly when the glob matches of every path given
(home-expanded, made absolute, in an existing directory) are found, and the list is then
made of the matches whose name ends in `.tf`, in the order of the paths and, for each
path, in the order of its matches.  Every path of a returned list ends in `.tf`, and a
path whose only match is one file ending in `.tf` yields the list with only that file. -/
theorem getHCLFiles_returns_tf_matches (w : PathWorld) (paths files : List String) :
    (getHCLFiles w paths = .ok files ↔
      (∀ path ∈ paths, (globMatches w path).isSome = true) ∧
      files = paths.flatMap fun path =>
        ((globMatches w path).getD []).filter fun file => strings.HasSuffix file ".tf") ∧
    (getHCLFiles w paths = .ok files → ∀ file ∈ files, ∃ stem : String, file = stem ++ ".tf") ∧
    (∀ path stem : String, globMatches w path = some [stem ++ ".tf"] →
      getHCLFiles w [path] = .ok [stem ++ ".tf"]) ∧
    getHCLFiles demoPathWorld ["*", "main.tf"]
      = .ok ["/work/main.tf", "/work/vars.tf", "/work/main.tf"] ∧
    getHCLFiles demoPathWorld ["main.tf"] = .ok ["/work/main.tf"] ∧
    getHCLFiles demoPathWorld ["*", "/gone/main.tf"]
      = .error (.msg "could not open path: stat /gone: no such file or directory") := by
  have hiff := fun fs => getHCLFiles_loop_ok_iff w paths [] fs
  refine ⟨by simpa [getHCLFiles] using hiff files, ?_, ?_, by decide, by decide, by decide⟩
  · intro hok file hfile
    have h := ((hiff files).mp hok).2
    rw [h] at hfile
    simp only [List.nil_append, List.mem_flatMap, List.mem_filter] at hfile
    obtain ⟨_, _, _, hsuffix⟩ := hfile
    exact (HasSuffix_iff file ".tf").mp hsuffix
  · intro path stem hm
    have hs : strings.HasSuffix (stem ++ ".tf") ".tf" = true :=
      (HasSuffix_iff _ _).mpr ⟨stem, rfl⟩
    rw [getHCLFiles, getHCLFiles_loop_ok_iff]
    simp [hm, hs]


/-! ## The claim on calls without a deadline -/

theorem failures_append (a b : List Event) : failures (a ++ b) = failures a ++ failures b := by
  simp [failures]

/-- The events of lintFile for a rule whose call fails: the call of runRule, the client
created and killed, and one `Rule failed` line. -/
theorem ruleEvents_of_callError (w : LintWorld) (filepath : String) (contents : Bytes)
    (r : String × Rule) (err : String)
    (h : w.plugin (RulePath w.configPath r.1 r.2.ID) contents = .callError err) :
    ruleEvents w filepath contents r
      = [Event.runRule r.1 r.2 filepath, Event.newClient (RulePath w.configPath r.1 r.2.ID),
         Event.kill (RulePath w.configPath r.1 r.2.ID),
         Event.ruleFailed r.2.Name (.msg ("could not execute linting rule: " ++ err))] := by
  unfold ruleEvents runRule
  simp [h]

/-- No `Rule failed` line is printed for rules whose executors answer with rule errors on
readable lines. -/
theorem failures_ruleEvents_readable (w : LintWorld) (filepath : String) (contents : Bytes)
    (diags : String × Rule → List RuleError) :
    ∀ l : List (String × Rule),
      (∀ r ∈ l, w.plugin (RulePath w.configPath r.1 r.2.ID) contents
        = .response (ruleErrorsToProto (diags r))) →
      (∀ r ∈ l, ∀ d ∈ diags r, ReadableLine contents d.Location.Start.Line) →
      failures (l.flatMap (ruleEvents w filepath contents)) = [] := by
  intro l
  induction l with
  | nil => intro _ _; simp [failures]
  | cons r rest ih =>
    intro hexec hlines
    have hrest := ih (fun x hx => hexec x (List.mem_cons_of_mem _ hx))
      (fun x hx => hlines x (List.mem_cons_of_mem _ hx))
    have hrun := runRule_of_readable w r.1 r.2 filepath contents (diags r)
      (hexec r (by simp))
      (fun d hd => ReadLine_err_of_readable (hlines r (by simp) d hd))
    rw [List.flatMap_cons, failures_append, hrest]
    unfold ruleEvents
    rw [hrun]
    simp [failures, List.filterMap_append, List.filterMap_map]

/-- C23 (counterexample): the client of a rule process that never responds.  ExecuteRule
and GetRuleInfo do not fail with an RPC error, they do not return; the same process
called under a context with a deadline would make the call fail.  In a lint run whose
first enabled rule `ops/c0ffe` has such a process, runRule and lintFile do not return:
no failure is recorded for the rule and the rule error of the other enabled rule,
`aws/abc12`, is not reported. -/
theorem hung_rule_call_blocks :
    hungClient.ExecuteRule twoLineDoc = Call.blocked ∧
    hungClient.GetRuleInfo = Call.blocked ∧
    (¬ ∃ err, hungClient.ExecuteRule twoLineDoc = Call.failed err) ∧
    (¬ ∃ err, hungClient.GetRuleInfo = Call.failed err) ∧
    context.Background.deadline = none ∧
    (∃ err, hungClient.client.ExecuteRule { deadline := some 30 } twoLineDoc
      = Call.failed err) ∧
    hclWorld.plugin (RulePath hclWorld.configPath "ops" "c0ffe") hclDoc
      = PluginRun.ofCall (hungClient.ExecuteRule hclDoc) ∧
    (runRule hclWorld "ops" (mkRule "c0ffe" "uptime" true) "main.tf" hclDoc).1 = .blocked ∧
    (lintFile hclWorld stallCfg (hclFile "main.tf")).1 = .blocked ∧
    failures (lintFile hclWorld stallCfg (hclFile "main.tf")).2 = [] ∧
    reported (lintFile hclWorld stallCfg (hclFile "main.tf")).2 = [] := by
  refine ⟨rfl, rfl, ?_, ?_, rfl, ⟨_, rfl⟩, by decide, by decide, by decide, by decide,
    by decide⟩
  · rintro ⟨err, h⟩
    have hb : hungClient.ExecuteRule twoLineDoc = Call.blocked := rfl
    rw [hb] at h
    cases h
  · rintro ⟨err, h⟩
    have hb : hungClient.GetRuleInfo = Call.blocked := rfl
    rw [hb] at h
    cases h

/-- C23 (amended): no call to a rule process is bounded by a timeout.  ExecuteRule and
GetRuleInfo are made with `context.Background()`, so each ends as the process ends it,
however long that takes: with the answer, with the RPC error, or not at all when the
process never responds.  When, in the lint of a file that passes the memory check, is read
and parses, the call of one enabled rule fails with an RPC error and the other enabled
rules answer with rule errors on lines within reach, lintFile still reports the rule
errors of the other rules, records exactly one failure, that of the failing rule, and
returns the number of lint errors reported. -/
theorem rpc_failure_recorded_once (w : LintWorld) (cfg : Appcfg) (file : File)
    (contents : Bytes) (pre post : List (String × Rule)) (failed : String × Rule)
    (err : String) (diags : String × Rule → List RuleError)
    (hmem : checkAvailMemory (w.virtualMemory file) file = .ok ())
    (hread : file.ReadAll = .ok contents)
    (hparse : w.parseHCL contents file.Name = none)
    (hrules : enabledRules cfg = pre ++ failed :: post)
    (hcall : w.plugin (RulePath w.configPath failed.1 failed.2.ID) contents = .callError err)
    (hothers : ∀ r ∈ pre ++ post,
      w.plugin (RulePath w.configPath r.1 r.2.ID) contents
        = .response (ruleErrorsToProto (diags r)))
    (hlines : ∀ r ∈ pre ++ post, ∀ d ∈ diags r,
      ReadableLine contents d.Location.Start.Line) :
    (∀ (executeRule : Bytes → Process (List proto.RuleError))
        (getRuleInfo : Process proto.GetRuleInfoResponse) (request : Bytes),
      GRPCClient.ExecuteRule
          { client := proto.NewHCLvetRulePluginClient executeRule getRuleInfo } request
        = (match executeRule request with
           | .answers _ response => Call.returned response
           | .fails _ e => Call.failed e
           | .hangs => Call.blocked) ∧
      GRPCClient.GetRuleInfo
          { client := proto.NewHCLvetRulePluginClient executeRule getRuleInfo }
        = (match getRuleInfo with
           | .answers _ response => Call.returned response
           | .fails _ e => Call.failed e
           | .hangs => Call.blocked)) ∧
    reported (lintFile w cfg file).2
      = (pre ++ post).flatMap (fun r => (diags r).map (lintErrorOf file.Name contents r)) ∧
    failures (lintFile w cfg file).2
      = [(failed.2.Name, Error.msg ("could not execute linting rule: " ++ err))] ∧
    (lintFile w cfg file).1 = .ok (reported (lintFile w cfg file).2).length := by
  have hpre := reported_ruleEvents_readable w file.Name contents diags pre
    (fun r hr => hothers r (List.mem_append_left _ hr))
    (fun r hr => hlines r (List.mem_append_left _ hr))
  have hpost := reported_ruleEvents_readable w file.Name contents diags post
    (fun r hr => hothers r (List.mem_append_right _ hr))
    (fun r hr => hlines r (List.mem_append_right _ hr))
  have fpre := failures_ruleEvents_readable w file.Name contents diags pre
    (fun r hr => hothers r (List.mem_append_left _ hr))
    (fun r hr => hlines r (List.mem_append_left _ hr))
  have fpost := failures_ruleEvents_readable w file.Name contents diags post
    (fun r hr => hothers r (List.mem_append_right _ hr))
    (fun r hr => hlines r (List.mem_append_right _ hr))
  have hev := ruleEvents_of_callError w file.Name contents failed err hcall
  have hcount : ruleCount w file.Name contents failed = 0 := by
    unfold ruleCount runRule
    simp [hcall]
  have hrep : reported ((pre ++ failed :: post).flatMap (ruleEvents w file.Name contents))
      = (pre ++ post).flatMap (fun r => (diags r).map (lintErrorOf file.Name contents r)) := by
    rw [List.flatMap_append, List.flatMap_cons, reported_append, reported_append, hpre.1,
      hpost.1, hev, List.flatMap_append]
    simp [reported]
  have hlint := lintFile_of_answers w cfg file contents hmem hread hparse
    (by
      intro r hr
      rw [hrules, List.mem_append, List.mem_cons] at hr
      rcases hr with hr | rfl | hr
      · exact answers_of_toProto w contents r (diags r)
          (hothers r (List.mem_append_left _ hr))
      · exact answers_of_callError w contents r err hcall
      · exact answers_of_toProto w contents r (diags r)
          (hothers r (List.mem_append_right _ hr)))
  refine ⟨?_, ?_, ?_, ?_⟩
  · intro executeRule getRuleInfo request
    constructor
    · simp only [GRPCClient.ExecuteRule, proto.NewHCLvetRulePluginClient, unaryCall,
        context.Background]
      cases executeRule request <;> rfl
    · simp only [GRPCClient.GetRuleInfo, proto.NewHCLvetRulePluginClient, unaryCall,
        context.Background]
      cases getRuleInfo <;> rfl
  · rw [hlint, hrules]
    exact hrep
  · rw [hlint, hrules]
    simp only []
    rw [List.flatMap_append, List.flatMap_cons, failures_append, failures_append, fpre,
      fpost, hev]
    simp [failures]
  · rw [hlint, hrules]
    simp only []
    rw [hrep, List.map_append, List.map_cons, List.sum_append, List.sum_cons, hpre.2,
      hpost.2, hcount, List.flatMap_append, List.length_append]
    simp

/-- C23 (amended) at a concrete input: of the two enabled rules of `twoCfg`, `aws/abc12`
answers with one rule error on line 1 and the call of `gcp/abc12` fails. -/
theorem rpc_failure_recorded_once_witness :
    reported (lintFile hclWorld twoCfg (hclFile "main.tf")).2
      = [lintErrorOf "main.tf" hclDoc ("aws", mkRule "abc12" "bucket" true)
          (mkDiag "rename resource" 1)] ∧
    failures (lintFile hclWorld twoCfg (hclFile "main.tf")).2
      = [("zones", Error.msg ("could not execute linting rule: "
          ++ "rpc error: code = Unavailable desc = transport is closing"))] ∧
    (lintFile hclWorld twoCfg (hclFile "main.tf")).1
      = .ok (reported (lintFile hclWorld twoCfg (hclFile "main.tf")).2).length :=
  (rpc_failure_recorded_once hclWorld twoCfg (hclFile "main.tf") hclDoc
    [("aws", mkRule "abc12" "bucket" true)] [] ("gcp", mkRule "abc12" "zones" true)
    "rpc error: code = Unavailable desc = transport is closing"
    (fun _ => [mkDiag "rename resource" 1])
    (by decide) (by decide) (by decide) (by decide) (by decide) (by decide) (by decide)).2

/-! ## The claim on reading the output back -/

theorem foldl_invariant {α β : Type} (P : α → Prop) (f : α → β → α) :
    ∀ (l : List β) (a : α), P a → (∀ a b, b ∈ l → P a → P (f a b)) → P (l.foldl f a) := by
  intro l
  induction l with
  | nil => intro a h _; exact h
  | cons b rest ih =>
    intro a h hstep
    exact ih (f a b) (hstep a b (by simp) h)
      (fun a2 b2 hb2 hp => hstep a2 b2 (List.mem_cons_of_mem _ hb2) hp)

theorem setKey_of_new (m : List (String × String)) (key value : String)
    (h : key ∉ m.map Prod.fst) : json.setKey m key value = m ++ [(key, value)] := by
  unfold json.setKey
  rw [if_neg]
  simp only [List.any_eq_true, beq_iff_eq, not_exists, not_and]
  intro kv hkv heq
  exact h (List.mem_map.mpr ⟨kv, hkv, heq⟩)

/-- A metadata object with distinct keys decodes into the map of its members. -/
theorem decodeMap_members :
    ∀ (metadata acc : List (String × String)),
      (acc.map Prod.fst ++ metadata.map Prod.fst).Nodup →
      (metadata.map fun kv => ((kv.1, json.Value.string kv.2) : String × json.Value)).foldl
          (fun (acc : List (String × String) × Option json.UnmarshalTypeError)
              (member : String × json.Value) =>
            (json.setKey acc.1 member.1 (json.decodeString member.2 "").1,
              json.saveError acc.2 (json.decodeString member.2 "").2))
          (acc, none)
        = (acc ++ metadata, none) := by
  intro metadata
  induction metadata with
  | nil => intro acc _; simp
  | cons kv rest ih =>
    intro acc hnodup
    have hnew : kv.1 ∉ acc.map Prod.fst := by
      intro hmem
      rw [List.nodup_append] at hnodup
      exact hnodup.2.2 hmem (by simp)
    have hd : json.decodeString (json.Value.string kv.2) "" = (kv.2, none) := rfl
    have hs : json.saveError none none = none := rfl
    rw [List.map_cons, List.foldl_cons]
    simp only [hd, hs, setKey_of_new acc kv.1 kv.2 hnew]
    rw [ih (acc ++ [(kv.1, kv.2)]) (by
      simpa [List.map_append, List.append_assoc] using hnodup)]
    simp


/-- The object `data` decoded from a value without a member matching `lint_error` leaves
a nil `LintError` nil. -/
theorem decodeData_without_lint_error (v : json.Value) (d : LintErrorData)
    (hd : d.LintError = none)
    (hv : ∀ dataMembers, v = json.Value.object dataMembers →
      ∀ m ∈ dataMembers, json.equalFold m.1 "lint_error" = false) :
    (json.decodeData v d).1.LintError = none := by
  cases v with
  | object dataMembers =>
    simp only [json.decodeData, json.decodeStruct]
    refine foldl_invariant
      (fun (acc : LintErrorData × Option json.UnmarshalTypeError) => acc.1.LintError = none)
      _ dataMembers (d, none) hd ?_
    intro acc m hm hacc
    have := hv dataMembers rfl m hm
    simp only [this, Bool.false_eq_true, if_false]
    exact hacc
  | null => exact hd
  | bool b => exact hd
  | number n => exact hd
  | string t => exact hd
  | array items => exact hd

/-- C24: a line of the output that holds a lint error decodes without error into a
wrapper whose `Data.LintError` is not nil and carries the values of the object
`lint_error`: file path, line text, ruleset, the id, name, short and long description,
link and enabled flag of the rule, and the suggestion, remediation, location and metadata
of the rule error.  A line whose `data` has no `lint_error` leaves `Data.LintError`
nil. -/
theorem Unmarshal_tells_lint_errors_apart (label filepath line ruleset : String) (rule : Rule)
    (ruleErr : RuleError)
    (hstart : ruleErr.Location.Start.Line < 2 ^ 32 ∧ ruleErr.Location.Start.Column < 2 ^ 32)
    (hend : ruleErr.Location.End.Line < 2 ^ 32 ∧ ruleErr.Location.End.Column < 2 ^ 32)
    (hkeys : (ruleErr.Metadata.map Prod.fst).Nodup) :
    json.Unmarshal (lintErrorLine label filepath line ruleset rule ruleErr) newError
      = (⟨label, ⟨some { Filepath := filepath, Line := utf8Bytes line, RuleErr := ruleErr,
                         Rule := { rule with Check := none }, Ruleset := ruleset }⟩⟩, none) ∧
    ∀ v : json.Value, hasLintError v = false →
      (json.Unmarshal v newError).1.Data.LintError = none := by
  constructor
  · have hmap : json.decodeMap
        (.object (ruleErr.Metadata.map fun kv => (kv.1, json.Value.string kv.2))) []
          = (ruleErr.Metadata, none) := by
      have := decodeMap_members ruleErr.Metadata [] (by simpa using hkeys)
      simpa [json.decodeMap] using this
    have h1 : decide (ruleErr.Location.Start.Line < 2 ^ 32) = true := by simpa using hstart.1
    have h2 : decide (ruleErr.Location.Start.Column < 2 ^ 32) = true := by simpa using hstart.2
    have h3 : decide (ruleErr.Location.End.Line < 2 ^ 32) = true := by simpa using hend.1
    have h4 : decide (ruleErr.Location.End.Column < 2 ^ 32) = true := by simpa using hend.2
    simp +decide only [json.Unmarshal, json.decodeStruct, json.decodeData,
      json.decodeLintErrorPointer, json.decodeLintError, lintErrorLine, positionJSON,
      json.decodeRule, json.decodeRuleError, json.decodeRange, json.decodePosition,
      json.decodeString, json.decodeBool, json.decodeUint32, json.decodeLine, json.saveError,
      newError, json.zeroLintError, hmap, h1, h2, h3, h4, List.foldl_cons,
      List.foldl_nil, Option.getD_none, if_true, if_false, Bool.not_false, Bool.and_self,
      Bool.true_and, Bool.and_true]
  · intro v hv
    cases v with
    | object members =>
      simp only [json.Unmarshal, json.decodeStruct]
      refine foldl_invariant
        (fun (acc : LintErrorWrapper × Option json.UnmarshalTypeError) =>
          acc.1.Data.LintError = none)
        _ members (newError, none) rfl ?_
      intro acc m hm hacc
      by_cases hlabel : json.equalFold m.1 "label" = true
      · simp only [hlabel, if_true]
        exact hacc
      · by_cases hdata : json.equalFold m.1 "data" = true
        · simp only [hlabel, hdata, if_true, if_false]
          apply decodeData_without_lint_error _ _ hacc
          intro dataMembers hobj dm hdm
          simp only [hasLintError, List.any_eq_false, Bool.and_eq_true, not_and] at hv
          have h := hv m hm hdata
          rw [hobj] at h
          simp only [List.any_eq_true, not_exists, not_and] at h
          cases hf : json.equalFold dm.1 "lint_error" with
          | false => rfl
          | true => exact absurd hf (h dm hdm)
        · simp only [hlabel, hdata, if_false]
          exact hacc
    | null => rfl
    | bool b => rfl
    | number n => rfl
    | string t => rfl
    | array items => rfl

/-- C24 at a concrete input: the line decoded in `sdk_test.go`, and a line with a message
in place of a lint error. -/
theorem Unmarshal_tells_lint_errors_apart_witness :
    json.Unmarshal
        (lintErrorLine "error" "/home/clintjedwards/Documents/hclvet/internal/testdata/test1.tf"
          "resource \"google_compute_instance\" \"example\" \x7b" "example" testRule
          testRuleError) newError
      = (⟨"error", ⟨some
          { Filepath := "/home/clintjedwards/Documents/hclvet/internal/testdata/test1.tf",
            Line := utf8Bytes "resource \"google_compute_instance\" \"example\" \x7b",
            RuleErr := testRuleError, Rule := testRule, Ruleset := "example" }⟩⟩, none) ∧
    (json.Unmarshal infoLine newError).1.Data.LintError = none :=
  ⟨(Unmarshal_tells_lint_errors_apart "error"
      "/home/clintjedwards/Documents/hclvet/internal/testdata/test1.tf"
      "resource \"google_compute_instance\" \"example\" \x7b" "example" testRule testRuleError
      (by decide) (by decide) (by decide)).1,
   (Unmarshal_tells_lint_errors_apart "error"
      "/home/clintjedwards/Documents/hclvet/internal/testdata/test1.tf"
      "resource \"google_compute_instance\" \"example\" \x7b" "example" testRule testRuleError
      (by decide) (by decide) (by decide)).2 infoLine (by decide)⟩

end Hclvet
